import Mathlib

/-!
pico-tunnel: the T=1 block layer, the T=0 and T=1 loops, the host pipe, the ATR
parser and the supervisor of the ISO 7816 relay.

A shallow embedding of `pico-tunnel/util/util.c` and of the parts of
`pico-tunnel/pico_poc.c` that drive it, together with theorems about it.

Conventions of the embedding

* A byte is a `Nat` below 256.  The card UART delivers and accepts bytes, so
  `uart_getc` and `uart_putc_raw` reduce their operand modulo 256; inside the
  firmware `uint8_t` and `char` values are kept as they are (XOR, AND and OR of
  bytes are bytes) and reduced modulo 256 where C converts a wider value.
* `int` values are `Int`; `size_t` and `uint32_t` values are `Nat`, reduced
  modulo 2^32 where an operation can exceed the type.
* The Pico SDK is not part of the repository.  Its UART is modelled by the state
  `Uart`: the script `rx` of what the receive side shows the firmware each time
  it looks, the trace `tx` of transmitted bytes and the configured baud rate.
  Its USB pipe is modelled by the bytes the host sends and the bytes written to
  the host (`Host`).
* Debug logging and measurement messages (`write_usb_debug`, `print_tpdu`,
  `print_hex`, `write_usb_measurement`) only write to the host pipe; they are
  left out, so the trace of the host pipe holds the other frames.
* A call that never returns (a blocking read on a line that stays silent) is
  `Outcome.blocked`; C undefined behaviour (division by zero, a read or write
  outside the object a pointer refers to) is `Outcome.undefined`.
* A pointer to bytes is given by the bytes of the object it refers to; where the
  code stores the address of a local array in a record (`parse_ATR`), the record
  also says so (`payload_local`), since that array is gone when the function has
  returned.
* `double` values are exact rationals; the rounding of each floating-point
  operation is a parameter of the functions that compute with them.
* The two cores are not run against each other: a worker loop is followed by
  itself, with the globals it shares with the supervisor in `Host`, and the
  supervisor by what it launches on the second core.  The alarm set during a
  pass of the T=1 loop is taken not to fire before it is cancelled.
* The request for the first ATR in `main` sends four bytes from the address of a
  one-byte variable.  The three bytes behind it are a parameter (`stack`) and
  not treated as undefined, so that the loop around the request can be followed.
-/

namespace PicoTunnel

/-! ## Outcomes of firmware calls -/

/-- Result of running a firmware routine: it returns a value, it never returns
because a blocking read waits forever, or it runs into C undefined behaviour. -/
inductive Outcome (α : Type) where
  | done (a : α) : Outcome α
  | blocked : Outcome α
  | undefined : Outcome α
deriving DecidableEq, Repr

namespace Outcome

/-- Sequencing: the continuation runs only when the first call returned. -/
def bind {α β : Type} (x : Outcome α) (f : α → Outcome β) : Outcome β :=
  match x with
  | done a => f a
  | blocked => blocked
  | undefined => undefined

instance : Monad Outcome where
  pure := done
  bind := bind

/-- The call returned. -/
def isDone {α : Type} : Outcome α → Bool
  | done _ => true
  | _ => false

end Outcome

/-! ## The card UART (Pico SDK, modelled) -/

/-- One look of the firmware at the receive FIFO: either the next byte is there
(or arrives within the time the firmware is prepared to wait), or the look finds
nothing. -/
inductive RxEvent where
  | byte (b : Nat) : RxEvent
  | idle : RxEvent
deriving DecidableEq, Repr

/-- State of the card-facing UART. -/
structure Uart where
  /-- what the receive side will show, in order -/
  rx : List RxEvent
  /-- every byte transmitted so far, oldest first -/
  tx : List Nat
  /-- the baud rate last requested -/
  baud : Nat
deriving DecidableEq, Repr

/-- The bytes of a receive script, idle looks dropped. -/
def rxBytes : List RxEvent → List Nat
  | [] => []
  | RxEvent.byte b :: r => (b % 256) :: rxBytes r
  | RxEvent.idle :: r => rxBytes r

/-- Blocking read over a receive script: idle looks are waited through; on a line
that never delivers another byte the read does not return. -/
def getc_rx : List RxEvent → Option (Nat × List RxEvent)
  | [] => none
  | RxEvent.byte b :: r => some (b % 256, r)
  | RxEvent.idle :: r => getc_rx r

/-- SDK `uart_getc`: block until a byte is received and return it. -/
def uart_getc (u : Uart) : Outcome (Nat × Uart) :=
  match getc_rx u.rx with
  | none => Outcome.blocked
  | some (b, r) => Outcome.done (b, { u with rx := r })

/-- SDK `uart_putc_raw`: transmit one byte. -/
def uart_putc_raw (u : Uart) (c : Nat) : Uart :=
  { u with tx := u.tx ++ [c % 256] }

/-- SDK `uart_putc`: transmit one byte (CR/LF translation is off by default, so
it behaves as `uart_putc_raw`). -/
def uart_putc (u : Uart) (c : Nat) : Uart :=
  uart_putc_raw u c

/-- SDK `uart_is_readable_within_us`: wait up to the timeout for a byte.  A
pending byte is left in the FIFO; an idle look is used up. -/
def uart_is_readable_within_us (u : Uart) : Bool × Uart :=
  match u.rx with
  | [] => (false, u)
  | RxEvent.byte _ :: _ => (true, u)
  | RxEvent.idle :: r => (false, { u with rx := r })

/-- SDK `uart_is_readable`: is a byte in the FIFO right now. -/
def uart_is_readable (u : Uart) : Bool × Uart :=
  uart_is_readable_within_us u

/-- SDK `uart_set_baudrate`. -/
def uart_set_baudrate (u : Uart) (br : Nat) : Uart :=
  { u with baud := br }

/-- SDK `uart_tx_wait_blocking`: wait for the transmit FIFO to drain. -/
def uart_tx_wait_blocking (u : Uart) : Uart := u

/-! ## Constants of `util.h` -/

def PPS_LEN : Nat := 4
def MAX_INFORMATION_FIELD_SIZE : Nat := 254
def T1_I_BLOCK : Int := 0
def T1_R_BLOCK : Int := 1
def T1_S_BLOCK : Int := 2
def WAITING_TIME_EXTENSION_MULTIPIER : Nat := 0x02

/-- The T=1 block as the firmware holds it (`t1_tpdu`): prologue bytes, the
256-byte information buffer and the stored check byte. -/
structure t1_tpdu where
  nad : Nat
  pcb : Nat
  len : Nat
  apdu : List Nat
  check : Nat
deriving DecidableEq, Repr

/-- A `t1_tpdu` value as it exists in memory: three prologue bytes, 256 buffer
bytes and a check byte, with any contents. -/
def t1_tpdu.wf (t : t1_tpdu) : Prop :=
  t.nad < 256 ∧ t.pcb < 256 ∧ t.len < 256 ∧ t.apdu.length = 256 ∧
    (∀ x ∈ t.apdu, x < 256) ∧ t.check < 256

/-- XOR of a list of bytes. -/
def xorAll (l : List Nat) : Nat := l.foldl (fun a b => a ^^^ b) 0

/-! ## `util.c`: the serial line -/

/-- `discard_uart_buffer` on the receive script: bytes already in the FIFO are
read and dropped until a look finds the FIFO empty. -/
def discard_rx : List RxEvent → List RxEvent
  | [] => []
  | RxEvent.byte _ :: r => discard_rx r
  | RxEvent.idle :: r => r

/-- `discard_uart_buffer`: drain the receive FIFO, then wait for the transmitter. -/
def discard_uart_buffer (u : Uart) : Uart :=
  uart_tx_wait_blocking { u with rx := discard_rx u.rx }

/-- Loop of `sc_write`: put each byte on the line and read its echo back (a
mismatch is only logged). -/
def sc_write_loop (buf : List Nat) : Nat → Nat → Uart → Outcome (Nat × Uart)
  | 0, pos, u => Outcome.done (pos, u)
  | fuel + 1, pos, u =>
    if pos < buf.length then
      match uart_getc (uart_putc u (buf.getD pos 0)) with
      | Outcome.done (_, u1) => sc_write_loop buf fuel (pos + 1) u1
      | Outcome.blocked => Outcome.blocked
      | Outcome.undefined => Outcome.undefined
    else Outcome.done (pos, u)

/-- `sc_write`: write the buffer to the UART with echo read-back; returns the
number of bytes written. -/
def sc_write (u : Uart) (buf : List Nat) : Outcome (Int × Uart) :=
  match sc_write_loop buf buf.length 0 (discard_uart_buffer u) with
  | Outcome.done (pos, u1) => Outcome.done ((pos : Int), u1)
  | Outcome.blocked => Outcome.blocked
  | Outcome.undefined => Outcome.undefined

/-! ## `util.c`: block classification -/

/-- `check_block_kind`: I-, R- or S-block by the PCB. -/
def check_block_kind (tpdu : t1_tpdu) : Int :=
  if tpdu.pcb < 128 then T1_I_BLOCK
  else if tpdu.pcb ≥ 128 ∧ tpdu.pcb < 128 + 64 then T1_R_BLOCK
  else T1_S_BLOCK

/-- `t1_classify_r_block`. -/
def t1_classify_r_block (tpdu : t1_tpdu) : Int :=
  if tpdu.pcb = 0x80 ∨ tpdu.pcb = 0x90 then 0
  else if tpdu.pcb = 0x81 ∨ tpdu.pcb = 0x91 ∨ tpdu.pcb = 0x82 ∨ tpdu.pcb = 0x92 then 1
  else -1

/-- `t1_adjust_sequence_bit`: returns the new counter and the modified block. -/
def t1_adjust_sequence_bit (sequence_counter : Int) (tpdu : t1_tpdu) : Int × t1_tpdu :=
  if sequence_counter % 2 = 0 then
    (0, { tpdu with pcb := tpdu.pcb &&& 0xBF })
  else
    (1, { tpdu with pcb := tpdu.pcb ||| 0x40 })

/-! ## `util.c`: writing a block -/

/-- The byte `t1_write` sends at position `pos` (the `switch` in its loop). -/
def t1_write_byte (tpdu : t1_tpdu) (pos : Nat) : Nat :=
  match pos with
  | 0 => tpdu.nad
  | 1 => tpdu.pcb
  | 2 => tpdu.len
  | _ => tpdu.apdu.getD (pos - 3) 0

/-- Loop of `t1_write` over the positions below `3 + len`: accumulate the
checksum, transmit the byte, read the echo back (a mismatch is only logged).
Returns the checksum. -/
def t1_write_loop (tpdu : t1_tpdu) : Nat → Nat → Nat → Uart → Outcome (Nat × Uart)
  | 0, _, checksum, u => Outcome.done (checksum, u)
  | fuel + 1, pos, checksum, u =>
    if pos < 3 + tpdu.len then
      let c := t1_write_byte tpdu pos
      match uart_getc (uart_putc_raw u c) with
      | Outcome.done (_, u1) => t1_write_loop tpdu fuel (pos + 1) (checksum ^^^ c) u1
      | Outcome.blocked => Outcome.blocked
      | Outcome.undefined => Outcome.undefined
    else Outcome.done (checksum, u)

/-- `t1_write`: send NAD, PCB, LEN, INF and the computed LRC; returns 1. -/
def t1_write (u : Uart) (tpdu : t1_tpdu) : Outcome (Int × Uart) :=
  match t1_write_loop tpdu (3 + tpdu.len) 0 0 u with
  | Outcome.done (checksum, u1) =>
    match uart_getc (uart_putc_raw u1 checksum) with
    | Outcome.done (_, u2) => Outcome.done (1, u2)
    | Outcome.blocked => Outcome.blocked
    | Outcome.undefined => Outcome.undefined
  | Outcome.blocked => Outcome.blocked
  | Outcome.undefined => Outcome.undefined

/-! ## `util.c`: the rate tables and the baud rate -/

/-- `convert_f`: table for the F parameter, indexed by the high nibble. -/
def convert_f (TA1 : Nat) : Nat :=
  match TA1 >>> 4 with
  | 2 => 558
  | 3 => 744
  | 4 => 1116
  | 5 => 1408
  | 6 => 1860
  | 9 => 512
  | 10 => 768
  | 11 => 1024
  | 12 => 1536
  | 13 => 2048
  | _ => 372

/-- `convert_d`: table for the D parameter, indexed by the low nibble. -/
def convert_d (TA1 : Nat) : Nat :=
  match TA1 % 16 with
  | 1 => 1
  | 2 => 2
  | 3 => 4
  | 4 => 8
  | 5 => 16
  | 6 => 32
  | 8 => 12
  | 9 => 20
  | _ => 1

/-- `calculate_baudrate`: `(modem_clk * di) / fi` in `uint32_t` arithmetic. -/
def calculate_baudrate (fi di modem_clk : Nat) : Outcome Nat :=
  if fi % 2 ^ 32 = 0 then Outcome.undefined
  else Outcome.done ((modem_clk * di) % 2 ^ 32 / (fi % 2 ^ 32))

/-! ## `util.c`: reading a block -/

/-- Loop of `t1_read` over the information field: read a byte, add it to the
checksum, store it, then wait for the next byte.  The flag is `false` when that
wait timed out (the function then returns -2). -/
def t1_read_loop : Nat → Nat → Int → Nat → Uart → t1_tpdu →
    Outcome (Bool × Int × Nat × Uart × t1_tpdu)
  | 0, _, pos, checksum, u, tpdu => Outcome.done (true, pos, checksum, u, tpdu)
  | fuel + 1, i, pos, checksum, u, tpdu =>
    if i < tpdu.len then
      (uart_getc u).bind fun g =>
        let tpdu1 := { tpdu with apdu := tpdu.apdu.set i g.1 }
        let r := uart_is_readable_within_us g.2
        if r.1 = false then Outcome.done (false, pos, checksum ^^^ g.1, r.2, tpdu1)
        else t1_read_loop fuel (i + 1) (pos + 1) (checksum ^^^ g.1) r.2 tpdu1
    else Outcome.done (true, pos, checksum, u, tpdu)

/-- `t1_read`: read one block from the UART.  Returns -2 on a timeout, -1 on a
checksum mismatch, -3 after answering a PPS request, otherwise `pos`. -/
def t1_read (fixed_clk : Nat) (u : Uart) (tpdu : t1_tpdu) : Outcome (Int × Uart × t1_tpdu) :=
  let r1 := uart_is_readable_within_us u
  if r1.1 = false then Outcome.done (-2, r1.2, tpdu) else
  (uart_getc r1.2).bind fun g1 =>
  let tpdu1 := { tpdu with nad := g1.1 }
  let r2 := uart_is_readable_within_us g1.2
  if r2.1 = false then Outcome.done (-2, r2.2, tpdu1) else
  (uart_getc r2.2).bind fun g2 =>
  let tpdu2 := { tpdu1 with pcb := g2.1 }
  let r3 := uart_is_readable_within_us g2.2
  if r3.1 = false then Outcome.done (-2, r3.2, tpdu2) else
  (uart_getc r3.2).bind fun g3 =>
  let tpdu3 := { tpdu2 with len := g3.1 }
  let checksum := ((0 ^^^ g1.1) ^^^ g2.1) ^^^ g3.1
  if tpdu3.nad = 0xFF then
    let r4 := uart_is_readable_within_us g3.2
    if r4.1 = false then Outcome.done (-2, r4.2, tpdu3) else
    (uart_getc r4.2).bind fun g4 =>
    (sc_write g4.2 [tpdu3.nad, tpdu3.pcb, tpdu3.len, g4.1]).bind fun w =>
    let fi := convert_f tpdu3.len
    let di := convert_d tpdu3.len % 256
    let u1 := uart_tx_wait_blocking w.2
    (calculate_baudrate fi di fixed_clk).bind fun br =>
    Outcome.done (-3, uart_set_baudrate u1 br, tpdu3)
  else
  (t1_read_loop tpdu3.len 0 3 checksum g3.2 tpdu3).bind fun l =>
  if l.1 = false then Outcome.done (-2, l.2.2.2.1, l.2.2.2.2) else
  (uart_getc l.2.2.2.1).bind fun g5 =>
  let pos := l.2.1 + 1
  if g5.1 ≠ l.2.2.1 then Outcome.done (-1, g5.2, l.2.2.2.2)
  else Outcome.done (pos, g5.2, l.2.2.2.2)

/-- `t1_read_into_tpdu`: fill the block from its parts and store the checksum.
`buffer` is the memory at the source pointer; it holds at least `len` bytes. -/
def t1_read_into_tpdu (nad pcb len : Nat) (buffer : List Nat) (tpdu : t1_tpdu) : t1_tpdu :=
  { nad := nad
    pcb := pcb
    len := len
    apdu := buffer.take len ++ tpdu.apdu.drop len
    check := (buffer.take len).foldl (fun a b => a ^^^ b) (((0 ^^^ nad) ^^^ pcb) ^^^ len) }

/-! ## `util.c`: S-blocks and the answer to a written block -/

/-- `t1_handle_s_block`: returns the code, the UART, the (modified) block, the
sequence counter and the accepted size.  (In the case 0xC2 the source first
stores 0xD2 in the PCB and overwrites it with 0xE2 two lines later.) -/
def t1_handle_s_block (u : Uart) (tpdu : t1_tpdu) (sequence_counter : Int)
    (accepted_size : Nat) : Outcome (Int × Uart × t1_tpdu × Int × Nat) :=
  if tpdu.pcb = 0xC0 then
    let t := { tpdu with nad := 0x00, pcb := 0xE0, len := 0x00 }
    (t1_write u t).bind fun w => Outcome.done (1, w.2, t, 0, 32)
  else if tpdu.pcb = 0xC1 then
    let t := { tpdu with pcb := 0xE1 }
    let accepted := t.apdu.getD 0 0 % 256
    (t1_write u t).bind fun w => Outcome.done (2, w.2, t, sequence_counter + w.1, accepted)
  else if tpdu.pcb = 0xE1 then
    Outcome.done (-1, u, tpdu, sequence_counter, accepted_size)
  else if tpdu.pcb = 0xC2 then
    let t := { tpdu with nad := 0x00, pcb := 0xE2, len := 0x00 }
    (t1_write u t).bind fun w => Outcome.done (3, w.2, t, sequence_counter + w.1, accepted_size)
  else if tpdu.pcb = 0xE2 then
    Outcome.done (-1, u, tpdu, sequence_counter, accepted_size)
  else if tpdu.pcb = 0xE3 then
    Outcome.done (-1, u, tpdu, sequence_counter, accepted_size)
  else
    Outcome.done (0, u, tpdu, sequence_counter, accepted_size)

/-- `t1_handle_response_from_write` with a bound on the number of resends; every
resend uses up at least four entries of the receive script, so the bound
`rx.length + 1` is never reached.  Returns the code, the UART, the received
block, the sequence counter and the accepted size. -/
def t1_handle_response_from_write_fuel (fixed_clk : Nat) :
    Nat → Uart → t1_tpdu → t1_tpdu → Int → Nat → Outcome (Int × Uart × t1_tpdu × Int × Nat)
  | 0, _, _, _, _, _ => Outcome.blocked
  | fuel + 1, u, send_tpdu, recv_tpdu, sequence_counter, accepted_size =>
    let block_kind := check_block_kind recv_tpdu
    if block_kind = T1_S_BLOCK then
      (t1_handle_s_block u recv_tpdu sequence_counter accepted_size).bind fun s =>
        Outcome.done (-1, s.2.1, s.2.2.1, s.2.2.2.1, s.2.2.2.2)
    else if block_kind = T1_R_BLOCK then
      let r_case := t1_classify_r_block recv_tpdu
      if r_case = 0 then Outcome.done (0, u, recv_tpdu, sequence_counter, accepted_size)
      else
        (t1_write u send_tpdu).bind fun w =>
        (t1_read fixed_clk w.2 recv_tpdu).bind fun r =>
        t1_handle_response_from_write_fuel fixed_clk fuel r.2.1 send_tpdu r.2.2
          (sequence_counter + w.1) accepted_size
    else Outcome.done (-2, u, recv_tpdu, sequence_counter, accepted_size)

/-- `t1_handle_response_from_write`. -/
def t1_handle_response_from_write (fixed_clk : Nat) (u : Uart) (send_tpdu recv_tpdu : t1_tpdu)
    (sequence_counter : Int) (accepted_size : Nat) :
    Outcome (Int × Uart × t1_tpdu × Int × Nat) :=
  t1_handle_response_from_write_fuel fixed_clk (u.rx.length + 1) u send_tpdu recv_tpdu
    sequence_counter accepted_size

/-! ## `util.c`: chained writing -/

/-- Conversion of a `size_t` value to `int`. -/
def toInt32 (x : Nat) : Int :=
  if x % 2 ^ 32 < 2 ^ 31 then ((x % 2 ^ 32 : Nat) : Int) else ((x % 2 ^ 32 : Nat) : Int) - 2 ^ 32

/-- The block count `num_iblocks` computed at the head of
`t1_write_complete_buffer` (for a block size other than 0). -/
def num_iblocks (buffer_size block_size : Nat) : Int :=
  let n := toInt32 (buffer_size / block_size + 1)
  if buffer_size % block_size = 0 ∧ buffer_size ≠ 0 then n - 1 else n

/-- A block filled with zero bytes (`memset`). -/
def zero_tpdu : t1_tpdu :=
  { nad := 0, pcb := 0, len := 0, apdu := List.replicate 256 0, check := 0 }

/-- Body of the `for` loop of `t1_write_complete_buffer`, run for the remaining
number of iterations.  `sent_size` never exceeds the buffer size (each step adds
at most what is left), so the subtraction is the C one.  Returns the final
`send_tpdu`. -/
def t1_write_complete_buffer_loop (fixed_clk : Nat) (buffer : List Nat) :
    Nat → Nat → t1_tpdu → t1_tpdu → Int → Nat → Uart → Outcome (t1_tpdu × Uart)
  | 0, _, send_tpdu, _, _, _, u => Outcome.done (send_tpdu, u)
  | n + 1, block_size, send_tpdu, recv_tpdu, sequence_counter, sent_size, u =>
    let buffer_size := buffer.length
    let current_block_size :=
      if buffer_size - sent_size > block_size then block_size
      else (buffer_size - sent_size) % 256
    let pcb1 :=
      if sent_size + current_block_size < buffer_size then send_tpdu.pcb ||| (0x1 <<< 5)
      else send_tpdu.pcb &&& 0xdf
    let send1 := t1_read_into_tpdu send_tpdu.nad pcb1 current_block_size
      (buffer.drop sent_size) { send_tpdu with pcb := pcb1, len := current_block_size }
    (t1_write u send1).bind fun w =>
    let sc1 := sequence_counter + w.1
    let send2 := if sc1 % 2 = 0 then { send1 with pcb := send1.pcb &&& 0xBF }
      else { send1 with pcb := send1.pcb ||| 0x40 }
    let sc2 : Int := if sc1 % 2 = 0 then 0 else 1
    let sent1 := sent_size + current_block_size
    if sent1 = buffer_size then
      t1_write_complete_buffer_loop fixed_clk buffer n block_size send2 recv_tpdu sc2 sent1 w.2
    else
      (t1_read fixed_clk w.2 recv_tpdu).bind fun r =>
      (t1_handle_response_from_write fixed_clk r.2.1 send2 r.2.2 sc2 block_size).bind fun h =>
      t1_write_complete_buffer_loop fixed_clk buffer n h.2.2.2.2 send2 h.2.2.1 h.2.2.2.1
        sent1 h.2.1

/-- `t1_write_complete_buffer`: send the buffer as a chain of I-blocks.  The
buffer holds `buffer_size` bytes; `block_size` is a `uint8_t`. -/
def t1_write_complete_buffer (fixed_clk : Nat) (u : Uart) (block_size : Nat) (tpdu : t1_tpdu)
    (buffer : List Nat) : Outcome (Int × Uart) :=
  if block_size = 0 then Outcome.undefined else
  let n := num_iblocks buffer.length block_size
  let send_tpdu := { zero_tpdu with nad := tpdu.nad, pcb := tpdu.pcb }
  (t1_write_complete_buffer_loop fixed_clk buffer n.toNat block_size send_tpdu zero_tpdu 0 0 u).bind
    fun l => Outcome.done (if l.1.pcb ≠ 0 ∧ (0x40 : Nat) ≠ 0 then 1 else 0, l.2)

/-! ## `util.c`: the waiting-time-extension alarm -/

/-- `t1_timer_block_waiting_extension`: the alarm callback.  `seq` is the counter
`seq` of `util.h` as `util.c` sees it; `s_block` and `response` are the two local
blocks, which the function does not initialise.  Returns the new interval, the
UART, the counter and the block read. -/
def t1_timer_block_waiting_extension (fixed_clk : Nat) (u : Uart) (seq : Int) (bwt : Int)
    (s_block response : t1_tpdu) : Outcome (Int × Uart × Int × t1_tpdu) :=
  let s := { s_block with nad := 0x00, pcb := 0xC3, len := 0x01,
                          apdu := s_block.apdu.set 0 WAITING_TIME_EXTENSION_MULTIPIER }
  (t1_write u s).bind fun w =>
  (t1_read fixed_clk w.2 response).bind fun r =>
  Outcome.done (bwt, r.2.1, seq + w.1, r.2.2)

/-! ## `util.c`: the ATR parser -/

/-- The integer fields of `answer_to_reset` and the pointer `payload`.  The
pointer is given by the bytes of the object it points to (`payload`) and by
which object that is: `payload_local` is true when it is the array `inv_atr`,
a local variable of an activation of `parse_ATR` (line 835), and false when it
is a buffer of the caller.  The array `inv_atr` ends its lifetime when that
activation returns, so a record returned with `payload_local` true holds a
dangling pointer.  The floating-point fields `work_etu`, `BWT_us` and `CWT_us`,
which `parse_ATR` computes last from `D`, `F`, `BWI` and `CWI`, are not part of
this record. -/
structure answer_to_reset where
  D : Int
  F : Int
  IFSC : Nat
  BWI : Nat
  CWI : Nat
  len : Nat
  protocol : Nat
  payload : List Nat
  payload_local : Bool
deriving DecidableEq, Repr

/-- Read `payload[i]`; a read outside the object `payload` points to is C
undefined behaviour. -/
def atr_byte (payload : List Nat) (i : Nat) : Outcome Nat :=
  match payload[i]? with
  | some b => Outcome.done b
  | none => Outcome.undefined

/-- Loop of `parse_ATR` for TS = 0x3F: `inv_atr[i] = ~payload[i]` for `i` from 1
below `len`.  Every entry of `inv_atr` is written once, in order, so the array
is built by appending. -/
def invert_loop (payload : List Nat) (len : Nat) : Nat → Nat → List Nat → Outcome (List Nat)
  | 0, _, inv => Outcome.done inv
  | fuel + 1, i, inv =>
    if i < len then
      (atr_byte payload i).bind fun b => invert_loop payload len fuel (i + 1) (inv ++ [255 - b % 256])
    else Outcome.done inv

/-- The array `inv_atr` of `parse_ATR`: `len` entries, 0x3B first.  An array of
length 0 cannot hold the first entry. -/
def atr_inverse (atr : answer_to_reset) : Outcome (List Nat) :=
  if atr.len = 0 then Outcome.undefined
  else invert_loop atr.payload atr.len (atr.len - 1) 1 [0x3B]

/-- `parse_ATR`, lines 852 to 878: T0, TA1 and TD1.  Returns the record, TD1 (0
when absent) and the index of the next byte. -/
def parse_ATR_T0 (atr : answer_to_reset) : Outcome (answer_to_reset × Nat × Nat) :=
  (atr_byte atr.payload 1).bind fun t0 =>
  (if (t0 >>> 4) % 2 = 1 then
      (atr_byte atr.payload 2).bind fun ta1 =>
        Outcome.done ({ atr with D := (convert_d ta1 : Nat), F := (convert_f ta1 : Nat) }, 3)
    else Outcome.done (atr, 2)).bind fun a =>
  let index1 := if (t0 >>> 5) % 2 = 1 then a.2 + 1 else a.2
  let index2 := if (t0 >>> 6) % 2 = 1 then index1 + 1 else index1
  if (t0 >>> 7) % 2 = 1 then
    (atr_byte atr.payload index2).bind fun TD1 =>
      let atr1 :=
        if TD1 % 16 = 1 then { a.1 with protocol := 1 }
        else if TD1 % 16 = 0 then { a.1 with protocol := 0 }
        else { a.1 with D := 1, F := 372 }
      Outcome.done (atr1, TD1, index2 + 1)
  else Outcome.done (a.1, 0, index2)

/-- `parse_ATR`, lines 880 to 895: the bytes announced by TD1.  Returns `TD_next`
(0 when no TD2 follows) and the index of the next byte. -/
def parse_ATR_TD1 (payload : List Nat) (TD1 index : Nat) : Outcome (Nat × Nat) :=
  let index1 := if (TD1 >>> 4) % 2 = 1 then index + 1 else index
  let index2 := if (TD1 >>> 5) % 2 = 1 then index1 + 1 else index1
  let index3 := if (TD1 >>> 6) % 2 = 1 then index2 + 1 else index2
  if (TD1 >>> 7) % 2 = 1 then
    (atr_byte payload index3).bind fun TD_next => Outcome.done (TD_next, index3 + 1)
  else Outcome.done (0, index3)

/-- `parse_ATR`, lines 897 to 930: the `while (TD_next >= 16)` loop over the
later TD bytes.  Each further round reads a byte at a larger index, so the fuel
`payload.length + 1` is never used up. -/
def parse_ATR_loop (payload : List Nat) :
    Nat → Nat → Nat → answer_to_reset → Outcome answer_to_reset
  | 0, TD_next, _, atr => if TD_next ≥ 16 then Outcome.blocked else Outcome.done atr
  | fuel + 1, TD_next, index, atr =>
    if TD_next ≥ 16 then
      let TD_now := TD_next
      (if (TD_now >>> 4) % 2 = 1 then
          (atr_byte payload index).bind fun x => Outcome.done (x % 256, index + 1)
        else Outcome.done (32, index)).bind fun a =>
      (if (TD_now >>> 5) % 2 = 1 then
          (atr_byte payload a.2).bind fun x => Outcome.done (x >>> 4, x % 16, a.2 + 1)
        else Outcome.done (4, 13, a.2)).bind fun b =>
      let index3 := if (TD_now >>> 6) % 2 = 1 then b.2.2 + 1 else b.2.2
      if (TD_now >>> 7) % 2 = 1 then
        (atr_byte payload index3).bind fun TD_next1 =>
          let atr1 :=
            if TD_next1 % 16 ≤ 1 then { atr with IFSC := a.1, BWI := b.1, CWI := b.2.1 }
            else atr
          parse_ATR_loop payload fuel TD_next1 (index3 + 1) atr1
      else
        let atr1 :=
          if TD_now % 16 ≤ 1 then { atr with IFSC := a.1, BWI := b.1, CWI := b.2.1 }
          else atr
        parse_ATR_loop payload fuel 0 index3 atr1
    else Outcome.done atr

/-- `parse_ATR`, lines 844 to 930, reached when TS is 0x3B: set the defaults,
then walk T0, TD1 and the later TD bytes. -/
def parse_ATR_fields (atr : answer_to_reset) : Outcome answer_to_reset :=
  let atr0 := { atr with D := 1, F := 372, IFSC := 32, BWI := 4, CWI := 13, protocol := 2 }
  (parse_ATR_T0 atr0).bind fun s =>
  (parse_ATR_TD1 atr0.payload s.2.1 s.2.2).bind fun t =>
  parse_ATR_loop atr0.payload (atr0.payload.length + 1) t.1 t.2 s.1

/-- `parse_ATR`, bounded in the depth of its recursion: the call for TS = 0x3F
re-enters with an array that starts with 0x3B, so depth 2 is never exceeded. -/
def parse_ATR_fuel : Nat → answer_to_reset → Outcome answer_to_reset
  | 0, _ => Outcome.blocked
  | fuel + 1, atr =>
    (atr_byte atr.payload 0).bind fun TS =>
    if TS = 0x3F then
      (atr_inverse atr).bind fun inv_atr =>
        parse_ATR_fuel fuel { atr with payload := inv_atr, payload_local := true }
    else if TS ≠ 0x3B then Outcome.done atr
    else parse_ATR_fields atr

/-- `parse_ATR`. -/
def parse_ATR (atr : answer_to_reset) : Outcome answer_to_reset :=
  parse_ATR_fuel 2 atr

/-! ## `util.c`: the waiting times computed by `parse_ATR` -/

/-- Conversion of a `double` to `long` (32 bits on the RP2040): the fraction is
dropped; a value outside the range of `long` is C undefined behaviour. -/
def double_to_long (x : ℚ) : Outcome Int :=
  let t : Int := if 0 ≤ x then ⌊x⌋ else ⌈x⌉
  if -(2 : Int) ^ 31 ≤ t ∧ t < (2 : Int) ^ 31 then Outcome.done t else Outcome.undefined

/-- `get_sc_reader_clk`: the reading of the frequency counter in kHz, times
1000, in `uint32_t` arithmetic.  `f_clk_peri` stands for what the SDK function
`frequency_count_khz` returns. -/
def get_sc_reader_clk (f_clk_peri : Nat) : Nat :=
  (f_clk_peri % 2 ^ 32 * 1000) % 2 ^ 32

/-- `parse_ATR`, lines 934 and 938: `Hz = get_sc_reader_clk()` and
`work_etu = (1 / D_d) * (atr->F / Hz)`.  The C code computes in `double`; `fl`
rounds the exact result of one floating-point operation (the identity gives
exact arithmetic).  The value is meant for `D` and `Hz` other than 0, where the
C quotient is finite. -/
def parse_ATR_work_etu (fl : ℚ → ℚ) (D F : Int) (f_clk_peri : Nat) : ℚ :=
  let Hz : ℚ := (get_sc_reader_clk f_clk_peri : Nat)
  fl (fl (1 / (D : ℚ)) * fl ((F : ℚ) / Hz))

/-- `parse_ATR`, lines 934, 940 and 941: `Hz = get_sc_reader_clk()` and
`BWT_us = ((pow(2, BWI) * 960 * F_d / Hz) + work_etu) * 1000000`, stored in a
`long`.  With `D` or `Hz` equal to 0 the C value is infinite or not a number,
and its conversion to `long` is undefined. -/
def parse_ATR_BWT_us (fl : ℚ → ℚ) (BWI : Nat) (D F : Int) (f_clk_peri : Nat) : Outcome Int :=
  let Hz : ℚ := (get_sc_reader_clk f_clk_peri : Nat)
  if D = 0 ∨ get_sc_reader_clk f_clk_peri = 0 then Outcome.undefined
  else
    double_to_long
      (fl (fl (fl (fl (fl (fl ((2 : ℚ) ^ BWI) * 960) * (F : ℚ)) / Hz) +
        parse_ATR_work_etu fl D F f_clk_peri) * 1000000))

/-- `parse_ATR`, lines 934 and 943: `Hz = get_sc_reader_clk()` and
`CWT_us = (pow(2, CWI) + 11) * work_etu * 1000000`, stored in a `long`.  With
`D` or `Hz` equal to 0 the C value is infinite or not a number, and its
conversion to `long` is undefined. -/
def parse_ATR_CWT_us (fl : ℚ → ℚ) (CWI : Nat) (D F : Int) (f_clk_peri : Nat) : Outcome Int :=
  if D = 0 ∨ get_sc_reader_clk f_clk_peri = 0 then Outcome.undefined
  else
    double_to_long
      (fl (fl (fl (fl ((2 : ℚ) ^ CWI) + 11) * parse_ATR_work_etu fl D F f_clk_peri) * 1000000))

/-! ## The host pipe and the state shared with the supervisor -/

def OP_APDU : Nat := 0x00
def OP_RESET : Nat := 0x01
def OP_DEBUGMSG : Nat := 0x02
def OP_SENDATR : Nat := 0x03
def OP_MEASUREMENT : Nat := 0x04
def OP_REQUEST_STATE : Nat := 0x05
def OP_SET_UARTMODE : Nat := 0x06
def OP_SET_LOGLEVEL : Nat := 0x07
def HEADER_LEN : Nat := 5
def SW_LEN : Nat := 2
def MAX_ATR_SIZE : Nat := 34
def APDU_BUFFER_LEN : Nat := 1024

/-- What the functions of the host side work on: the USB pipe (`inp` holds
the bytes the host sends, in order, `out` the bytes written to the host so far,
debug and measurement messages left out), the three queues to the supervisor
and the globals of `pico_poc.c`. -/
structure Host where
  inp : List Nat
  out : List Nat
  update_atr_queue : List answer_to_reset
  update_uartmode_queue : List (Nat × Int)
  update_loglevel_queue : List Nat
  current_state : Nat
  mode : Int
  fixed_clk : Int
  current_loglevel : Int
deriving DecidableEq, Repr

/-- SDK `queue_try_add` for the queues of `pico_poc.c`, which `main` creates
with room for two entries: the entry is added unless the queue is full. -/
def queue_try_add {α : Type} (q : List α) (e : α) : Bool × List α :=
  if q.length < 2 then (true, q ++ [e]) else (false, q)

/-- The four bytes of a `uint32_t` in memory (the RP2040 is little-endian). -/
def u32_bytes (n : Nat) : List Nat :=
  [n % 256, n / 256 % 256, n / 65536 % 256, n / 16777216 % 256]

/-- The `uint32_t` held by four bytes of memory. -/
def u32_of_bytes (l : List Nat) : Nat :=
  l.getD 0 0 % 256 + 256 * (l.getD 1 0 % 256) + 65536 * (l.getD 2 0 % 256) +
    16777216 * (l.getD 3 0 % 256)

/-- `write_usb_uart`: the opcode, the four bytes of `len`, then `len` bytes of
`data`. -/
def write_usb_uart (h : Host) (opcode : Nat) (data : List Nat) (len : Nat) : Outcome Host :=
  let h1 := { h with out := h.out ++ [opcode % 256] }
  let h2 := { h1 with out := h1.out ++ u32_bytes len }
  if len > 0 then
    if len ≤ data.length then
      Outcome.done { h2 with out := h2.out ++ (data.take len).map (· % 256) }
    else Outcome.undefined
  else Outcome.done h2

/-- `write_usb_uart_apdu`. -/
def write_usb_uart_apdu (h : Host) (data : List Nat) (len : Nat) : Outcome Host :=
  write_usb_uart h OP_APDU data len

/-- `read_usb_uart_blocking`: collect `len` bytes from the host in `data`,
however the pipe hands them over; it returns `len`.  The call does not return
when the host sends fewer bytes, and it writes past the end of `data` when
`data` is shorter than `len` and the bytes do arrive. -/
def read_usb_uart_blocking (h : Host) (data : List Nat) (len : Nat) :
    Outcome (Int × Host × List Nat) :=
  if len ≤ data.length then
    if len ≤ h.inp.length then
      Outcome.done ((len : Int), { h with inp := h.inp.drop len },
        (h.inp.take len).map (· % 256) ++ data.drop len)
    else Outcome.blocked
  else if data.length < h.inp.length then Outcome.undefined
  else Outcome.blocked

/-- `read_usb_uart_apdu`, bounded in the depth of its recursion (every call
takes at least five bytes from the pipe).  `uninit` stands for the contents of
the uninitialised local `atr` and, in its payload, of the `MAX_ATR_SIZE` bytes
that `malloc` returns.  In the `int` built from `data[1]` to `data[4]` a set top
bit wraps to a negative value. -/
def read_usb_uart_apdu_fuel (uninit : answer_to_reset) :
    Nat → Host → List Nat → Outcome (Nat × Host × List Nat)
  | 0, _, _ => Outcome.blocked
  | fuel + 1, h, data =>
    (read_usb_uart_blocking h [0] 1).bind fun r1 =>
    let opcode := r1.2.2.getD 0 0
    (read_usb_uart_blocking r1.2.1 [0, 0, 0, 0] 4).bind fun r2 =>
    let len := u32_of_bytes r2.2.2
    (read_usb_uart_blocking r2.2.1 data len).bind fun r3 =>
    let h3 := r3.2.1
    let data3 := r3.2.2
    if opcode = OP_SENDATR then
      let n := len % 256
      if n ≤ MAX_ATR_SIZE ∧ n ≤ data3.length then
        let atr : answer_to_reset :=
          { uninit with len := n, payload := data3.take n ++ uninit.payload.drop n,
                        payload_local := false }
        (parse_ATR atr).bind fun atr1 =>
        let q := queue_try_add h3.update_atr_queue atr1
        read_usb_uart_apdu_fuel uninit fuel { h3 with update_atr_queue := q.2 } data3
      else Outcome.undefined
    else if opcode = OP_REQUEST_STATE then
      (write_usb_uart h3 OP_REQUEST_STATE [h3.current_state % 256] 1).bind fun h4 =>
      read_usb_uart_apdu_fuel uninit fuel h4 data3
    else if opcode = OP_SET_UARTMODE then
      (atr_byte data3 0).bind fun m =>
      (atr_byte data3 1).bind fun d1 =>
      (atr_byte data3 2).bind fun d2 =>
      (atr_byte data3 3).bind fun d3 =>
      (atr_byte data3 4).bind fun d4 =>
      let clk := toInt32 ((d1 <<< 24) ||| (d2 <<< 16) ||| (d3 <<< 8) ||| d4)
      let q := queue_try_add h3.update_uartmode_queue (m, clk)
      let h4 :=
        if q.1 then
          if m = 1 then
            { h3 with update_uartmode_queue := q.2, mode := 1,
                      fixed_clk := if clk > 0 then clk else h3.fixed_clk }
          else { h3 with update_uartmode_queue := q.2, mode := (m : Int) }
        else h3
      read_usb_uart_apdu_fuel uninit fuel h4 data3
    else if opcode = OP_SET_LOGLEVEL then
      (atr_byte data3 0).bind fun ll =>
      let q := queue_try_add h3.update_loglevel_queue ll
      read_usb_uart_apdu_fuel uninit fuel
        { h3 with update_loglevel_queue := q.2, current_loglevel := (ll : Int) } data3
    else Outcome.done (len, h3, data3)

/-- `read_usb_uart_apdu`. -/
def read_usb_uart_apdu (uninit : answer_to_reset) (h : Host) (data : List Nat) :
    Outcome (Nat × Host × List Nat) :=
  read_usb_uart_apdu_fuel uninit (h.inp.length + 1) h data

/-! ## `util.c` and `pico_poc.c`: the T=0 loop -/

/-- Loop of `sc_read`: `buf[pos++] = uart_getc(uart)` while `pos < len`, for a
buffer that starts `off` bytes into `buf`. -/
def sc_read_loop (off len : Nat) : Nat → Nat → Uart → List Nat → Outcome (Nat × Uart × List Nat)
  | 0, pos, u, buf => Outcome.done (pos, u, buf)
  | fuel + 1, pos, u, buf =>
    if pos < len then
      (uart_getc u).bind fun r =>
        if off + pos < buf.length then
          sc_read_loop off len fuel (pos + 1) r.2 (buf.set (off + pos) r.1)
        else Outcome.undefined
    else Outcome.done (pos, u, buf)

/-- `sc_read`: read `len` bytes from the UART into `buf + off`; returns the
number of bytes read. -/
def sc_read (u : Uart) (buf : List Nat) (off len : Nat) : Outcome (Nat × Uart × List Nat) :=
  sc_read_loop off len len 0 u buf

/-- What one pass through the loop of `prot_t0` works on: the card UART, the
host side, the command buffer `buf` and the response cache with its length (a
`uint8_t`). -/
structure prot_t0_state where
  u : Uart
  h : Host
  buf : List Nat
  response_cache : List Nat
  len_response_cache : Nat
deriving DecidableEq, Repr

/-- `prot_t0`, lines 276 to 291: the expected length `le` and, for a command
with data, the procedure byte and the data bytes.  Returns `le`, `apdu_len`,
the UART and the buffer. -/
def prot_t0_command (apdu_case p3 proc_byte apdu_len : Nat) (u : Uart) (buf : List Nat) :
    Outcome (Int × Nat × Uart × List Nat) :=
  if apdu_case = 1 then Outcome.done ((SW_LEN : Int), apdu_len, u, buf)
  else if apdu_case = 2 then
    Outcome.done (if p3 = 0 then (SW_LEN : Int) + p3 + 256 else (SW_LEN : Int) + p3, apdu_len, u, buf)
  else if apdu_case = 3 ∨ apdu_case = 4 then
    if p3 > 0 then
      (sc_write u [proc_byte]).bind fun w =>
      (sc_read w.2 buf HEADER_LEN p3).bind fun r =>
      Outcome.done ((SW_LEN : Int), (apdu_len + r.1) % 2 ^ 32, r.2.1, r.2.2)
    else Outcome.done ((SW_LEN : Int), apdu_len, u, buf)
  else Outcome.done ((SW_LEN : Int), apdu_len, u, buf)

/-- `prot_t0`, lines 305 to 307: ask the host until `read_usb_uart_apdu` returns
something other than `(uint32_t) -1`. -/
def prot_t0_await (uninit : answer_to_reset) :
    Nat → Host → List Nat → Outcome (Nat × Host × List Nat)
  | 0, _, _ => Outcome.blocked
  | fuel + 1, h, buf =>
    (read_usb_uart_apdu uninit h buf).bind fun r =>
      if r.1 = 2 ^ 32 - 1 then prot_t0_await uninit fuel r.2.1 r.2.2 else Outcome.done r

/-- `prot_t0`, lines 312 to 333: what is written to the reader for a host
response of `response_len` bytes in `buf`.  `le` is compared as the `uint32_t`
it is converted to; `memcpy` past the end of either buffer is undefined. -/
def prot_t0_respond (le : Int) (proc_byte response_len : Nat) (s : prot_t0_state) :
    Outcome prot_t0_state :=
  if response_len = SW_LEN then
    (sc_write s.u (s.buf.take response_len)).bind fun w => Outcome.done { s with u := w.2 }
  else if (response_len : Int) = le % 2 ^ 32 then
    (sc_write s.u [proc_byte]).bind fun w1 =>
    (sc_write w1.2 (s.buf.take response_len)).bind fun w2 => Outcome.done { s with u := w2.2 }
  else if response_len ≤ s.buf.length ∧ response_len ≤ s.response_cache.length then
    let cache := s.buf.take response_len ++ s.response_cache.drop response_len
    let sw1 := if (response_len : Int) > le % 2 ^ 32 then 0x61 else 0x6C
    let buf1 := (s.buf.set 0 sw1).set 1 ((response_len + 2 ^ 32 - SW_LEN) % 2 ^ 32 % 256)
    (sc_write s.u (buf1.take SW_LEN)).bind fun w =>
      Outcome.done { s with u := w.2, buf := buf1, response_cache := cache,
                            len_response_cache := response_len % 256 }
  else Outcome.undefined

/-- `prot_t0`, lines 303 to 333: clear the cache, forward the command to the
host, wait for the response and answer the reader. -/
def prot_t0_forward (uninit : answer_to_reset) (le : Int) (apdu_len proc_byte : Nat)
    (s : prot_t0_state) : Outcome prot_t0_state :=
  (write_usb_uart_apdu s.h s.buf apdu_len).bind fun h1 =>
  (prot_t0_await uninit (h1.inp.length + 1) h1 s.buf).bind fun a =>
  prot_t0_respond le proc_byte a.1 { s with h := a.2.1, buf := a.2.2, len_response_cache := 0 }

/-- One pass through the loop of `prot_t0` (lines 265 to 333).  The function
`osim_determine_apdu_case` of the class tables is not part of the repository;
it is a parameter that gives the case for the buffer holding the header. -/
def prot_t0_iteration (osim_determine_apdu_case : List Nat → Nat) (uninit : answer_to_reset)
    (s : prot_t0_state) : Outcome prot_t0_state :=
  (sc_read s.u s.buf 0 HEADER_LEN).bind fun r =>
  let apdu_case := osim_determine_apdu_case r.2.2 % 256
  (atr_byte r.2.2 4).bind fun p3 =>
  (atr_byte r.2.2 1).bind fun proc_byte =>
  (prot_t0_command apdu_case p3 proc_byte r.1 r.2.1 r.2.2).bind fun c =>
  (atr_byte c.2.2.2 1).bind fun ins =>
  if s.len_response_cache > 0 ∧ ins = 0xC0 then
    (sc_write c.2.2.1 [proc_byte]).bind fun w1 =>
    (sc_write w1.2 (s.response_cache.take s.len_response_cache)).bind fun w2 =>
    Outcome.done { s with u := w2.2, buf := c.2.2.2 }
  else
    prot_t0_forward uninit c.1 c.2.1 proc_byte { s with u := c.2.2.1, buf := c.2.2.2 }

/-- The first `n` passes through the loop of `prot_t0`. -/
def prot_t0_loop (osim_determine_apdu_case : List Nat → Nat) (uninit : answer_to_reset) :
    Nat → prot_t0_state → Outcome prot_t0_state
  | 0, s => Outcome.done s
  | n + 1, s =>
    (prot_t0_iteration osim_determine_apdu_case uninit s).bind
      (prot_t0_loop osim_determine_apdu_case uninit n)

/-! ## `pico_poc.c`: the T=1 loop sends the host response -/

/-- Lines 477 to 482 of `prot_t1`: once the host response `buf` has arrived, put
the sequence bit into the command block, copy its NAD and PCB into the response
block and send the response as a chain; the chain's return value is added to the
sequence counter.  Returns the counter, the UART and both blocks. -/
def prot_t1_send_response (fixed_clk : Nat) (u : Uart) (seq : Int) (accepted_size : Nat)
    (command_tpdu response_tpdu : t1_tpdu) (buf : List Nat) :
    Outcome (Int × Uart × t1_tpdu × t1_tpdu) :=
  let a := t1_adjust_sequence_bit seq command_tpdu
  let response := { response_tpdu with nad := a.2.nad, pcb := a.2.pcb }
  (t1_write_complete_buffer fixed_clk u accepted_size response buf).bind fun w =>
    Outcome.done (a.1 + w.1, w.2, a.2, response)

/-! ## `pico_poc.c`: the loop of `prot_t1` -/

/-- The variables of `prot_t1` that outlive one pass of its loop: the UART, the
host pipe with the globals of `pico_poc.c`, the counter `seq` of this
translation unit, `accepted_size` (a `uint8_t`), the two blocks and the host
buffer `buf`. -/
structure prot_t1_state where
  u : Uart
  h : Host
  seq : Int
  accepted_size : Nat
  command_tpdu : t1_tpdu
  response_tpdu : t1_tpdu
  buf : List Nat
deriving DecidableEq, Repr

/-- The global `fixed_clk`, a `sig_atomic_t`, as the `uint32_t` argument of
`calculate_baudrate`. -/
def Host.clk (h : Host) : Nat := (h.fixed_clk % 2 ^ 32).toNat

/-- `prot_t1`, lines 466 to 469: `do pos = read_usb_uart_apdu(buf); while (pos
== -1)`, with `pos` an `int`. -/
def prot_t1_await (uninit : answer_to_reset) :
    Nat → Host → List Nat → Outcome (Nat × Host × List Nat)
  | 0, _, _ => Outcome.blocked
  | fuel + 1, h, buf =>
    (read_usb_uart_apdu uninit h buf).bind fun r =>
      if toInt32 r.1 = -1 then prot_t1_await uninit fuel r.2.1 r.2.2 else Outcome.done r

/-- One pass through the loop of `prot_t1` (lines 410 to 489).  `r_tpdu` stands
for the contents of the uninitialised local block of the checksum branch, and
`uninit` for those of `read_usb_uart_apdu`.  The waiting-time-extension alarm
set before the round trip to the host is taken not to fire before it is
cancelled; `buf` holds `pos` bytes for the chained send, and a `pos` beyond the
buffer makes the send read outside it. -/
def prot_t1_iteration (uninit : answer_to_reset) (r_tpdu : t1_tpdu) (s : prot_t1_state) :
    Outcome prot_t1_state :=
  (t1_read s.h.clk s.u s.command_tpdu).bind fun r =>
  let posr := r.1
  let s1 := { s with u := r.2.1, command_tpdu := r.2.2 }
  if posr = -3 then Outcome.done s1
  else if posr = -2 then Outcome.done s1
  else if posr = -1 then
    let pcb := if s1.seq % 2 = 0 then 0x81 else 0x91
    let r_tpdu1 := { r_tpdu with nad := 0x00, len := 0x00, pcb := pcb, check := pcb }
    (t1_write s1.u r_tpdu1).bind fun w =>
    Outcome.done { s1 with u := w.2, seq := s1.seq + w.1 }
  else
    let block_kind := check_block_kind s1.command_tpdu
    if block_kind = T1_S_BLOCK then
      (t1_handle_s_block s1.u s1.command_tpdu s1.seq s1.accepted_size).bind fun x =>
      Outcome.done { s1 with u := x.2.1, command_tpdu := x.2.2.1, seq := x.2.2.2.1,
                             accepted_size := x.2.2.2.2 }
    else if block_kind = T1_R_BLOCK then
      let r_case := t1_classify_r_block s1.command_tpdu
      if r_case = 1 ∨ r_case = -1 then
        let a := t1_adjust_sequence_bit s1.seq s1.response_tpdu
        (t1_write s1.u a.2).bind fun w =>
        Outcome.done { s1 with u := w.2, seq := a.1 + w.1, response_tpdu := a.2 }
      else Outcome.done s1
    else
      (write_usb_uart_apdu s1.h s1.command_tpdu.apdu s1.command_tpdu.len).bind fun h1 =>
      (prot_t1_await uninit (h1.inp.length + 1) h1 s1.buf).bind fun a =>
      if a.1 ≤ a.2.2.length then
        (prot_t1_send_response a.2.1.clk s1.u s1.seq s1.accepted_size s1.command_tpdu
          s1.response_tpdu (a.2.2.take a.1)).bind fun w =>
        Outcome.done { s1 with u := w.2.1, h := a.2.1, seq := w.1, command_tpdu := w.2.2.1,
                               response_tpdu := w.2.2.2, buf := a.2.2 }
      else Outcome.undefined

/-- The loop of `prot_t1`, run for `n` passes; `r_tpdu` gives the contents of
the uninitialised local block in every pass. -/
def prot_t1_loop (uninit : answer_to_reset) (r_tpdu : t1_tpdu) :
    Nat → prot_t1_state → Outcome prot_t1_state
  | 0, s => Outcome.done s
  | n + 1, s => (prot_t1_iteration uninit r_tpdu s).bind (prot_t1_loop uninit r_tpdu n)

/-! ## `pico_poc.c`: the supervisor -/

/-- State `NEED_ATR` of `enum State`. -/
def NEED_ATR : Nat := 0

/-- State `RDY_TO_RELAY` of `enum State`. -/
def RDY_TO_RELAY : Nat := 1

/-- `read_usb_atr`, bounded in the depth of its recursion (every call takes at
least five bytes from the pipe): read one frame into `atr->payload`, which
points to a buffer of the caller, and act on the opcode.  Returns the
`uint32_t` result (0, or -1 as 2^32 - 1), the host and the record. -/
def read_usb_atr_fuel : Nat → Host → answer_to_reset → Outcome (Nat × Host × answer_to_reset)
  | 0, _, _ => Outcome.blocked
  | fuel + 1, h, atr =>
    (read_usb_uart_blocking h [0] 1).bind fun r1 =>
    let opcode := r1.2.2.getD 0 0
    (read_usb_uart_blocking r1.2.1 [0, 0, 0, 0] 4).bind fun r2 =>
    let len := u32_of_bytes r2.2.2
    (read_usb_uart_blocking r2.2.1 atr.payload len).bind fun r3 =>
    let h3 := r3.2.1
    let atr1 := { atr with payload := r3.2.2, len := len % 256 }
    if opcode = OP_SENDATR then
      (parse_ATR atr1).bind fun atr2 => Outcome.done (0, h3, atr2)
    else if opcode = OP_REQUEST_STATE then
      (write_usb_uart h3 OP_REQUEST_STATE [h3.current_state % 256] 1).bind fun h4 =>
      Outcome.done (2 ^ 32 - 1, h4, atr1)
    else if opcode = OP_SET_UARTMODE then
      (atr_byte atr1.payload 0).bind fun m =>
      read_usb_atr_fuel fuel { h3 with mode := (m : Int) } atr1
    else if opcode = OP_SET_LOGLEVEL then
      (atr_byte atr1.payload 0).bind fun ll =>
      read_usb_atr_fuel fuel { h3 with current_loglevel := (ll : Int) } atr1
    else Outcome.done (2 ^ 32 - 1, h3, atr1)

/-- `read_usb_atr`. -/
def read_usb_atr (h : Host) (atr : answer_to_reset) : Outcome (Nat × Host × answer_to_reset) :=
  read_usb_atr_fuel (h.inp.length + 1) h atr

/-- `main`, lines 517 to 526: `while (rc == -1)` send a SENDATR request and call
`read_usb_atr`; then set `current_state = RDY_TO_RELAY`.  The request is the
opcode followed by four bytes taken from the address of the `uint8_t len = 0`:
the zero and the three bytes that follow it in memory, for which `stack`
stands.  Every pass takes at least five bytes from the pipe, which bounds the
number of passes.  Returns the host and the record `ATR`. -/
def main_need_atr (stack : List Nat) :
    Nat → Host → answer_to_reset → Outcome (Host × answer_to_reset)
  | 0, _, _ => Outcome.blocked
  | fuel + 1, h, ATR =>
    let h1 := { h with out := h.out ++ [OP_SENDATR] }
    let h2 := { h1 with out := h1.out ++ (0 :: stack.take 3).map (· % 256) }
    (read_usb_atr h2 ATR).bind fun r =>
    let rc := toInt32 r.1
    if rc = -1 then main_need_atr stack fuel r.2.1 r.2.2
    else Outcome.done ({ r.2.1 with current_state := RDY_TO_RELAY }, r.2.2)

/-- The function that runs on the second core. -/
inductive core1_entry where
  | prot_waiting
  | prot_t0
  | prot_t1
deriving DecidableEq, Repr

/-- `relay_config_entry_t` without the pointer to the alarm pool. -/
structure relay_config_entry_t where
  atr : answer_to_reset
  uart_mode : Nat
  conf_clk : Int
  loglevel : Nat
deriving DecidableEq, Repr

/-- The supervisor in its loop: the host pipe with the globals and the update
queues, the record `ATR`, the queue to the second core and what was launched
there last (`none` after `multicore_reset_core1` without a launch). -/
structure main_state where
  h : Host
  ATR : answer_to_reset
  relay_config_queue : List relay_config_entry_t
  core1 : Option core1_entry
deriving DecidableEq, Repr

/-- `main`, lines 541 to 566: the reset line is up.  The second core is reset,
the configuration queue is emptied and given one entry with the current values,
and the worker is launched by `ATR.protocol`. -/
def main_reset_edge (s : main_state) : main_state :=
  let entry : relay_config_entry_t :=
    ⟨s.ATR, (s.h.mode % 256).toNat, s.h.fixed_clk, (s.h.current_loglevel % 256).toNat⟩
  let s1 := { s with core1 := none, relay_config_queue := [entry] }
  if s1.ATR.protocol = 1 then { s1 with core1 := some core1_entry.prot_t1 }
  else if s1.ATR.protocol = 0 then { s1 with core1 := some core1_entry.prot_t0 }
  else s1

/-- `main`, lines 574 to 597: take at most one entry from each update queue.
`free(ATR.payload)` on a payload that is not the caller's heap buffer is
undefined. -/
def main_updates (s : main_state) : Outcome main_state :=
  (match s.h.update_atr_queue with
    | e :: q =>
      if s.ATR.payload_local then Outcome.undefined
      else Outcome.done { s with ATR := e, h := { s.h with update_atr_queue := q } }
    | [] => Outcome.done s).bind fun s1 =>
  let s2 :=
    match s1.h.update_uartmode_queue with
    | e :: q =>
      if e.1 = 1 then
        { s1 with h := { s1.h with update_uartmode_queue := q, mode := (e.1 : Int),
                                   fixed_clk := if e.2 > 0 then e.2 else s1.h.fixed_clk } }
      else { s1 with h := { s1.h with update_uartmode_queue := q, mode := (e.1 : Int) } }
    | [] => s1
  let s3 :=
    match s2.h.update_loglevel_queue with
    | e :: q => { s2 with h := { s2.h with update_loglevel_queue := q,
                                           current_loglevel := (e : Int) } }
    | [] => s2
  Outcome.done s3

/-- One pass through the loop of `main` (lines 539 to 598); `reset` is what
`gpio_get(GPIO_RESET_PIN)` returns at the head of the pass.  The wait for the
line to go down again (lines 567 to 571) is left out. -/
def main_iteration (reset : Bool) (s : main_state) : Outcome main_state :=
  main_updates (if reset then main_reset_edge s else s)

/-! ## Reference notions used in the statements -/

/-- The T=1 frame NAD | PCB | LEN | INF | LRC for an information field `inf`,
with LRC the XOR of all bytes before it. -/
def t1_frame (nad pcb : Nat) (inf : List Nat) : List Nat :=
  [nad, pcb, inf.length] ++ inf ++ [xorAll ([nad, pcb, inf.length] ++ inf)]

/-- The reader cooperates with a chained send of `R` bytes in blocks of at most
`b`: the line echoes every block, and after each block but the last the reader
answers with an error-free R-block (PCB 0x80 or 0x90, LEN 0).  `n` is the number
of blocks and `rest` what follows on the line. -/
inductive AckScript (b : Nat) : Nat → Nat → List RxEvent → List RxEvent → Prop where
  | last (R : Nat) (echo : List Nat) (rest : List RxEvent) :
      R ≤ b → echo.length = R + 4 → AckScript b 1 R (echo.map RxEvent.byte ++ rest) rest
  | more (n R : Nat) (echo : List Nat) (rnad rpcb rlrc : Nat) (tail rest : List RxEvent) :
      b < R → echo.length = b + 4 → rnad < 256 → rnad ≠ 0xFF → (rpcb = 0x80 ∨ rpcb = 0x90) →
      rlrc < 256 → AckScript b n (R - b) tail rest →
      AckScript b (n + 1) R
        (echo.map RxEvent.byte ++
          (RxEvent.byte rnad :: RxEvent.byte rpcb :: RxEvent.byte 0 :: RxEvent.byte rlrc :: tail))
        rest

/-- The blocks (PCB, INF) a chained send of `data` produces in `n` rounds, from
the current PCB and sequence counter. -/
def chain_blocks (b : Nat) : Nat → Nat → Int → List Nat → List (Nat × List Nat)
  | 0, _, _, _ => []
  | n + 1, pcb, sc, data =>
    let cur := if data.length > b then b else data.length % 256
    let pcb1 := if cur < data.length then pcb ||| (0x1 <<< 5) else pcb &&& 0xdf
    let pcb2 := if (sc + 1) % 2 = 0 then pcb1 &&& 0xBF else pcb1 ||| 0x40
    (pcb1, data.take cur) :: chain_blocks b n pcb2 (if (sc + 1) % 2 = 0 then 0 else 1)
      (data.drop cur)

/-- The PCB left in `send_tpdu` after the rounds of `chain_blocks`. -/
def chain_final (b : Nat) : Nat → Nat → Int → List Nat → Nat
  | 0, pcb, _, _ => pcb
  | n + 1, pcb, sc, data =>
    let cur := if data.length > b then b else data.length % 256
    let pcb1 := if cur < data.length then pcb ||| (0x1 <<< 5) else pcb &&& 0xdf
    let pcb2 := if (sc + 1) % 2 = 0 then pcb1 &&& 0xBF else pcb1 ||| 0x40
    chain_final b n pcb2 (if (sc + 1) % 2 = 0 then 0 else 1) (data.drop cur)

/-- The bytes on the line for a list of blocks sent with node address `nad`. -/
def chain_frames (nad : Nat) (blocks : List (Nat × List Nat)) : List Nat :=
  (blocks.map fun x => t1_frame nad x.1 x.2).flatten

/-- Events used up by `n` blocking reads. -/
def dropBytes : Nat → List RxEvent → List RxEvent
  | 0, r => r
  | n + 1, r =>
    match getc_rx r with
    | none => []
    | some (_, r1) => dropBytes n r1

/-- Bit `k` of a byte. -/
def bit (x k : Nat) : Bool := Nat.testBit x k

/-! ### Reference notions for the ATR parser -/

/-- The ATR rewritten for the inverse convention: TS becomes 0x3B and every later
byte is replaced by its bitwise complement. -/
def atr_complement (p : List Nat) : List Nat :=
  0x3B :: (p.drop 1).map (fun b => b ^^^ 0xFF)

/-- Index of TD1 in an ATR whose format byte is `t0`: TD1 follows T0 and
those of TA1, TB1 and TC1 that bits 4, 5 and 6 of T0 announce. -/
def TD1_index (t0 : Nat) : Nat :=
  2 + (bit t0 4).toNat + (bit t0 5).toNat + (bit t0 6).toNat

/-- The walk from the byte `y` (T0 or a TD byte) stays inside `p`: `index` is
the place of the first interface byte that `y` announces in its upper nibble.
The bytes announced by bits 4, 5 and 6 come first; when bit 7 announces a
further TD byte, that byte must be there and the walk goes on from it,
otherwise the announced bytes must end inside `p`.  Every step moves on by at
least one place, so `p.length + 1` steps are enough for any `p`. -/
def atr_chain_inside (p : List Nat) : Nat → Nat → Nat → Bool
  | 0, _, _ => false
  | fuel + 1, y, index =>
    let i := index + (bit y 4).toNat + (bit y 5).toNat + (bit y 6).toNat
    if bit y 7 = true then
      match p[i]? with
      | some td => atr_chain_inside p fuel td (i + 1)
      | none => false
    else decide (i ≤ p.length)

/-- A rounding of floating-point results with the relative error of IEEE
`double` arithmetic: a non-negative exact result is changed by at most one part
in 2^52. -/
def double_rounding (fl : ℚ → ℚ) : Prop :=
  ∀ x : ℚ, 0 ≤ x → x * (1 - 1 / 2 ^ 52) ≤ fl x ∧ fl x ≤ x * (1 + 1 / 2 ^ 52)

/-- What a pass through the T=0 loop can use of a state: the UART, the host
side, the command buffer, the cache length, the cached response (the first
`len_response_cache` bytes of the cache) and the size of the cache. -/
def prot_t0_state.visible (s : prot_t0_state) :
    Uart × Host × List Nat × Nat × List Nat × Nat :=
  (s.u, s.h, s.buf, s.len_response_cache, s.response_cache.take s.len_response_cache,
    s.response_cache.length)

/-! ## Concrete lines used in the examples -/

/-- The line while 80 bytes are sent in blocks of 32: the echo of each block, and
an R-block 00 90 00 90 after the first and the second. -/
def script_80_32 : List RxEvent :=
  (List.replicate 36 0).map RxEvent.byte ++
    (RxEvent.byte 0 :: RxEvent.byte 0x90 :: RxEvent.byte 0 :: RxEvent.byte 0x90 ::
      ((List.replicate 36 0).map RxEvent.byte ++
        (RxEvent.byte 0 :: RxEvent.byte 0x90 :: RxEvent.byte 0 :: RxEvent.byte 0x90 ::
          ((List.replicate 20 0).map RxEvent.byte ++ []))))

/-- The line while 33 bytes are sent in blocks of 32: the echo of the first block,
the R-block 00 90 00 90, and the echo of the second block. -/
def script_33_32 : List RxEvent :=
  (List.replicate 36 0).map RxEvent.byte ++
    (RxEvent.byte 0 :: RxEvent.byte 0x90 :: RxEvent.byte 0 :: RxEvent.byte 0x90 ::
      ((List.replicate 5 0).map RxEvent.byte ++ []))

/-- A state of the T=1 loop for the examples: the bytes `rx` on the line from the
reader, the bytes `inp` in the pipe from the host, zeroed blocks, a zeroed host
buffer of `APDU_BUFFER_LEN` bytes and the default clock. -/
def t1_example (rx inp : List Nat) (seq : Int) (accepted_size : Nat) : prot_t1_state :=
  { u := ⟨rx.map RxEvent.byte, [], 9600⟩
    h := ⟨inp, [], [], [], [], 1, 0, 4764000, 0⟩
    seq := seq
    accepted_size := accepted_size
    command_tpdu := zero_tpdu
    response_tpdu := zero_tpdu
    buf := List.replicate APDU_BUFFER_LEN 0 }

/-- Contents for the uninitialised `answer_to_reset` of `read_usb_uart_apdu` in
the examples. -/
def atr_example : answer_to_reset := ⟨0, 0, 0, 0, 0, 0, 0, List.replicate MAX_ATR_SIZE 0, false⟩

/-- The line while 33 bytes are sent in blocks of 32 and the reader rejects the
first block once: the echo of the first block, the R-block 00 81 00 81 (error),
the echo of the block sent again, the R-block 00 90 00 90, and the echo of the
last block. -/
def script_33_32_error : List RxEvent :=
  (List.replicate 36 0 ++ [0x00, 0x81, 0x00, 0x81] ++ List.replicate 36 0 ++
    [0x00, 0x90, 0x00, 0x90] ++ List.replicate 5 0).map RxEvent.byte

/-! ## Lemmas: the UART primitives -/

theorem getc_rx_of_bytes (r : List RxEvent) (h : 0 < (rxBytes r).length) :
    ∃ b r1, getc_rx r = some (b, r1) ∧ rxBytes r = b :: rxBytes r1 ∧ b < 256 := by
  induction r with
  | nil => simp [rxBytes] at h
  | cons e r ih =>
    cases e with
    | byte b => exact ⟨b % 256, r, rfl, rfl, Nat.mod_lt _ (by decide)⟩
    | idle =>
      simp only [rxBytes] at h
      obtain ⟨b, r1, h1, h2, h3⟩ := ih h
      exact ⟨b, r1, by simpa [getc_rx] using h1, by simpa [rxBytes] using h2, h3⟩

theorem dropBytes_map_byte (l : List Nat) (rest : List RxEvent) :
    dropBytes l.length (l.map RxEvent.byte ++ rest) = rest := by
  induction l with
  | nil => rfl
  | cons a l ih => simpa [dropBytes, getc_rx] using ih

theorem rxBytes_map_byte (l : List Nat) (rest : List RxEvent) :
    rxBytes (l.map RxEvent.byte ++ rest) = l.map (· % 256) ++ rxBytes rest := by
  induction l with
  | nil => rfl
  | cons a l ih => simp [rxBytes, ih]

theorem rxBytes_dropBytes (n : Nat) (r : List RxEvent) :
    rxBytes (dropBytes n r) = (rxBytes r).drop n := by
  induction n generalizing r with
  | zero => rfl
  | succ n ih =>
    by_cases h : 0 < (rxBytes r).length
    · obtain ⟨b, r1, h1, h2, _⟩ := getc_rx_of_bytes r h
      simp [dropBytes, h1, ih, h2]
    · have h0 : rxBytes r = [] := List.eq_nil_of_length_eq_zero (by omega)
      have hn : getc_rx r = none := by
        clear ih h
        induction r with
        | nil => rfl
        | cons e r ih =>
          cases e with
          | byte b => simp [rxBytes] at h0
          | idle => simpa [getc_rx] using ih (by simpa [rxBytes] using h0)
      simp [dropBytes, hn, h0, rxBytes]

/-! ## C10: block kinds -/

set_option maxRecDepth 100000 in
theorem block_kind_bits (p : Nat) (hp : p < 256) :
    ((p < 128) ↔ Nat.testBit p 7 = false) ∧
    ((128 ≤ p ∧ p < 192) ↔ (Nat.testBit p 7 = true ∧ Nat.testBit p 6 = false)) ∧
    ((192 ≤ p) ↔ (Nat.testBit p 7 = true ∧ Nat.testBit p 6 = true)) := by
  revert p
  decide

/-- C10: for every PCB byte, `check_block_kind` returns 0 (I-block) exactly when
bit 7 is 0, 1 (R-block) exactly when bit 7 is 1 and bit 6 is 0, and 2 (S-block)
exactly when bits 7 and 6 are both 1; exactly one of the three results occurs. -/
theorem C10_check_block_kind (tpdu : t1_tpdu) (hp : tpdu.pcb < 256) :
    (check_block_kind tpdu = 0 ↔ bit tpdu.pcb 7 = false) ∧
    (check_block_kind tpdu = 1 ↔ (bit tpdu.pcb 7 = true ∧ bit tpdu.pcb 6 = false)) ∧
    (check_block_kind tpdu = 2 ↔ (bit tpdu.pcb 7 = true ∧ bit tpdu.pcb 6 = true)) ∧
    (check_block_kind tpdu = 0 ∨ check_block_kind tpdu = 1 ∨ check_block_kind tpdu = 2) := by
  obtain ⟨h1, h2, h3⟩ := block_kind_bits tpdu.pcb hp
  unfold bit
  rw [← h1, ← h2, ← h3]
  unfold check_block_kind T1_I_BLOCK T1_R_BLOCK T1_S_BLOCK
  by_cases a : tpdu.pcb < 128
  · simp [a]; omega
  · by_cases b : tpdu.pcb < 128 + 64
    · simp [a, b]; omega
    · simp [a, b]; omega

theorem C10_check_block_kind_witness :
    (check_block_kind { zero_tpdu with pcb := 0xC1 } = 2 ↔
      (bit 0xC1 7 = true ∧ bit 0xC1 6 = true)) :=
  (C10_check_block_kind { zero_tpdu with pcb := 0xC1 } (by decide)).2.2.1

/-! ## C7: the sequence-adjust operation -/

/-- C7 (as amended): `t1_adjust_sequence_bit` writes the tracked sequence bit into
PCB bit 6 (an even counter clears the bit, an odd counter sets it), leaves every
other PCB bit and every other field of the block unchanged, and reduces the
counter to that same bit (0 or 1); it does not toggle the counter. -/
theorem C7_adjust_sequence_bit_amended (sequence_counter : Int) (tpdu : t1_tpdu) :
    (t1_adjust_sequence_bit sequence_counter tpdu).1 = sequence_counter % 2 ∧
    bit (t1_adjust_sequence_bit sequence_counter tpdu).2.pcb 6 = decide (sequence_counter % 2 = 1) ∧
    (∀ k, k < 8 → k ≠ 6 →
      bit (t1_adjust_sequence_bit sequence_counter tpdu).2.pcb k = bit tpdu.pcb k) ∧
    (t1_adjust_sequence_bit sequence_counter tpdu).2 =
      { tpdu with pcb := (t1_adjust_sequence_bit sequence_counter tpdu).2.pcb } := by
  rcases Int.emod_two_eq_zero_or_one sequence_counter with h | h
  · rw [t1_adjust_sequence_bit, if_pos h, h]
    refine ⟨rfl, ?_, ?_, rfl⟩
    · have : Nat.testBit 0xBF 6 = false := by decide
      simp [bit, Nat.testBit_and, this]
    · intro k hk hk6
      have : Nat.testBit 0xBF k = true := by interval_cases k <;> first | decide | exact absurd rfl hk6
      simp [bit, Nat.testBit_and, this]
  · have h0 : ¬ sequence_counter % 2 = 0 := by omega
    rw [t1_adjust_sequence_bit, if_neg h0, h]
    refine ⟨rfl, ?_, ?_, rfl⟩
    · have : Nat.testBit 0x40 6 = true := by decide
      simp [bit, Nat.testBit_or, this]
    · intro k hk hk6
      have : Nat.testBit 0x40 k = false := by interval_cases k <;> first | decide | exact absurd rfl hk6
      simp [bit, Nat.testBit_or, this]

/-- C7, counterexample: called with counter 0 the operation leaves the counter
at 0, and called with counter 1 it leaves it at 1; the counter is not toggled. -/
theorem C7_counter_not_toggled :
    (t1_adjust_sequence_bit 0 zero_tpdu).1 = 0 ∧ (t1_adjust_sequence_bit 0 zero_tpdu).1 ≠ 1 ∧
    (t1_adjust_sequence_bit 1 zero_tpdu).1 = 1 ∧ (t1_adjust_sequence_bit 1 zero_tpdu).1 ≠ 0 := by
  decide

/-! ## C1: the frame written by `t1_write` -/

theorem uart_getc_putc_raw (u : Uart) (c b : Nat) (r1 : List RxEvent)
    (h : getc_rx u.rx = some (b, r1)) :
    uart_getc (uart_putc_raw u c) = Outcome.done (b, ⟨r1, u.tx ++ [c % 256], u.baud⟩) := by
  simp [uart_getc, uart_putc_raw, h]

theorem t1_write_loop_spec (tp : t1_tpdu) :
    ∀ (fuel pos cs : Nat) (u : Uart), fuel ≤ (rxBytes u.rx).length → pos + fuel = 3 + tp.len →
      t1_write_loop tp fuel pos cs u =
        Outcome.done ((List.range' pos fuel).foldl (fun a p => a ^^^ t1_write_byte tp p) cs,
          ⟨dropBytes fuel u.rx,
           u.tx ++ (List.range' pos fuel).map (fun p => t1_write_byte tp p % 256), u.baud⟩) := by
  intro fuel
  induction fuel with
  | zero => intro pos cs u _ _; simp [t1_write_loop, dropBytes]
  | succ fuel ih =>
    intro pos cs u hrx hpos
    obtain ⟨b, r1, h1, h2, _⟩ := getc_rx_of_bytes u.rx (by omega)
    have hlt : pos < 3 + tp.len := by omega
    have hrx1 : fuel ≤ (rxBytes r1).length := by
      rw [h2] at hrx; simpa using hrx
    rw [t1_write_loop, if_pos hlt]
    simp only [uart_getc_putc_raw u _ b r1 h1]
    rw [ih (pos + 1) _ ⟨r1, u.tx ++ [t1_write_byte tp pos % 256], u.baud⟩ hrx1 (by omega)]
    simp [dropBytes, h1, List.range'_succ]

theorem map_getD_range (l : List Nat) :
    ∀ n, n ≤ l.length → (List.range' 0 n).map (fun i => l.getD i 0) = l.take n := by
  intro n
  induction n with
  | zero => intro _; simp
  | succ n ih =>
    intro h
    have hn : n < l.length := by omega
    rw [List.range'_concat, List.map_append, ih (by omega), List.take_succ]
    simp [List.getD, List.getElem?_eq_getElem hn]

theorem t1_write_bytes (tp : t1_tpdu) (h : tp.len ≤ tp.apdu.length) :
    (List.range' 0 (3 + tp.len)).map (t1_write_byte tp) =
      [tp.nad, tp.pcb, tp.len] ++ tp.apdu.take tp.len := by
  have e : 3 + tp.len = tp.len + 1 + 1 + 1 := by omega
  rw [e, List.range'_succ, List.range'_succ, List.range'_succ]
  simp only [List.map_cons, t1_write_byte, List.cons_append, List.nil_append]
  congr 3
  rw [← map_getD_range tp.apdu tp.len h]
  have : List.range' (0 + 1 + 1 + 1) tp.len = (List.range' 0 tp.len).map (fun x => 3 + x) := by
    rw [List.map_add_range']
  rw [this, List.map_map]
  apply List.map_congr_left
  intro a _
  have : 3 + a = a + 3 := by omega
  simp [t1_write_byte, this]

theorem dropBytes_nil (n : Nat) : dropBytes n [] = [] := by
  cases n <;> simp [dropBytes, getc_rx]

theorem dropBytes_add (m n : Nat) : ∀ r, dropBytes (m + n) r = dropBytes n (dropBytes m r) := by
  induction m with
  | zero => intro r; simp [dropBytes]
  | succ m ih =>
    intro r
    have e : m + 1 + n = (m + n) + 1 := by omega
    rw [e]
    cases h : getc_rx r with
    | none => simp [dropBytes, h, dropBytes_nil]
    | some x => simp [dropBytes, h, ih]

theorem map_mod_of_lt (l : List Nat) (h : ∀ x ∈ l, x < 256) : l.map (· % 256) = l := by
  induction l with
  | nil => rfl
  | cons a l ih =>
    have ha : a < 256 := h a (by simp)
    have hl : ∀ x ∈ l, x < 256 := fun x hx => h x (by simp [hx])
    simp [Nat.mod_eq_of_lt ha, ih hl]

theorem foldl_xor_lt (l : List Nat) (h : ∀ x ∈ l, x < 256) :
    ∀ c, c < 256 → l.foldl (fun a b => a ^^^ b) c < 256 := by
  induction l with
  | nil => intro c hc; simpa using hc
  | cons a l ih =>
    intro c hc
    have ha : a < 256 := h a (by simp)
    have hl : ∀ x ∈ l, x < 256 := fun x hx => h x (by simp [hx])
    exact ih hl _ (Nat.xor_lt_two_pow (n := 8) hc ha)

theorem xorAll_lt (l : List Nat) (h : ∀ x ∈ l, x < 256) : xorAll l < 256 :=
  foldl_xor_lt l h 0 (by decide)

theorem wf_bytes_lt (tp : t1_tpdu) (hwf : tp.wf) :
    ∀ x ∈ [tp.nad, tp.pcb, tp.len] ++ tp.apdu.take tp.len, x < 256 := by
  obtain ⟨h1, h2, h3, _, h5, _⟩ := hwf
  intro x hx
  simp only [List.cons_append, List.nil_append, List.mem_cons] at hx
  rcases hx with rfl | rfl | rfl | hx
  · exact h1
  · exact h2
  · exact h3
  · exact h5 x (List.mem_of_mem_take hx)

/-- What `t1_write` does when the line delivers an echo for every byte. -/
theorem t1_write_spec (u : Uart) (tp : t1_tpdu) (hwf : tp.wf)
    (hecho : tp.len + 4 ≤ (rxBytes u.rx).length) :
    t1_write u tp = Outcome.done (1,
      ⟨dropBytes (tp.len + 4) u.rx, u.tx ++ t1_frame tp.nad tp.pcb (tp.apdu.take tp.len), u.baud⟩) := by
  have hlen : tp.len ≤ tp.apdu.length := by
    obtain ⟨_, _, h3, h4, _⟩ := hwf; omega
  have hb := wf_bytes_lt tp hwf
  have hrest : 0 < (rxBytes (dropBytes (3 + tp.len) u.rx)).length := by
    rw [rxBytes_dropBytes, List.length_drop]; omega
  obtain ⟨b, r1, h1, _, _⟩ := getc_rx_of_bytes _ hrest
  have hdrop : dropBytes (tp.len + 4) u.rx = r1 := by
    have e : tp.len + 4 = (3 + tp.len) + 1 := by omega
    rw [e, dropBytes_add]
    simp [dropBytes, h1]
  rw [t1_write, t1_write_loop_spec tp (3 + tp.len) 0 0 u (by omega) (by omega)]
  simp only []
  rw [uart_getc_putc_raw _ _ b r1 h1, hdrop]
  have hmap : (List.range' 0 (3 + tp.len)).map (fun p => t1_write_byte tp p % 256) =
      [tp.nad, tp.pcb, tp.len] ++ tp.apdu.take tp.len := by
    rw [← t1_write_bytes tp hlen]
    have := map_mod_of_lt _ (by rw [t1_write_bytes tp hlen]; exact hb :
      ∀ x ∈ (List.range' 0 (3 + tp.len)).map (t1_write_byte tp), x < 256)
    rw [List.map_map] at this
    exact this
  have hcs : (List.range' 0 (3 + tp.len)).foldl (fun a p => a ^^^ t1_write_byte tp p) 0 =
      xorAll ([tp.nad, tp.pcb, tp.len] ++ tp.apdu.take tp.len) := by
    rw [← t1_write_bytes tp hlen, xorAll, List.foldl_map]
  have hlt := xorAll_lt _ hb
  simp only [hmap, hcs, Nat.mod_eq_of_lt hlt, t1_frame, List.length_take, Nat.min_eq_left hlen,
    List.append_assoc]

/-- C1: for every T=1 block held by the firmware, `t1_write` transmits exactly
LEN+4 bytes, in the order NAD, PCB, LEN, INF[0..LEN-1], LRC, where LRC is the XOR
of all bytes transmitted before it; the bytes echoed back on the line (any script
that delivers LEN+4 bytes) and the stored check field have no influence. -/
theorem C1_t1_write_frame (u : Uart) (tpdu : t1_tpdu) (hwf : tpdu.wf)
    (hecho : tpdu.len + 4 ≤ (rxBytes u.rx).length) :
    ∃ u1, t1_write u tpdu = Outcome.done (1, u1) ∧
      u1.tx = u.tx ++ ([tpdu.nad, tpdu.pcb, tpdu.len] ++ tpdu.apdu.take tpdu.len ++
        [xorAll ([tpdu.nad, tpdu.pcb, tpdu.len] ++ tpdu.apdu.take tpdu.len)]) ∧
      ([tpdu.nad, tpdu.pcb, tpdu.len] ++ tpdu.apdu.take tpdu.len ++
        [xorAll ([tpdu.nad, tpdu.pcb, tpdu.len] ++ tpdu.apdu.take tpdu.len)]).length
          = tpdu.len + 4 ∧
      ∀ check, check < 256 → t1_write u { tpdu with check := check } = t1_write u tpdu := by
  have hlen : tpdu.len ≤ tpdu.apdu.length := by
    obtain ⟨_, _, h3, h4, _⟩ := hwf; omega
  refine ⟨_, t1_write_spec u tpdu hwf hecho, ?_, ?_, ?_⟩
  · simp [t1_frame, List.length_take, Nat.min_eq_left hlen]
  · simp [List.length_take, Nat.min_eq_left hlen]
  · intro check hc
    have hwf2 : ({ tpdu with check := check } : t1_tpdu).wf :=
      ⟨hwf.1, hwf.2.1, hwf.2.2.1, hwf.2.2.2.1, hwf.2.2.2.2.1, hc⟩
    rw [t1_write_spec u tpdu hwf hecho, t1_write_spec u _ hwf2 hecho]

theorem zero_tpdu_wf : zero_tpdu.wf := by
  refine ⟨by decide, by decide, by decide, List.length_replicate _ _, ?_, by decide⟩
  intro x hx
  have : x = 0 := List.eq_of_mem_replicate hx
  omega

theorem C1_t1_write_frame_witness :
    ∃ u1, t1_write ⟨[.byte 0, .byte 0xFF, .idle, .byte 0, .byte 0], [], 9600⟩ zero_tpdu
        = Outcome.done (1, u1) ∧ u1.tx = [0, 0, 0, 0] := by
  obtain ⟨u1, h1, h2, _⟩ := C1_t1_write_frame
    ⟨[.byte 0, .byte 0xFF, .idle, .byte 0, .byte 0], [], 9600⟩ zero_tpdu zero_tpdu_wf (by decide)
  exact ⟨u1, h1, by rw [h2]; decide⟩

/-! ## C2, C8: reading a frame with `t1_read` -/

@[simp] theorem Outcome.bind_done {α β : Type} (a : α) (f : α → Outcome β) :
    (Outcome.done a).bind f = f a := rfl

@[simp] theorem uart_getc_byte (b : Nat) (r : List RxEvent) (tx : List Nat) (baud : Nat) :
    uart_getc ⟨RxEvent.byte b :: r, tx, baud⟩ = Outcome.done (b % 256, ⟨r, tx, baud⟩) := rfl

@[simp] theorem readable_byte (b : Nat) (r : List RxEvent) (tx : List Nat) (baud : Nat) :
    uart_is_readable_within_us ⟨RxEvent.byte b :: r, tx, baud⟩
      = (true, ⟨RxEvent.byte b :: r, tx, baud⟩) := rfl

theorem readable_bytes (l : List Nat) (x : Nat) (r : List RxEvent) (tx : List Nat) (baud : Nat) :
    uart_is_readable_within_us ⟨l.map RxEvent.byte ++ RxEvent.byte x :: r, tx, baud⟩
      = (true, ⟨l.map RxEvent.byte ++ RxEvent.byte x :: r, tx, baud⟩) := by
  cases l <;> rfl

theorem t1_read_loop_spec (x : Nat) (rest : List RxEvent) (tx : List Nat) (baud : Nat) :
    ∀ (inf pre suf : List Nat) (tp : t1_tpdu) (pos : Int) (cs : Nat),
      (∀ y ∈ inf, y < 256) → tp.apdu = pre ++ suf → inf.length ≤ suf.length →
      pre.length + inf.length = tp.len →
      t1_read_loop inf.length pre.length pos cs
          ⟨inf.map RxEvent.byte ++ RxEvent.byte x :: rest, tx, baud⟩ tp =
        Outcome.done (true, pos + inf.length, inf.foldl (fun a b => a ^^^ b) cs,
          ⟨RxEvent.byte x :: rest, tx, baud⟩,
          { tp with apdu := pre ++ inf ++ suf.drop inf.length }) := by
  intro inf
  induction inf with
  | nil =>
    intro pre suf tp pos cs _ hap _ _
    obtain ⟨nad, pcb, len, apdu, check⟩ := tp
    simp only at hap
    subst hap
    simp [t1_read_loop]
  | cons a l ih =>
    intro pre suf tp pos cs hlt hap hsuf hlen
    have ha : a < 256 := hlt a (by simp)
    have hl : ∀ y ∈ l, y < 256 := fun y hy => hlt y (by simp [hy])
    cases suf with
    | nil => simp at hsuf
    | cons s suf1 =>
      have hi : pre.length < tp.len := by simp at hlen; omega
      have hset : tp.apdu.set pre.length a = (pre ++ [a]) ++ suf1 := by
        rw [hap, List.set_append_right _ _ (Nat.le_refl _)]
        simp
      rw [List.length_cons, t1_read_loop, if_pos hi]
      simp only [List.map_cons, List.cons_append, uart_getc_byte, Outcome.bind_done,
        Nat.mod_eq_of_lt ha, readable_bytes]
      have := ih (pre ++ [a]) suf1 { tp with apdu := tp.apdu.set pre.length a } (pos + 1)
        (cs ^^^ a) hl hset (by simpa using hsuf) (by simp at hlen ⊢; omega)
      rw [List.length_append, List.length_singleton] at this
      simp only [Bool.true_eq_false, if_false]
      rw [this]
      simp
      omega

/-- What `t1_read` does on a complete frame that is not a PPS request. -/
theorem t1_read_frame (fixed_clk : Nat) (nad pcb lrc : Nat) (inf : List Nat)
    (rest : List RxEvent) (tx : List Nat) (baud : Nat) (tp : t1_tpdu)
    (hnad : nad < 256) (hpcb : pcb < 256) (hlen : inf.length < 256) (hinf : ∀ y ∈ inf, y < 256)
    (hlrc : lrc < 256) (hpps : nad ≠ 0xFF) (hap : tp.apdu.length = 256) :
    t1_read fixed_clk
        ⟨(nad :: pcb :: inf.length :: (inf ++ [lrc])).map RxEvent.byte ++ rest, tx, baud⟩ tp =
      Outcome.done (if lrc ≠ xorAll (nad :: pcb :: inf.length :: inf) then -1
          else (3 : Int) + inf.length + 1,
        ⟨rest, tx, baud⟩,
        { tp with nad := nad, pcb := pcb, len := inf.length,
                  apdu := inf ++ tp.apdu.drop inf.length }) := by
  have hloop := t1_read_loop_spec lrc rest tx baud inf [] tp.apdu
    { tp with nad := nad, pcb := pcb, len := inf.length } 3 (((0 ^^^ nad) ^^^ pcb) ^^^ inf.length)
    hinf rfl (by omega) (by simp)
  simp only [List.length_nil, List.nil_append] at hloop
  simp only [t1_read, List.map_cons, List.map_append, List.map_nil, List.cons_append,
    List.append_assoc, List.nil_append, readable_byte, uart_getc_byte, Outcome.bind_done,
    Nat.mod_eq_of_lt hnad, Nat.mod_eq_of_lt hpcb, Nat.mod_eq_of_lt hlen, Nat.mod_eq_of_lt hlrc,
    Bool.true_eq_false, if_false, if_neg hpps, hloop]
  have hx : xorAll (nad :: pcb :: inf.length :: inf) =
      inf.foldl (fun a b => a ^^^ b) (((0 ^^^ nad) ^^^ pcb) ^^^ inf.length) := by
    simp [xorAll]
  rw [hx]
  simp only [Nat.zero_xor]
  by_cases h : lrc = inf.foldl (fun a b => a ^^^ b) ((nad ^^^ pcb) ^^^ inf.length)
  · simp [h]
  · simp [h]

/-- C2: for every complete frame NAD, PCB, LEN, INF[LEN], LRC with NAD other than
0xFF whose bytes all arrive within the read window, `t1_read` returns -1 (checksum
error) if and only if the final byte differs from the XOR of the LEN+3 bytes before
it; otherwise it returns a non-negative value (success); the stored block has the
NAD, PCB, LEN and INF bytes that were received and the frame is used up. -/
theorem C2_t1_read_checksum (fixed_clk : Nat) (nad pcb lrc : Nat) (inf : List Nat)
    (rest : List RxEvent) (tx : List Nat) (baud : Nat) (tp : t1_tpdu)
    (hnad : nad < 256) (hpcb : pcb < 256) (hlen : inf.length < 256) (hinf : ∀ y ∈ inf, y < 256)
    (hlrc : lrc < 256) (hpps : nad ≠ 0xFF) (hap : tp.apdu.length = 256) :
    ∃ r u1 tp1,
      t1_read fixed_clk
        ⟨(nad :: pcb :: inf.length :: (inf ++ [lrc])).map RxEvent.byte ++ rest, tx, baud⟩ tp
        = Outcome.done (r, u1, tp1) ∧
      (r = -1 ↔ lrc ≠ xorAll (nad :: pcb :: inf.length :: inf)) ∧
      (lrc = xorAll (nad :: pcb :: inf.length :: inf) → 0 ≤ r) ∧
      tp1.nad = nad ∧ tp1.pcb = pcb ∧ tp1.len = inf.length ∧ tp1.apdu.take tp1.len = inf ∧
      u1.rx = rest ∧ u1.tx = tx := by
  refine ⟨_, _, _, t1_read_frame fixed_clk nad pcb lrc inf rest tx baud tp hnad hpcb hlen hinf
    hlrc hpps hap, ?_, ?_, rfl, rfl, rfl, ?_, rfl, rfl⟩
  · by_cases h : lrc = xorAll (nad :: pcb :: inf.length :: inf)
    · simp [h]; omega
    · simp [h]
  · intro h
    simp [h]; omega
  · simp

theorem C2_t1_read_checksum_witness :
    ∃ r u1 tp1,
      t1_read 4764000 ⟨[.byte 0x00, .byte 0x40, .byte 2, .byte 0x90, .byte 0x00, .byte 0xD3], [], 9600⟩
        zero_tpdu = Outcome.done (r, u1, tp1) ∧ r = -1 ∧ tp1.pcb = 0x40 := by
  obtain ⟨r, u1, tp1, h1, h2, _, _, h4, _⟩ := C2_t1_read_checksum 4764000 0x00 0x40 0xD3
    [0x90, 0x00] [] [] 9600 zero_tpdu (by decide) (by decide) (by decide) (by decide) (by decide)
    (by decide) zero_tpdu_wf.2.2.2.1
  exact ⟨r, u1, tp1, h1, h2.mpr (by decide), h4⟩

set_option maxRecDepth 100000 in
/-- C8, the code at the failing input: on the valid frame 00 00 01 AA AB, whose
information field has length 1, `t1_read` returns 5 (the number of bytes of the
frame), not 1. -/
theorem C8_t1_read_returns_frame_length :
    t1_read 4764000 ⟨[.byte 0x00, .byte 0x00, .byte 0x01, .byte 0xAA, .byte 0xAB], [], 9600⟩
        zero_tpdu =
      Outcome.done (5, ⟨[], [], 9600⟩,
        { zero_tpdu with len := 1, apdu := 0xAA :: List.replicate 255 0 }) := by
  decide

/-! ## C9: a PPS request seen by `t1_read` -/

theorem sc_write_loop_spec (buf : List Nat) :
    ∀ (fuel pos : Nat) (u : Uart), fuel ≤ (rxBytes u.rx).length → pos + fuel = buf.length →
      sc_write_loop buf fuel pos u =
        Outcome.done (pos + fuel,
          ⟨dropBytes fuel u.rx,
           u.tx ++ (List.range' pos fuel).map (fun p => buf.getD p 0 % 256), u.baud⟩) := by
  intro fuel
  induction fuel with
  | zero => intro pos u _ _; simp [sc_write_loop, dropBytes]
  | succ fuel ih =>
    intro pos u hrx hpos
    obtain ⟨b, r1, h1, h2, _⟩ := getc_rx_of_bytes u.rx (by omega)
    have hlt : pos < buf.length := by omega
    have hrx1 : fuel ≤ (rxBytes r1).length := by
      rw [h2] at hrx; simpa using hrx
    rw [sc_write_loop, if_pos hlt]
    simp only [uart_putc, uart_getc_putc_raw u _ b r1 h1]
    rw [ih (pos + 1) ⟨r1, u.tx ++ [buf.getD pos 0 % 256], u.baud⟩ hrx1 (by omega)]
    simp [dropBytes, h1, List.range'_succ]
    omega

/-- What `sc_write` does with four bytes when the line echoes them. -/
theorem sc_write_four (u : Uart) (a b c d : Nat) (ha : a < 256) (hb : b < 256) (hc : c < 256)
    (hd : d < 256) (hecho : 4 ≤ (rxBytes (discard_rx u.rx)).length) :
    sc_write u [a, b, c, d] =
      Outcome.done (4, ⟨dropBytes 4 (discard_rx u.rx), u.tx ++ [a, b, c, d], u.baud⟩) := by
  have := sc_write_loop_spec [a, b, c, d] 4 0 (discard_uart_buffer u) hecho rfl
  rw [sc_write]
  simp only [List.length_cons, List.length_nil] at this ⊢
  rw [this]
  simp [discard_uart_buffer, uart_tx_wait_blocking, List.range', Nat.mod_eq_of_lt ha,
    Nat.mod_eq_of_lt hb, Nat.mod_eq_of_lt hc, Nat.mod_eq_of_lt hd]

theorem convert_f_range (x : Nat) : 0 < convert_f x ∧ convert_f x < 2 ^ 32 := by
  unfold convert_f
  split <;> decide

theorem convert_d_range (x : Nat) : 0 < convert_d x ∧ convert_d x ≤ 32 := by
  unfold convert_d
  split <;> decide

/-- What `t1_read` does on a PPS request: four bytes starting with 0xFF arrive,
the receive FIFO is drained and the line echoes the four bytes written back. -/
theorem t1_read_pps (fixed_clk : Nat) (p1 p2 p3 : Nat) (rest : List RxEvent) (tx : List Nat)
    (baud : Nat) (tp : t1_tpdu) (h1 : p1 < 256) (h2 : p2 < 256) (h3 : p3 < 256)
    (hecho : 4 ≤ (rxBytes (discard_rx rest)).length) :
    t1_read fixed_clk
        ⟨RxEvent.byte 0xFF :: RxEvent.byte p1 :: RxEvent.byte p2 :: RxEvent.byte p3 :: rest,
          tx, baud⟩ tp =
      Outcome.done (-3,
        ⟨dropBytes 4 (discard_rx rest), tx ++ [0xFF, p1, p2, p3],
          (fixed_clk * convert_d p2) % 2 ^ 32 / convert_f p2⟩,
        { tp with nad := 0xFF, pcb := p1, len := p2 }) := by
  have hf := convert_f_range p2
  have hd := convert_d_range p2
  have hf0 : ¬ convert_f p2 % 2 ^ 32 = 0 := by rw [Nat.mod_eq_of_lt hf.2]; omega
  have hsc := sc_write_four ⟨rest, tx, baud⟩ 0xFF p1 p2 p3 (by decide) h1 h2 h3 hecho
  simp only [t1_read, readable_byte, uart_getc_byte, Outcome.bind_done, Nat.mod_eq_of_lt h1,
    Nat.mod_eq_of_lt h2, Nat.mod_eq_of_lt h3, Bool.true_eq_false, if_false, if_true,
    Nat.reduceMod, hsc, calculate_baudrate, if_neg hf0, uart_tx_wait_blocking,
    uart_set_baudrate, Nat.mod_eq_of_lt hf.2,
    Nat.mod_eq_of_lt (by omega : convert_d p2 < 256)]
  rw [if_neg (by omega : ¬ convert_f p2 = 0)]
  rfl

/-- C9 (as amended): if the first byte `t1_read` receives is 0xFF and three more
bytes arrive within the read window, it takes these four bytes as a PPS request,
writes the same four bytes back in the same order (after draining the receive
FIFO, reading one echo per byte), sets the baud rate to
`(clock * D mod 2^32) / F` with F and D from the tables for the high and low
nibble of the third byte, and returns -3; no information field and no LRC is
stored or checked.  When `clock * D < 2^32` the rate is `clock * D / F`. -/
theorem C9_t1_read_pps_amended (fixed_clk : Nat) (p1 p2 p3 : Nat) (rest : List RxEvent)
    (tx : List Nat) (baud : Nat) (tp : t1_tpdu) (h1 : p1 < 256) (h2 : p2 < 256) (h3 : p3 < 256)
    (hecho : 4 ≤ (rxBytes (discard_rx rest)).length) :
    ∃ u1 tp1,
      t1_read fixed_clk
        ⟨RxEvent.byte 0xFF :: RxEvent.byte p1 :: RxEvent.byte p2 :: RxEvent.byte p3 :: rest,
          tx, baud⟩ tp = Outcome.done (-3, u1, tp1) ∧
      u1.tx = tx ++ [0xFF, p1, p2, p3] ∧
      u1.baud = (fixed_clk * convert_d p2) % 2 ^ 32 / convert_f p2 ∧
      (fixed_clk * convert_d p2 < 2 ^ 32 → u1.baud = fixed_clk * convert_d p2 / convert_f p2) ∧
      u1.rx = dropBytes 4 (discard_rx rest) ∧
      tp1.apdu = tp.apdu ∧ tp1.check = tp.check ∧
      tp1.nad = 0xFF ∧ tp1.pcb = p1 ∧ tp1.len = p2 := by
  refine ⟨_, _, t1_read_pps fixed_clk p1 p2 p3 rest tx baud tp h1 h2 h3 hecho, rfl, rfl, ?_, rfl,
    rfl, rfl, rfl, rfl, rfl⟩
  intro h
  simp only []
  rw [Nat.mod_eq_of_lt h]

theorem C9_t1_read_pps_amended_witness :
    ∃ u1 tp1,
      t1_read 3571200
        ⟨[.byte 0xFF, .byte 0x10, .byte 0x96, .byte 0x79, .idle,
          .byte 0xFF, .byte 0x10, .byte 0x96, .byte 0x79], [], 9600⟩ zero_tpdu
        = Outcome.done (-3, u1, tp1) ∧
      u1.tx = [0xFF, 0x10, 0x96, 0x79] ∧ u1.baud = 223200 := by
  obtain ⟨u1, tp1, h, htx, hb, _⟩ := C9_t1_read_pps_amended 3571200 0x10 0x96 0x79
    [.idle, .byte 0xFF, .byte 0x10, .byte 0x96, .byte 0x79] [] 9600 zero_tpdu
    (by decide) (by decide) (by decide) (by decide)
  exact ⟨u1, tp1, h, htx, by rw [hb]; decide⟩

set_option maxRecDepth 100000 in
/-- C9, counterexample: with a configured clock of 200 MHz and PPS1 = 0x96 (F = 512,
D = 32) the product clock * D does not fit 32 bits; `t1_read` sets the baud rate
4111392, which is not clock * D / F = 12500000. -/
theorem C9_baud_wraps :
    t1_read 200000000
        ⟨[.byte 0xFF, .byte 0x10, .byte 0x96, .byte 0x79, .idle,
          .byte 0xFF, .byte 0x10, .byte 0x96, .byte 0x79], [], 9600⟩ zero_tpdu =
      Outcome.done (-3, ⟨[], [0xFF, 0x10, 0x96, 0x79], 4111392⟩,
        { zero_tpdu with nad := 0xFF, pcb := 0x10, len := 0x96 }) ∧
    4111392 ≠ 200000000 * convert_d 0x96 / convert_f 0x96 := by
  decide

/-! ## C3 to C6: chained writing with a cooperating reader -/

theorem read_into_wf (nad pcb cur : Nat) (data : List Nat) (send : t1_tpdu)
    (hnad : nad < 256) (hpcb : pcb < 256) (hcur : cur ≤ data.length) (hcur2 : cur < 256)
    (hdata : ∀ x ∈ data, x < 256) (hlen : send.apdu.length = 256)
    (hap : ∀ x ∈ send.apdu, x < 256) :
    (t1_read_into_tpdu nad pcb cur data send).wf := by
  refine ⟨hnad, hpcb, hcur2, ?_, ?_, ?_⟩
  · simp only [t1_read_into_tpdu, List.length_append, List.length_take, List.length_drop]
    omega
  · intro x hx
    simp only [t1_read_into_tpdu, List.mem_append] at hx
    rcases hx with hx | hx
    · exact hdata x (List.mem_of_mem_take hx)
    · exact hap x (List.mem_of_mem_drop hx)
  · apply foldl_xor_lt
    · intro x hx; exact hdata x (List.mem_of_mem_take hx)
    · simp only [Nat.zero_xor]
      exact Nat.xor_lt_two_pow (n := 8) (Nat.xor_lt_two_pow (n := 8) hnad hpcb) hcur2

/-- One block of the chain: the block built from the buffer is written as the
frame of the next `cur` bytes. -/
theorem wcb_write_step (nad pcb cur : Nat) (data : List Nat) (send : t1_tpdu)
    (echo : List Nat) (rest : List RxEvent) (tx : List Nat) (baud : Nat)
    (hnad : nad < 256) (hpcb : pcb < 256) (hcur : cur ≤ data.length) (hcur2 : cur < 256)
    (hdata : ∀ x ∈ data, x < 256) (hlen : send.apdu.length = 256)
    (hap : ∀ x ∈ send.apdu, x < 256) (hecho : echo.length = cur + 4) :
    t1_write ⟨echo.map RxEvent.byte ++ rest, tx, baud⟩ (t1_read_into_tpdu nad pcb cur data send) =
      Outcome.done (1, ⟨rest, tx ++ t1_frame nad pcb (data.take cur), baud⟩) := by
  have hwf := read_into_wf nad pcb cur data send hnad hpcb hcur hcur2 hdata hlen hap
  have hl : (t1_read_into_tpdu nad pcb cur data send).len = cur := rfl
  rw [t1_write_spec _ _ hwf (by rw [rxBytes_map_byte, hl]; simp; omega)]
  have hd : dropBytes ((t1_read_into_tpdu nad pcb cur data send).len + 4)
      (echo.map RxEvent.byte ++ rest) = rest := by
    rw [hl, ← hecho, dropBytes_map_byte]
  have ht : (t1_read_into_tpdu nad pcb cur data send).apdu.take cur = data.take cur := by
    simp only [t1_read_into_tpdu]
    rw [List.take_append_of_le_length (by simp; omega)]
    simp
  rw [hl] at hd
  simp only [hl, ht, hd]
  rfl

/-- The answer to an intermediate block: an error-free R-block is read. -/
theorem wcb_ack_read (fixed_clk : Nat) (rnad rpcb rlrc : Nat) (tail : List RxEvent)
    (tx : List Nat) (baud : Nat) (recv : t1_tpdu)
    (hnad : rnad < 256) (hpps : rnad ≠ 0xFF) (hpcb : rpcb = 0x80 ∨ rpcb = 0x90)
    (hlrc : rlrc < 256) (hap : recv.apdu.length = 256) :
    t1_read fixed_clk
        ⟨RxEvent.byte rnad :: RxEvent.byte rpcb :: RxEvent.byte 0 :: RxEvent.byte rlrc :: tail,
          tx, baud⟩ recv =
      Outcome.done (if rlrc ≠ xorAll [rnad, rpcb, 0] then -1 else 4, ⟨tail, tx, baud⟩,
        { recv with nad := rnad, pcb := rpcb, len := 0 }) := by
  have hp : rpcb < 256 := by rcases hpcb with h | h <;> omega
  have h := t1_read_frame fixed_clk rnad rpcb rlrc [] tail tx baud recv hnad hp (by decide)
    (by simp) hlrc hpps hap
  simp only [List.length_nil, List.nil_append, List.map_cons, List.map_nil, List.cons_append,
    List.drop_zero] at h
  rw [h]
  rfl

/-- An error-free R-block is accepted: nothing is written and counter and block
size stay as they are. -/
theorem wcb_ack_handle (fixed_clk : Nat) (u : Uart) (send recv : t1_tpdu) (sc : Int) (b : Nat)
    (hpcb : recv.pcb = 0x80 ∨ recv.pcb = 0x90) :
    t1_handle_response_from_write fixed_clk u send recv sc b =
      Outcome.done (0, u, recv, sc, b) := by
  rcases hpcb with h1 | h1 <;>
    simp [t1_handle_response_from_write, t1_handle_response_from_write_fuel, check_block_kind,
      t1_classify_r_block, T1_I_BLOCK, T1_R_BLOCK, T1_S_BLOCK, h1]

theorem wcb_loop_coop (fixed_clk b : Nat) (buffer : List Nat) (hb2 : b ≤ 255)
    (hbytes : ∀ x ∈ buffer, x < 256) :
    ∀ (n R : Nat) (rx rest : List RxEvent), AckScript b n R rx rest →
    ∀ (send recv : t1_tpdu) (sc : Int) (sent : Nat) (tx : List Nat) (baud : Nat),
      sent + R = buffer.length → send.nad < 256 → send.pcb < 256 → send.apdu.length = 256 →
      (∀ x ∈ send.apdu, x < 256) → recv.apdu.length = 256 →
      ∃ sendF, t1_write_complete_buffer_loop fixed_clk buffer n b send recv sc sent ⟨rx, tx, baud⟩
          = Outcome.done (sendF,
              ⟨rest, tx ++ chain_frames send.nad (chain_blocks b n send.pcb sc (buffer.drop sent)),
                baud⟩) ∧
        sendF.pcb = chain_final b n send.pcb sc (buffer.drop sent) := by
  intro n R rx rest h
  induction h with
  | last R echo rest hR hecho =>
    intro send recv sc sent tx baud hsent hnad hpcb hlen hap _
    have hdl : (buffer.drop sent).length = R := by rw [List.length_drop]; omega
    have hR1 : buffer.length - sent = R := by omega
    have hcur : (if R > b then b else R % 256) = R := by
      rw [if_neg (by omega), Nat.mod_eq_of_lt (by omega)]
    have hpcb1 : send.pcb &&& 0xdf < 256 := Nat.and_lt_two_pow (n := 8) _ (by decide)
    have hw := wcb_write_step send.nad (send.pcb &&& 0xdf) R (buffer.drop sent)
      { send with pcb := send.pcb &&& 0xdf, len := R } echo rest tx baud hnad hpcb1 (by omega)
      (by omega) (fun x hx => hbytes x (List.mem_of_mem_drop hx)) hlen hap hecho
    have hcb : chain_blocks b 1 send.pcb sc (buffer.drop sent) =
        [(send.pcb &&& 0xdf, (buffer.drop sent).take R)] := by
      simp [chain_blocks, hdl, hcur]
    have hcf : chain_final b 1 send.pcb sc (buffer.drop sent) =
        if (sc + 1) % 2 = 0 then (send.pcb &&& 0xdf) &&& 0xBF else (send.pcb &&& 0xdf) ||| 0x40 := by
      simp [chain_final, hdl, hcur]
    rw [t1_write_complete_buffer_loop, hcb, hcf]
    simp only [hR1, hcur, if_neg (by omega : ¬ sent + R < buffer.length), hw, Outcome.bind_done,
      if_pos hsent, t1_write_complete_buffer_loop, chain_frames, List.map_cons, List.map_nil,
      List.flatten_cons, List.flatten_nil, List.append_nil]
    refine ⟨_, rfl, ?_⟩
    split_ifs <;> rfl
  | more n R echo rnad rpcb rlrc tail rest hR hecho hrnad hpps hrpcb hrlrc _ ih =>
    intro send recv sc sent tx baud hsent hnad hpcb hlen hap hrecv
    have hdl : (buffer.drop sent).length = R := by rw [List.length_drop]; omega
    have hR1 : buffer.length - sent = R := by omega
    have hcur : (if R > b then b else R % 256) = b := by rw [if_pos hR]
    have hM : ((0x1 : Nat) <<< 5) = 0x20 := by decide
    have hpcb1 : send.pcb ||| 0x20 < 256 := Nat.or_lt_two_pow (n := 8) hpcb (by decide)
    have hw := wcb_write_step send.nad (send.pcb ||| 0x20) b (buffer.drop sent)
      { send with pcb := send.pcb ||| 0x20, len := b } echo
      (RxEvent.byte rnad :: RxEvent.byte rpcb :: RxEvent.byte 0 :: RxEvent.byte rlrc :: tail)
      tx baud hnad hpcb1 (by omega) (by omega)
      (fun x hx => hbytes x (List.mem_of_mem_drop hx)) hlen hap hecho
    have hcb : chain_blocks b (n + 1) send.pcb sc (buffer.drop sent) =
        (send.pcb ||| 0x20, (buffer.drop sent).take b) ::
          chain_blocks b n
            (if (sc + 1) % 2 = 0 then (send.pcb ||| 0x20) &&& 0xBF else (send.pcb ||| 0x20) ||| 0x40)
            (if (sc + 1) % 2 = 0 then 0 else 1) (buffer.drop (sent + b)) := by
      simp [chain_blocks, hdl, hcur, hR, hM, List.drop_drop, Nat.add_comm]
    have hcf : chain_final b (n + 1) send.pcb sc (buffer.drop sent) =
        chain_final b n
          (if (sc + 1) % 2 = 0 then (send.pcb ||| 0x20) &&& 0xBF else (send.pcb ||| 0x20) ||| 0x40)
          (if (sc + 1) % 2 = 0 then 0 else 1) (buffer.drop (sent + b)) := by
      simp [chain_final, hdl, hcur, hR, hM, List.drop_drop, Nat.add_comm]
    rw [t1_write_complete_buffer_loop, hcb, hcf]
    simp only [hR1, hcur, hM, if_pos (by omega : sent + b < buffer.length), hw, Outcome.bind_done,
      if_neg (by omega : ¬ sent + b = buffer.length),
      wcb_ack_read fixed_clk rnad rpcb rlrc tail _ baud recv hrnad hpps hrpcb hrlrc hrecv]
    rw [wcb_ack_handle fixed_clk _ _ _ _ b hrpcb, Outcome.bind_done]
    obtain ⟨_, _, _, hl1, ha1, _⟩ := read_into_wf send.nad (send.pcb ||| 0x20) b (buffer.drop sent)
      { send with pcb := send.pcb ||| 0x20, len := b } hnad hpcb1 (by omega) (by omega)
      (fun x hx => hbytes x (List.mem_of_mem_drop hx)) hlen hap
    have hfr : ∀ (l : List (Nat × List Nat)),
        tx ++ chain_frames send.nad ((send.pcb ||| 0x20, (buffer.drop sent).take b) :: l) =
        (tx ++ t1_frame send.nad (send.pcb ||| 0x20) ((buffer.drop sent).take b)) ++
          chain_frames send.nad l := by
      intro l
      simp [chain_frames, List.append_assoc]
    by_cases hsc : (sc + 1) % 2 = 0
    · simp only [if_pos hsc]
      obtain ⟨sendF, h1, h2⟩ := ih
        { t1_read_into_tpdu send.nad (send.pcb ||| 0x20) b (buffer.drop sent)
            { send with pcb := send.pcb ||| 0x20, len := b } with
          pcb := (send.pcb ||| 0x20) &&& 0xBF }
        { recv with nad := rnad, pcb := rpcb, len := 0 } 0 (sent + b)
        (tx ++ t1_frame send.nad (send.pcb ||| 0x20) ((buffer.drop sent).take b)) baud
        (by omega) hnad (Nat.and_lt_two_pow (n := 8) _ (by decide)) hl1 ha1 hrecv
      refine ⟨sendF, Eq.trans h1 ?_, h2⟩
      rw [hfr]
      rfl
    · simp only [if_neg hsc]
      obtain ⟨sendF, h1, h2⟩ := ih
        { t1_read_into_tpdu send.nad (send.pcb ||| 0x20) b (buffer.drop sent)
            { send with pcb := send.pcb ||| 0x20, len := b } with
          pcb := (send.pcb ||| 0x20) ||| 0x40 }
        { recv with nad := rnad, pcb := rpcb, len := 0 } 1 (sent + b)
        (tx ++ t1_frame send.nad (send.pcb ||| 0x20) ((buffer.drop sent).take b)) baud
        (by omega) hnad (Nat.or_lt_two_pow (n := 8) hpcb1 (by decide)) hl1 ha1 hrecv
      refine ⟨sendF, Eq.trans h1 ?_, h2⟩
      rw [hfr]
      rfl

theorem ackScript_pos (b n R : Nat) (rx rest : List RxEvent) (h : AckScript b n R rx rest) :
    1 ≤ n := by
  cases h <;> omega

/-- The number of rounds of a cooperating script is the block count the code
computes. -/
theorem ackScript_num_iblocks (b : Nat) (hb : 1 ≤ b) :
    ∀ (n R : Nat) (rx rest : List RxEvent), AckScript b n R rx rest → R + 1 < 2 ^ 31 →
      num_iblocks R b = n := by
  intro n R rx rest h
  induction h with
  | last R echo rest hR _ =>
    intro hlt
    have h32 : (R / b + 1) % 2 ^ 32 = R / b + 1 := by
      have : R / b ≤ R := Nat.div_le_self R b
      exact Nat.mod_eq_of_lt (by omega)
    have hdiv : R / b ≤ R := Nat.div_le_self R b
    unfold num_iblocks toInt32
    simp only [h32, if_pos (by omega : R / b + 1 < 2 ^ 31)]
    rcases Nat.lt_or_ge R b with hlt2 | hge
    · have h0 : R / b = 0 := Nat.div_eq_of_lt hlt2
      have hm : R % b = R := Nat.mod_eq_of_lt hlt2
      rw [h0, hm]
      by_cases hz : R = 0
      · simp [hz]
      · simp [hz]
    · have hRb : R = b := by omega
      subst hRb
      have h1 : R / R = 1 := Nat.div_self (by omega)
      have hm : R % R = 0 := Nat.mod_self R
      rw [h1, hm]
      have hz : R ≠ 0 := by omega
      simp [hz]
  | more n R echo rnad rpcb rlrc tail rest hR _ _ _ _ _ _ ih =>
    intro hlt
    have ih1 := ih (by omega)
    have hdiv0 : (R - b) / b ≤ R - b := Nat.div_le_self _ b
    have hRe : R = (R - b) + b := by omega
    have hdiv : R / b = (R - b) / b + 1 := by
      conv_lhs => rw [hRe]
      exact Nat.add_div_right _ (by omega)
    have hmod : R % b = (R - b) % b := by
      conv_lhs => rw [hRe]
      exact Nat.add_mod_right _ _
    unfold num_iblocks toInt32 at ih1 ⊢
    have h32 : (R / b + 1) % 2 ^ 32 = R / b + 1 := Nat.mod_eq_of_lt (by omega)
    have h32b : ((R - b) / b + 1) % 2 ^ 32 = (R - b) / b + 1 := Nat.mod_eq_of_lt (by omega)
    simp only [h32, if_pos (by omega : R / b + 1 < 2 ^ 31)]
    simp only [h32b, if_pos (by omega : (R - b) / b + 1 < 2 ^ 31)] at ih1
    rw [hmod, hdiv]
    have hz : R ≠ 0 := by omega
    have hz2 : R - b ≠ 0 := by omega
    simp only [ne_eq, hz, hz2, not_false_eq_true, and_true] at ih1 ⊢
    split_ifs at ih1 ⊢ <;> push_cast at ih1 ⊢ <;> omega

/-- The number of rounds is the rounded-up quotient, and 1 for an empty buffer. -/
theorem ackScript_ceil (b : Nat) (hb : 1 ≤ b) :
    ∀ (n R : Nat) (rx rest : List RxEvent), AckScript b n R rx rest →
      (R = 0 → n = 1) ∧ (1 ≤ R → n = (R + b - 1) / b) := by
  intro n R rx rest h
  induction h with
  | last R echo rest hR _ =>
    refine ⟨fun _ => rfl, fun h1 => ?_⟩
    have : (R + b - 1) / b = 1 := by
      apply Nat.div_eq_of_lt_le <;> omega
    omega
  | more n R echo rnad rpcb rlrc tail rest hR _ _ _ _ _ _ ih =>
    refine ⟨fun h0 => by omega, fun _ => ?_⟩
    have ih1 := ih.2 (by omega)
    have hRe : R + b - 1 = (R - b + b - 1) + b := by omega
    rw [hRe, Nat.add_div_right _ (by omega), ← ih1]

theorem bit5_set (p : Nat) : bit (p ||| 0x20) 5 = true := by
  have : Nat.testBit 0x20 5 = true := by decide
  simp [bit, Nat.testBit_or, this]

theorem bit5_clear (p : Nat) : bit (p &&& 0xdf) 5 = false := by
  have : Nat.testBit 0xdf 5 = false := by decide
  simp [bit, Nat.testBit_and, this]

theorem bit7_keep (p : Nat) :
    bit (p ||| 0x20) 7 = bit p 7 ∧ bit (p &&& 0xdf) 7 = bit p 7 ∧
    bit (p ||| 0x40) 7 = bit p 7 ∧ bit (p &&& 0xBF) 7 = bit p 7 := by
  have h1 : Nat.testBit 0x20 7 = false := by decide
  have h2 : Nat.testBit 0xdf 7 = true := by decide
  have h3 : Nat.testBit 0x40 7 = false := by decide
  have h4 : Nat.testBit 0xBF 7 = true := by decide
  simp [bit, Nat.testBit_or, Nat.testBit_and, h1, h2, h3, h4]

/-- Shape of the blocks of a chain with a cooperating reader. -/
theorem chain_blocks_shape (b : Nat) (hb2 : b ≤ 255) :
    ∀ (n R : Nat) (rx rest : List RxEvent), AckScript b n R rx rest →
    ∀ (pcb : Nat) (sc : Int) (data : List Nat), data.length = R →
      (chain_blocks b n pcb sc data).length = n ∧
      ((chain_blocks b n pcb sc data).map Prod.snd).flatten = data ∧
      (∀ x ∈ (chain_blocks b n pcb sc data).dropLast, x.2.length = b ∧ bit x.1 5 = true) ∧
      (∃ l, (chain_blocks b n pcb sc data).getLast? = some l ∧ l.2.length ≤ b ∧
        (1 ≤ R → 1 ≤ l.2.length) ∧ bit l.1 5 = false) ∧
      (∀ x ∈ chain_blocks b n pcb sc data, bit x.1 7 = bit pcb 7) := by
  intro n R rx rest h
  induction h with
  | last R echo rest hR _ =>
    intro pcb sc data hdl
    have hcur : (if R > b then b else R % 256) = R := by
      rw [if_neg (by omega), Nat.mod_eq_of_lt (by omega)]
    have hcb : chain_blocks b 1 pcb sc data = [(pcb &&& 0xdf, data.take R)] := by
      simp [chain_blocks, hdl, hcur]
    rw [hcb]
    refine ⟨rfl, by simp [← hdl], by simp, ⟨_, rfl, by simp; omega, ?_, bit5_clear pcb⟩, ?_⟩
    · intro h1
      simp [hdl]; omega
    · intro x hx
      simp only [List.mem_singleton] at hx
      rw [hx]
      exact (bit7_keep pcb).2.1
  | more n R echo rnad rpcb rlrc tail rest hR _ _ _ _ _ hs ih =>
    intro pcb sc data hdl
    have hcur : (if R > b then b else R % 256) = b := by rw [if_pos hR]
    have hM : ((0x1 : Nat) <<< 5) = 0x20 := by decide
    have hcb : chain_blocks b (n + 1) pcb sc data =
        (pcb ||| 0x20, data.take b) ::
          chain_blocks b n
            (if (sc + 1) % 2 = 0 then (pcb ||| 0x20) &&& 0xBF else (pcb ||| 0x20) ||| 0x40)
            (if (sc + 1) % 2 = 0 then 0 else 1) (data.drop b) := by
      simp [chain_blocks, hdl, hcur, hR, hM]
    obtain ⟨i1, i2, i3, ⟨l, i4, i5, i6, i7⟩, i8⟩ := ih
      (if (sc + 1) % 2 = 0 then (pcb ||| 0x20) &&& 0xBF else (pcb ||| 0x20) ||| 0x40)
      (if (sc + 1) % 2 = 0 then 0 else 1) (data.drop b) (by rw [List.length_drop]; omega)
    have hn := ackScript_pos _ _ _ _ _ hs
    have hne : chain_blocks b n
        (if (sc + 1) % 2 = 0 then (pcb ||| 0x20) &&& 0xBF else (pcb ||| 0x20) ||| 0x40)
        (if (sc + 1) % 2 = 0 then 0 else 1) (data.drop b) ≠ [] := by
      intro h0
      rw [h0] at i1
      simp at i1
      omega
    have hp7 : bit (if (sc + 1) % 2 = 0 then (pcb ||| 0x20) &&& 0xBF else (pcb ||| 0x20) ||| 0x40) 7
        = bit pcb 7 := by
      split_ifs
      · rw [(bit7_keep _).2.2.2, (bit7_keep _).1]
      · rw [(bit7_keep _).2.2.1, (bit7_keep _).1]
    rw [hcb]
    refine ⟨by rw [List.length_cons, i1], ?_, ?_, ⟨l, ?_, i5, fun _ => i6 (by omega), i7⟩, ?_⟩
    · simp only [List.map_cons, List.flatten_cons, i2]
      exact List.take_append_drop b data
    · intro x hx
      rw [List.dropLast_cons_of_ne_nil hne] at hx
      rcases List.mem_cons.mp hx with hx | hx
      · rw [hx]
        refine ⟨?_, bit5_set pcb⟩
        simp [hdl]; omega
      · exact i3 x hx
    · rw [List.getLast?_cons, i4]
      rfl
    · intro x hx
      rcases List.mem_cons.mp hx with hx | hx
      · rw [hx]
        exact (bit7_keep pcb).1
      · rw [i8 x hx, hp7]

/-- What `t1_write_complete_buffer` does with a cooperating reader. -/
theorem wcb_coop (fixed_clk : Nat) (u : Uart) (b : Nat) (tpdu : t1_tpdu) (buffer : List Nat)
    (n : Nat) (rest : List RxEvent) (hb1 : 1 ≤ b) (hb2 : b ≤ 255)
    (hbytes : ∀ x ∈ buffer, x < 256) (hN : buffer.length + 1 < 2 ^ 31)
    (hnad : tpdu.nad < 256) (hpcb : tpdu.pcb < 256)
    (hrx : AckScript b n buffer.length u.rx rest) :
    t1_write_complete_buffer fixed_clk u b tpdu buffer =
      Outcome.done (if chain_final b n tpdu.pcb 0 buffer ≠ 0 then 1 else 0,
        ⟨rest, u.tx ++ chain_frames tpdu.nad (chain_blocks b n tpdu.pcb 0 buffer), u.baud⟩) := by
  have hnum := ackScript_num_iblocks b hb1 n buffer.length u.rx rest hrx hN
  obtain ⟨sendF, h1, h2⟩ := wcb_loop_coop fixed_clk b buffer hb2 hbytes n buffer.length u.rx rest
    hrx { zero_tpdu with nad := tpdu.nad, pcb := tpdu.pcb } zero_tpdu 0 0 u.tx u.baud (by simp)
    hnad hpcb zero_tpdu_wf.2.2.2.1 zero_tpdu_wf.2.2.2.2.1 zero_tpdu_wf.2.2.2.1
  simp only [List.drop_zero] at h1 h2
  rw [t1_write_complete_buffer, if_neg (by omega : ¬ b = 0)]
  simp only [hnum, Int.toNat_ofNat]
  rw [h1, Outcome.bind_done]
  simp only [h2]
  simp

/-- C3: for every buffer of length at least 1 and every block size b with
1 ≤ b ≤ 254, when the reader answers every intermediate block with an error-free
R-block, `t1_write_complete_buffer` returns and has transmitted a sequence of
blocks whose INF fields concatenated in order equal the buffer; every block but
the last has LEN = b and PCB bit 5 (the M-bit) set, the last has between 1 and b
bytes and the M-bit clear; bit 7 of every PCB is that of the PCB passed in (so the
blocks are I-blocks when the caller passes an I-block PCB). -/
theorem C3_chained_blocks (fixed_clk : Nat) (u : Uart) (b : Nat) (tpdu : t1_tpdu)
    (buffer : List Nat) (n : Nat) (rest : List RxEvent)
    (hlen : 1 ≤ buffer.length) (hb1 : 1 ≤ b) (hb2 : b ≤ 254)
    (hbytes : ∀ x ∈ buffer, x < 256) (hN : buffer.length + 1 < 2 ^ 31)
    (hnad : tpdu.nad < 256) (hpcb : tpdu.pcb < 256)
    (hrx : AckScript b n buffer.length u.rx rest) :
    ∃ ret blocks,
      t1_write_complete_buffer fixed_clk u b tpdu buffer =
        Outcome.done (ret, ⟨rest, u.tx ++ chain_frames tpdu.nad blocks, u.baud⟩) ∧
      (blocks.map Prod.snd).flatten = buffer ∧
      (∀ x ∈ blocks.dropLast, x.2.length = b ∧ bit x.1 5 = true) ∧
      (∃ l, blocks.getLast? = some l ∧ 1 ≤ l.2.length ∧ l.2.length ≤ b ∧ bit l.1 5 = false) ∧
      (∀ x ∈ blocks, bit x.1 7 = bit tpdu.pcb 7) := by
  obtain ⟨_, s2, s3, ⟨l, s4, s5, s6, s7⟩, s8⟩ := chain_blocks_shape b (by omega) n buffer.length
    u.rx rest hrx tpdu.pcb 0 buffer rfl
  exact ⟨_, _, wcb_coop fixed_clk u b tpdu buffer n rest hb1 (by omega) hbytes hN hnad hpcb hrx,
    s2, s3, ⟨l, s4, s6 hlen, s5, s7⟩, s8⟩

theorem script_80_32_ack : AckScript 32 3 80 script_80_32 [] :=
  AckScript.more 2 80 (List.replicate 36 0) 0 0x90 0x90 _ [] (by decide) (by decide) (by decide)
    (by decide) (Or.inr rfl) (by decide)
    (AckScript.more 1 48 (List.replicate 36 0) 0 0x90 0x90 _ [] (by decide) (by decide)
      (by decide) (by decide) (Or.inr rfl) (by decide)
      (AckScript.last 16 (List.replicate 20 0) [] (by decide) (by decide)))

theorem replicate_bytes (k v : Nat) (hv : v < 256) : ∀ x ∈ List.replicate k v, x < 256 := by
  intro x hx
  rw [List.eq_of_mem_replicate hx]
  exact hv

theorem C3_chained_blocks_witness :
    ∃ ret blocks,
      t1_write_complete_buffer 4764000 ⟨script_80_32, [], 9600⟩ 32 zero_tpdu
          (List.replicate 80 0xAA) =
        Outcome.done (ret, ⟨[], [] ++ chain_frames 0 blocks, 9600⟩) ∧
      (blocks.map Prod.snd).flatten = List.replicate 80 0xAA ∧
      (∀ x ∈ blocks.dropLast, x.2.length = 32 ∧ bit x.1 5 = true) ∧
      (∃ l, blocks.getLast? = some l ∧ 1 ≤ l.2.length ∧ l.2.length ≤ 32 ∧ bit l.1 5 = false) ∧
      (∀ x ∈ blocks, bit x.1 7 = bit 0 7) :=
  C3_chained_blocks 4764000 ⟨script_80_32, [], 9600⟩ 32 zero_tpdu (List.replicate 80 0xAA) 3 []
    (by simp) (by decide) (by decide) (replicate_bytes 80 0xAA (by decide))
    (by simp) (by decide) (by decide) script_80_32_ack

set_option maxRecDepth 1000000 in
/-- The example of the specification: 80 bytes with block size 32 go out as three
I-blocks of 32, 32 and 16 bytes with PCB 0x20, 0x60 and 0x00. -/
theorem wcb_80_32 :
    t1_write_complete_buffer 4764000 ⟨script_80_32, [], 9600⟩ 32 zero_tpdu
        (List.replicate 80 0xAA) =
      Outcome.done (1, ⟨[], t1_frame 0 0x20 (List.replicate 32 0xAA) ++
        t1_frame 0 0x60 (List.replicate 32 0xAA) ++ t1_frame 0 0x00 (List.replicate 16 0xAA),
        9600⟩) := by
  decide

/-- C4 (as amended): when the reader answers every intermediate block with an
error-free R-block, `t1_write_complete_buffer` splits a buffer of length len ≥ 1
into exactly ⌈len / accepted_size⌉ blocks, for every accepted size from 1 to
255; an empty buffer is sent as exactly one block (with LEN = 0). -/
theorem C4_block_count_amended (fixed_clk : Nat) (u : Uart) (b : Nat) (tpdu : t1_tpdu)
    (buffer : List Nat) (n : Nat) (rest : List RxEvent)
    (hb1 : 1 ≤ b) (hb2 : b ≤ 255)
    (hbytes : ∀ x ∈ buffer, x < 256) (hN : buffer.length + 1 < 2 ^ 31)
    (hnad : tpdu.nad < 256) (hpcb : tpdu.pcb < 256)
    (hrx : AckScript b n buffer.length u.rx rest) :
    ∃ ret blocks,
      t1_write_complete_buffer fixed_clk u b tpdu buffer =
        Outcome.done (ret, ⟨rest, u.tx ++ chain_frames tpdu.nad blocks, u.baud⟩) ∧
      (blocks.map Prod.snd).flatten = buffer ∧
      (1 ≤ buffer.length → blocks.length = (buffer.length + b - 1) / b) ∧
      (buffer.length = 0 → blocks.length = 1) ∧
      (num_iblocks buffer.length b : Int) = blocks.length := by
  obtain ⟨s1, s2, _⟩ := chain_blocks_shape b hb2 n buffer.length u.rx rest hrx tpdu.pcb 0 buffer rfl
  obtain ⟨c0, c1⟩ := ackScript_ceil b hb1 n buffer.length u.rx rest hrx
  refine ⟨_, _, wcb_coop fixed_clk u b tpdu buffer n rest hb1 hb2 hbytes hN hnad hpcb hrx,
    s2, ?_, ?_, ?_⟩
  · intro h; rw [s1]; exact c1 h
  · intro h; rw [s1]; exact c0 h
  · rw [s1]; exact ackScript_num_iblocks b hb1 n buffer.length u.rx rest hrx hN

theorem C4_block_count_amended_witness :
    ∃ ret blocks,
      t1_write_complete_buffer 4764000 ⟨script_80_32, [], 9600⟩ 32 zero_tpdu
          (List.replicate 80 0xAA) =
        Outcome.done (ret, ⟨[], [] ++ chain_frames 0 blocks, 9600⟩) ∧
      blocks.length = 3 := by
  obtain ⟨ret, blocks, h1, _, h3, _⟩ := C4_block_count_amended 4764000 ⟨script_80_32, [], 9600⟩ 32
    zero_tpdu (List.replicate 80 0xAA) 3 [] (by decide) (by decide)
    (replicate_bytes 80 0xAA (by decide)) (by simp) (by decide) (by decide) script_80_32_ack
  exact ⟨ret, blocks, h1, by rw [h3 (by simp)]; simp⟩

set_option maxRecDepth 1000000 in
/-- C4, counterexample: for an empty buffer and accepted size 32 the rounded-up
quotient is 0, but the code counts one block and transmits one block, the four
bytes 00 00 00 00 (NAD, PCB, LEN = 0, LRC).  And for 33 bytes and accepted size
32 the rounded-up quotient is 2, but when the reader answers the first block
with the R-block 00 81 00 81 (error), the block is sent again and three
I-blocks, 77 bytes, go out. -/
theorem C4_block_count_differs :
    (0 + 32 - 1) / 32 = 0 ∧ num_iblocks 0 32 = 1 ∧
    t1_write_complete_buffer 4764000
        ⟨[.byte 0, .byte 0, .byte 0, .byte 0], [], 9600⟩ 32 zero_tpdu [] =
      Outcome.done (1, ⟨[], [0, 0, 0, 0], 9600⟩) ∧
    (33 + 32 - 1) / 32 = 2 ∧
    (t1_write_complete_buffer 4764000 ⟨script_33_32_error, [], 9600⟩ 32 zero_tpdu
        (List.replicate 33 0xAA)).bind (fun r => Outcome.done (r.2.tx, r.2.tx.length)) =
      Outcome.done (t1_frame 0x00 0x20 (List.replicate 32 0xAA) ++
        t1_frame 0x00 0x60 (List.replicate 32 0xAA) ++ t1_frame 0x00 0x40 [0xAA], 77) := by
  decide

/-! ## C5, C6: the sequence bit in a chain and the return value -/

set_option maxRecDepth 1000000 in
/-- C5, the code at the failing input: at the start of a session (sequence counter
1, as `prot_t1` sets it) the reader's I-block has PCB 0x00 and the host answers
with 33 bytes (accepted size 32).  The device transmits two I-blocks with PCB 0x60
and 0x40: bit 6 is set in both, it does not toggle.  The counter is 1 again
afterwards, so the first I-block of the next response carries bit 6 set as well. -/
theorem C5_sequence_bit_repeats :
    prot_t1_send_response 4764000 ⟨script_33_32, [], 9600⟩ 1 32 zero_tpdu zero_tpdu
        (List.replicate 33 0xAA) =
      Outcome.done (1,
        ⟨[], t1_frame 0 0x60 (List.replicate 32 0xAA) ++ t1_frame 0 0x40 [0xAA], 9600⟩,
        { zero_tpdu with pcb := 0x40 }, { zero_tpdu with pcb := 0x40 }) ∧
    bit 0x60 6 = true ∧ bit 0x40 6 = true ∧
    (t1_adjust_sequence_bit 1 { zero_tpdu with pcb := 0x40 }).2.pcb = 0x40 := by
  decide

set_option maxRecDepth 1000000 in
/-- C6, the code at the failing input: called with PCB 0x01 and 33 bytes (block
size 32) the function sends two blocks, an even number, and returns 1: the PCB
left after the loop is 0x01, which `pcb && 0x40` turns into 1. -/
theorem C6_return_value_even_count :
    t1_write_complete_buffer 4764000 ⟨script_33_32, [], 9600⟩ 32 { zero_tpdu with pcb := 0x01 }
        (List.replicate 33 0xAA) =
      Outcome.done (1,
        ⟨[], t1_frame 0 0x21 (List.replicate 32 0xAA) ++ t1_frame 0 0x41 [0xAA], 9600⟩) ∧
    chain_final 32 2 0x01 0 (List.replicate 33 0xAA) = 0x01 := by
  decide

/-! ## The resend bound of `t1_handle_response_from_write` is never reached -/

theorem Outcome.bind_eq_done {α β : Type} (x : Outcome α) (f : α → Outcome β) (r : β)
    (h : x.bind f = Outcome.done r) : ∃ a, x = Outcome.done a ∧ f a = Outcome.done r := by
  cases x with
  | done a => exact ⟨a, rfl, h⟩
  | blocked => simp [Outcome.bind] at h
  | undefined => simp [Outcome.bind] at h

theorem getc_rx_length (r : List RxEvent) (b : Nat) (r1 : List RxEvent)
    (h : getc_rx r = some (b, r1)) : r1.length < r.length := by
  induction r with
  | nil => simp [getc_rx] at h
  | cons e r ih =>
    cases e with
    | byte c =>
      simp only [getc_rx, Option.some.injEq, Prod.mk.injEq] at h
      rw [← h.2]
      simp
    | idle =>
      have := ih (by simpa [getc_rx] using h)
      simp only [List.length_cons]
      omega

theorem uart_getc_length (u : Uart) (r : Nat × Uart) (h : uart_getc u = Outcome.done r) :
    r.2.rx.length < u.rx.length := by
  unfold uart_getc at h
  cases hg : getc_rx u.rx with
  | none => rw [hg] at h; simp at h
  | some x =>
    obtain ⟨b, r1⟩ := x
    rw [hg] at h
    simp only [Outcome.done.injEq] at h
    rw [← h]
    exact getc_rx_length _ _ _ hg

theorem readable_length (u : Uart) : (uart_is_readable_within_us u).2.rx.length ≤ u.rx.length := by
  unfold uart_is_readable_within_us
  split <;> simp_all

theorem t1_write_loop_length (tp : t1_tpdu) :
    ∀ (fuel pos cs : Nat) (u : Uart) (r : Nat × Uart),
      t1_write_loop tp fuel pos cs u = Outcome.done r → r.2.rx.length ≤ u.rx.length := by
  intro fuel
  induction fuel with
  | zero =>
    intro pos cs u r h
    simp only [t1_write_loop, Outcome.done.injEq] at h
    rw [← h]
  | succ fuel ih =>
    intro pos cs u r h
    rw [t1_write_loop] at h
    split at h
    · simp only at h
      split at h
      · rename_i x u1 hg
        have h1 := uart_getc_length _ _ hg
        have h2 := ih _ _ _ _ h
        simp only [uart_putc_raw] at h1
        omega
      · simp at h
      · simp at h
    · simp only [Outcome.done.injEq] at h
      rw [← h]

theorem t1_write_length (u : Uart) (tp : t1_tpdu) (r : Int × Uart)
    (h : t1_write u tp = Outcome.done r) : r.2.rx.length < u.rx.length := by
  unfold t1_write at h
  split at h
  · rename_i cs u1 hl
    have h1 := t1_write_loop_length tp _ _ _ _ _ hl
    split at h
    · rename_i x u2 hg
      have h2 := uart_getc_length _ _ hg
      simp only [Outcome.done.injEq] at h
      rw [← h]
      simp only [uart_putc_raw] at h2 h1
      simp only at h1 h2 ⊢
      omega
    · simp at h
    · simp at h
  · simp at h
  · simp at h

theorem discard_rx_length (r : List RxEvent) : (discard_rx r).length ≤ r.length := by
  induction r with
  | nil => simp [discard_rx]
  | cons e r ih =>
    cases e with
    | byte c => simp only [discard_rx, List.length_cons]; omega
    | idle => simp [discard_rx]

theorem sc_write_loop_length (buf : List Nat) :
    ∀ (fuel pos : Nat) (u : Uart) (r : Nat × Uart),
      sc_write_loop buf fuel pos u = Outcome.done r → r.2.rx.length ≤ u.rx.length := by
  intro fuel
  induction fuel with
  | zero =>
    intro pos u r h
    simp only [sc_write_loop, Outcome.done.injEq] at h
    rw [← h]
  | succ fuel ih =>
    intro pos u r h
    rw [sc_write_loop] at h
    split at h
    · split at h
      · rename_i x u1 hg
        have h1 := uart_getc_length _ _ hg
        have h2 := ih _ _ _ h
        simp only [uart_putc, uart_putc_raw] at h1
        omega
      · simp at h
      · simp at h
    · simp only [Outcome.done.injEq] at h
      rw [← h]

theorem sc_write_length (u : Uart) (buf : List Nat) (r : Int × Uart)
    (h : sc_write u buf = Outcome.done r) : r.2.rx.length ≤ u.rx.length := by
  unfold sc_write at h
  split at h
  · rename_i pos u1 hl
    have h1 := sc_write_loop_length buf _ _ _ _ hl
    have h2 := discard_rx_length u.rx
    simp only [Outcome.done.injEq] at h
    rw [← h]
    simp only [discard_uart_buffer, uart_tx_wait_blocking] at h1
    simp only at h1 ⊢
    omega
  · simp at h
  · simp at h

theorem t1_read_loop_length :
    ∀ (fuel i : Nat) (pos : Int) (cs : Nat) (u : Uart) (tp : t1_tpdu)
      (r : Bool × Int × Nat × Uart × t1_tpdu),
      t1_read_loop fuel i pos cs u tp = Outcome.done r → r.2.2.2.1.rx.length ≤ u.rx.length := by
  intro fuel
  induction fuel with
  | zero =>
    intro i pos cs u tp r h
    simp only [t1_read_loop, Outcome.done.injEq] at h
    rw [← h]
  | succ fuel ih =>
    intro i pos cs u tp r h
    rw [t1_read_loop] at h
    split at h
    · obtain ⟨g, hg, h⟩ := Outcome.bind_eq_done _ _ _ h
      have h1 := uart_getc_length _ _ hg
      have h2 := readable_length g.2
      simp only at h
      split at h
      · simp only [Outcome.done.injEq] at h
        rw [← h]
        simp only
        omega
      · have h3 := ih _ _ _ _ _ _ h
        omega
    · simp only [Outcome.done.injEq] at h
      rw [← h]

theorem t1_read_length (fixed_clk : Nat) (u : Uart) (tp : t1_tpdu) (r : Int × Uart × t1_tpdu)
    (h : t1_read fixed_clk u tp = Outcome.done r) : r.2.1.rx.length ≤ u.rx.length := by
  unfold t1_read at h
  simp only at h
  have r1 := readable_length u
  split at h
  · simp only [Outcome.done.injEq] at h
    rw [← h]; exact r1
  obtain ⟨g1, hg1, h⟩ := Outcome.bind_eq_done _ _ _ h
  have l1 := uart_getc_length _ _ hg1
  have r2 := readable_length g1.2
  split at h
  · simp only [Outcome.done.injEq] at h
    rw [← h]; simp only; omega
  obtain ⟨g2, hg2, h⟩ := Outcome.bind_eq_done _ _ _ h
  have l2 := uart_getc_length _ _ hg2
  have r3 := readable_length g2.2
  split at h
  · simp only [Outcome.done.injEq] at h
    rw [← h]; simp only; omega
  obtain ⟨g3, hg3, h⟩ := Outcome.bind_eq_done _ _ _ h
  have l3 := uart_getc_length _ _ hg3
  split at h
  · have r4 := readable_length g3.2
    split at h
    · simp only [Outcome.done.injEq] at h
      rw [← h]; simp only; omega
    obtain ⟨g4, hg4, h⟩ := Outcome.bind_eq_done _ _ _ h
    have l4 := uart_getc_length _ _ hg4
    obtain ⟨w, hw, h⟩ := Outcome.bind_eq_done _ _ _ h
    have l5 := sc_write_length _ _ _ hw
    obtain ⟨br, _, h⟩ := Outcome.bind_eq_done _ _ _ h
    simp only [Outcome.done.injEq] at h
    rw [← h]
    simp only [uart_set_baudrate, uart_tx_wait_blocking]
    omega
  · obtain ⟨l, hl, h⟩ := Outcome.bind_eq_done _ _ _ h
    have l6 := t1_read_loop_length _ _ _ _ _ _ _ hl
    split at h
    · simp only [Outcome.done.injEq] at h
      rw [← h]; simp only; omega
    obtain ⟨g5, hg5, h⟩ := Outcome.bind_eq_done _ _ _ h
    have l7 := uart_getc_length _ _ hg5
    split at h
    · simp only [Outcome.done.injEq] at h
      rw [← h]; simp only; omega
    · simp only [Outcome.done.injEq] at h
      rw [← h]; simp only; omega

theorem handle_response_fuel_aux (fixed_clk : Nat) :
    ∀ (k : Nat) (fuel1 fuel2 : Nat) (u : Uart) (send recv : t1_tpdu) (sc : Int) (a : Nat),
      u.rx.length ≤ k → u.rx.length < fuel1 → u.rx.length < fuel2 →
      t1_handle_response_from_write_fuel fixed_clk fuel1 u send recv sc a =
        t1_handle_response_from_write_fuel fixed_clk fuel2 u send recv sc a := by
  intro k
  induction k with
  | zero =>
    intro fuel1 fuel2 u send recv sc a hk hf1 hf2
    obtain ⟨f1, rfl⟩ : ∃ f, fuel1 = f + 1 := ⟨fuel1 - 1, by omega⟩
    obtain ⟨f2, rfl⟩ : ∃ f, fuel2 = f + 1 := ⟨fuel2 - 1, by omega⟩
    simp only [t1_handle_response_from_write_fuel]
    split
    · rfl
    split
    · split
      · rfl
      · cases hw : t1_write u send with
        | done w =>
          have := t1_write_length _ _ _ hw
          omega
        | blocked => rfl
        | undefined => rfl
    · rfl
  | succ k ih =>
    intro fuel1 fuel2 u send recv sc a hk hf1 hf2
    obtain ⟨f1, rfl⟩ : ∃ f, fuel1 = f + 1 := ⟨fuel1 - 1, by omega⟩
    obtain ⟨f2, rfl⟩ : ∃ f, fuel2 = f + 1 := ⟨fuel2 - 1, by omega⟩
    simp only [t1_handle_response_from_write_fuel]
    split
    · rfl
    split
    · split
      · rfl
      · cases hw : t1_write u send with
        | done w =>
          have lw := t1_write_length _ _ _ hw
          simp only [Outcome.bind_done]
          cases hr : t1_read fixed_clk w.2 recv with
          | done r =>
            have lr := t1_read_length _ _ _ _ hr
            simp only [Outcome.bind_done]
            exact ih f1 f2 r.2.1 send r.2.2 (sc + w.1) a (by omega) (by omega) (by omega)
          | blocked => rfl
          | undefined => rfl
        | blocked => rfl
        | undefined => rfl
    · rfl

/-- More fuel than `rx.length` never changes the result: the resend bound of
`t1_handle_response_from_write` is not reached. -/
theorem handle_response_fuel (fixed_clk : Nat) (fuel : Nat) (u : Uart) (send recv : t1_tpdu)
    (sc : Int) (a : Nat) (hf : u.rx.length < fuel) :
    t1_handle_response_from_write_fuel fixed_clk fuel u send recv sc a =
      t1_handle_response_from_write fixed_clk u send recv sc a :=
  handle_response_fuel_aux fixed_clk u.rx.length fuel (u.rx.length + 1) u send recv sc a
    (Nat.le_refl _) hf (Nat.lt_succ_self _)

/-! ## C11: R-block classification -/

/-- C11: for every PCB, `t1_classify_r_block` returns 0 exactly when the PCB is
0x80 or 0x90, 1 exactly when it is one of 0x81, 0x91, 0x82, 0x92, and -1 for
every other value. -/
theorem C11_classify_r_block (tpdu : t1_tpdu) :
    (t1_classify_r_block tpdu = 0 ↔ (tpdu.pcb = 0x80 ∨ tpdu.pcb = 0x90)) ∧
    (t1_classify_r_block tpdu = 1 ↔
      (tpdu.pcb = 0x81 ∨ tpdu.pcb = 0x91 ∨ tpdu.pcb = 0x82 ∨ tpdu.pcb = 0x92)) ∧
    (t1_classify_r_block tpdu = -1 ↔
      ¬ (tpdu.pcb = 0x80 ∨ tpdu.pcb = 0x90 ∨ tpdu.pcb = 0x81 ∨ tpdu.pcb = 0x91 ∨
         tpdu.pcb = 0x82 ∨ tpdu.pcb = 0x92)) := by
  unfold t1_classify_r_block
  by_cases h1 : tpdu.pcb = 0x80 ∨ tpdu.pcb = 0x90
  · rw [if_pos h1]
    refine ⟨by simp [h1], ?_, ?_⟩
    · constructor
      · intro h; simp at h
      · intro h; rcases h1 with h1 | h1 <;> rw [h1] at h <;> simp at h
    · constructor
      · intro h; simp at h
      · intro h; exact absurd (by rcases h1 with h1 | h1 <;> simp [h1]) h
  · rw [if_neg h1]
    by_cases h2 : tpdu.pcb = 0x81 ∨ tpdu.pcb = 0x91 ∨ tpdu.pcb = 0x82 ∨ tpdu.pcb = 0x92
    · rw [if_pos h2]
      refine ⟨by simp [h1], by simp [h2], ?_⟩
      constructor
      · intro h; simp at h
      · intro h; exact absurd (by rcases h2 with h2 | h2 | h2 | h2 <;> simp [h2]) h
    · rw [if_neg h2]
      refine ⟨by simp [h1], by simp [h2], ?_⟩
      constructor
      · intro _ h
        rcases h with h | h | h | h | h | h
        · exact h1 (Or.inl h)
        · exact h1 (Or.inr h)
        · exact h2 (Or.inl h)
        · exact h2 (Or.inr (Or.inl h))
        · exact h2 (Or.inr (Or.inr (Or.inl h)))
        · exact h2 (Or.inr (Or.inr (Or.inr h)))
      · intro _; rfl

/-! ## C12 to C14: S-blocks -/

/-- What `t1_write` does for any block contents when the line delivers an echo
for every byte: the bytes of the `switch` and the running XOR, as bytes. -/
theorem t1_write_raw (u : Uart) (tp : t1_tpdu) (hecho : tp.len + 4 ≤ (rxBytes u.rx).length) :
    t1_write u tp = Outcome.done (1,
      ⟨dropBytes (tp.len + 4) u.rx,
       u.tx ++ (List.range' 0 (3 + tp.len)).map (fun p => t1_write_byte tp p % 256) ++
         [(List.range' 0 (3 + tp.len)).foldl (fun a p => a ^^^ t1_write_byte tp p) 0 % 256],
       u.baud⟩) := by
  have hrest : 0 < (rxBytes (dropBytes (3 + tp.len) u.rx)).length := by
    rw [rxBytes_dropBytes, List.length_drop]; omega
  obtain ⟨b, r1, h1, _, _⟩ := getc_rx_of_bytes _ hrest
  have hdrop : dropBytes (tp.len + 4) u.rx = r1 := by
    have e : tp.len + 4 = (3 + tp.len) + 1 := by omega
    rw [e, dropBytes_add]
    simp [dropBytes, h1]
  rw [t1_write, t1_write_loop_spec tp (3 + tp.len) 0 0 u (by omega) (by omega)]
  simp only []
  rw [uart_getc_putc_raw _ _ b r1 h1, hdrop]

/-- C12: on an S-block with PCB 0xC0 (resync request) `t1_handle_s_block`
transmits the four bytes 00 E0 00 E0 (the block 00 E0 00 and its LRC), sets the
sequence counter to 0 and the accepted size to 32 whatever they were, and
returns 1. -/
theorem C12_resync_request (u : Uart) (tpdu : t1_tpdu) (sequence_counter : Int)
    (accepted_size : Nat) (hpcb : tpdu.pcb = 0xC0) (hecho : 4 ≤ (rxBytes u.rx).length) :
    ∃ u1,
      t1_handle_s_block u tpdu sequence_counter accepted_size =
        Outcome.done (1, u1, { tpdu with nad := 0x00, pcb := 0xE0, len := 0x00 }, 0, 32) ∧
      u1.tx = u.tx ++ [0x00, 0xE0, 0x00, 0xE0] ∧ u1.baud = u.baud := by
  have hw : t1_write u { tpdu with nad := 0x00, pcb := 0xE0, len := 0x00 } =
      Outcome.done (1, ⟨dropBytes 4 u.rx, u.tx ++ [0x00, 0xE0, 0x00, 0xE0], u.baud⟩) := by
    rw [t1_write_raw u _ hecho]
    simp [List.range', t1_write_byte]
  refine ⟨⟨dropBytes 4 u.rx, u.tx ++ [0x00, 0xE0, 0x00, 0xE0], u.baud⟩, ?_, rfl, rfl⟩
  rw [t1_handle_s_block, if_pos hpcb]
  simp only [hw, Outcome.bind_done]

theorem C12_resync_request_witness :
    ∃ u1,
      t1_handle_s_block ⟨[.byte 0, .byte 0xE0, .byte 0, .byte 0xE0], [], 9600⟩
          { zero_tpdu with pcb := 0xC0 } 1 254 =
        Outcome.done (1, u1, { zero_tpdu with nad := 0x00, pcb := 0xE0, len := 0x00 }, 0, 32) ∧
      u1.tx = [0x00, 0xE0, 0x00, 0xE0] := by
  obtain ⟨u1, h1, h2, _⟩ := C12_resync_request
    ⟨[.byte 0, .byte 0xE0, .byte 0, .byte 0xE0], [], 9600⟩ { zero_tpdu with pcb := 0xC0 } 1 254
    rfl (by decide)
  exact ⟨u1, h1, h2⟩

/-- C13: on an S-block with PCB 0xC1 (IFSD request) `t1_handle_s_block` transmits
the frame with the request's NAD, PCB 0xE1, the request's LEN and INF and the
matching LRC, sets the accepted size to the first byte of the block's buffer
(INF[0] when LEN ≥ 1), and returns 2. -/
theorem C13_ifsd_request (u : Uart) (tpdu : t1_tpdu) (sequence_counter : Int)
    (accepted_size : Nat) (hpcb : tpdu.pcb = 0xC1) (hwf : tpdu.wf)
    (hecho : tpdu.len + 4 ≤ (rxBytes u.rx).length) :
    ∃ u1 accepted,
      t1_handle_s_block u tpdu sequence_counter accepted_size =
        Outcome.done (2, u1, { tpdu with pcb := 0xE1 }, sequence_counter + 1, accepted) ∧
      u1.tx = u.tx ++ t1_frame tpdu.nad 0xE1 (tpdu.apdu.take tpdu.len) ∧
      (tpdu.apdu.take tpdu.len).length = tpdu.len ∧
      accepted = tpdu.apdu.getD 0 0 ∧
      (1 ≤ tpdu.len → (tpdu.apdu.take tpdu.len).head? = some accepted) := by
  have hwf2 : ({ tpdu with pcb := 0xE1 } : t1_tpdu).wf :=
    ⟨hwf.1, (by decide : (0xE1 : Nat) < 256), hwf.2.2.1, hwf.2.2.2.1, hwf.2.2.2.2.1, hwf.2.2.2.2.2⟩
  have hw := t1_write_spec u { tpdu with pcb := 0xE1 } hwf2 hecho
  have hlen : tpdu.len ≤ tpdu.apdu.length := by
    obtain ⟨_, _, h3, h4, _⟩ := hwf; omega
  have h0 : tpdu.apdu.getD 0 0 < 256 := by
    obtain ⟨_, _, _, h4, h5, _⟩ := hwf
    cases hap : tpdu.apdu with
    | nil => rw [hap] at h4; simp at h4
    | cons a l => rw [hap] at h5; simpa using h5 a (by simp)
  have hne : ¬ tpdu.pcb = 0xC0 := by rw [hpcb]; decide
  refine ⟨⟨dropBytes (tpdu.len + 4) u.rx,
    u.tx ++ t1_frame tpdu.nad 0xE1 (tpdu.apdu.take tpdu.len), u.baud⟩, tpdu.apdu.getD 0 0,
    ?_, rfl, ?_, rfl, ?_⟩
  · rw [t1_handle_s_block, if_neg hne, if_pos hpcb]
    simp only [hw, Outcome.bind_done, Nat.mod_eq_of_lt h0]
  · simp [List.length_take, Nat.min_eq_left hlen]
  · intro h1
    obtain ⟨_, _, _, h4, _⟩ := hwf
    cases hap : tpdu.apdu with
    | nil => rw [hap] at h4; simp at h4
    | cons a l =>
      obtain ⟨k, hk⟩ : ∃ k, tpdu.len = k + 1 := ⟨tpdu.len - 1, by omega⟩
      simp [hk]

theorem C13_ifsd_request_witness :
    ∃ u1 accepted,
      t1_handle_s_block ⟨[.byte 0, .byte 0, .byte 0, .byte 0, .byte 0], [], 9600⟩
          { zero_tpdu with pcb := 0xC1, len := 1 } 1 32 =
        Outcome.done (2, u1, { zero_tpdu with pcb := 0xE1, len := 1 }, 1 + 1, accepted) ∧
      u1.tx = [] ++ t1_frame 0 0xE1 (zero_tpdu.apdu.take 1) ∧ accepted = 0 := by
  obtain ⟨u1, a, h1, h2, _, h4, _⟩ := C13_ifsd_request
    ⟨[.byte 0, .byte 0, .byte 0, .byte 0, .byte 0], [], 9600⟩
    { zero_tpdu with pcb := 0xC1, len := 1 } 1 32 rfl
    ⟨by decide, by decide, by decide, zero_tpdu_wf.2.2.2.1, zero_tpdu_wf.2.2.2.2.1, by decide⟩
    (by decide)
  exact ⟨u1, a, h1, h2, h4⟩

/-- C14 (as amended): on an S-block with PCB 0xC3 `t1_handle_s_block` takes the
default branch: it transmits nothing, reads nothing, leaves the block, the
sequence counter and the accepted size as they are, and returns 0. -/
theorem C14_wtx_request_ignored (u : Uart) (tpdu : t1_tpdu) (sequence_counter : Int)
    (accepted_size : Nat) (hpcb : tpdu.pcb = 0xC3) :
    t1_handle_s_block u tpdu sequence_counter accepted_size =
      Outcome.done (0, u, tpdu, sequence_counter, accepted_size) := by
  simp [t1_handle_s_block, hpcb]

theorem C14_wtx_request_ignored_witness :
    t1_handle_s_block ⟨[], [], 9600⟩ { zero_tpdu with pcb := 0xC3 } 1 32 =
      Outcome.done (0, ⟨[], [], 9600⟩, { zero_tpdu with pcb := 0xC3 }, 1, 32) :=
  C14_wtx_request_ignored ⟨[], [], 9600⟩ { zero_tpdu with pcb := 0xC3 } 1 32 rfl

set_option maxRecDepth 100000 in
/-- C14, counterexample: the reader sends the WTX request 00 C3 01 02 C0; with
echoes ready on the line `t1_handle_s_block` returns 0 and has transmitted
nothing, so no block with PCB 0xE3 is sent. -/
theorem C14_no_reply_to_wtx_request :
    t1_handle_s_block ⟨[.byte 0, .byte 0xE3, .byte 1, .byte 2, .byte 0xE0], [], 9600⟩
        { zero_tpdu with pcb := 0xC3, len := 1, apdu := 2 :: List.replicate 255 0 } 1 32 =
      Outcome.done (0, ⟨[.byte 0, .byte 0xE3, .byte 1, .byte 2, .byte 0xE0], [], 9600⟩,
        { zero_tpdu with pcb := 0xC3, len := 1, apdu := 2 :: List.replicate 255 0 }, 1, 32) := by
  decide

/-! ## C15: the waiting-time-extension alarm -/

theorem uart_getc_tx (u : Uart) (r : Nat × Uart) (h : uart_getc u = Outcome.done r) :
    r.2.tx = u.tx ∧ r.2.baud = u.baud := by
  unfold uart_getc at h
  cases hg : getc_rx u.rx with
  | none => rw [hg] at h; simp at h
  | some x =>
    obtain ⟨b, r1⟩ := x
    rw [hg] at h
    simp only [Outcome.done.injEq] at h
    rw [← h]
    exact ⟨rfl, rfl⟩

theorem readable_tx (u : Uart) :
    (uart_is_readable_within_us u).2.tx = u.tx ∧
      (uart_is_readable_within_us u).2.baud = u.baud := by
  unfold uart_is_readable_within_us
  split <;> simp_all

theorem t1_read_loop_tx :
    ∀ (fuel i : Nat) (pos : Int) (cs : Nat) (u : Uart) (tp : t1_tpdu)
      (r : Bool × Int × Nat × Uart × t1_tpdu),
      t1_read_loop fuel i pos cs u tp = Outcome.done r →
        r.2.2.2.1.tx = u.tx ∧ r.2.2.2.1.baud = u.baud := by
  intro fuel
  induction fuel with
  | zero =>
    intro i pos cs u tp r h
    simp only [t1_read_loop, Outcome.done.injEq] at h
    rw [← h]
    exact ⟨rfl, rfl⟩
  | succ fuel ih =>
    intro i pos cs u tp r h
    rw [t1_read_loop] at h
    split at h
    · obtain ⟨g, hg, h⟩ := Outcome.bind_eq_done _ _ _ h
      have h1 := uart_getc_tx _ _ hg
      have h2 := readable_tx g.2
      simp only at h
      split at h
      · simp only [Outcome.done.injEq] at h
        rw [← h]
        exact ⟨h2.1.trans h1.1, h2.2.trans h1.2⟩
      · have h3 := ih _ _ _ _ _ _ h
        exact ⟨h3.1.trans (h2.1.trans h1.1), h3.2.trans (h2.2.trans h1.2)⟩
    · simp only [Outcome.done.injEq] at h
      rw [← h]
      exact ⟨rfl, rfl⟩

/-- Unless it answers a PPS request (return value -3), `t1_read` transmits nothing
and leaves the baud rate alone. -/
theorem t1_read_tx (fixed_clk : Nat) (u : Uart) (tp : t1_tpdu) (r : Int × Uart × t1_tpdu)
    (h : t1_read fixed_clk u tp = Outcome.done r) (hr : r.1 ≠ -3) :
    r.2.1.tx = u.tx ∧ r.2.1.baud = u.baud := by
  unfold t1_read at h
  simp only at h
  have r1 := readable_tx u
  split at h
  · simp only [Outcome.done.injEq] at h
    rw [← h]; exact r1
  obtain ⟨g1, hg1, h⟩ := Outcome.bind_eq_done _ _ _ h
  have l1 := uart_getc_tx _ _ hg1
  have r2 := readable_tx g1.2
  have e2 : (uart_is_readable_within_us g1.2).2.tx = u.tx ∧
      (uart_is_readable_within_us g1.2).2.baud = u.baud :=
    ⟨r2.1.trans (l1.1.trans r1.1), r2.2.trans (l1.2.trans r1.2)⟩
  split at h
  · simp only [Outcome.done.injEq] at h
    rw [← h]; exact e2
  obtain ⟨g2, hg2, h⟩ := Outcome.bind_eq_done _ _ _ h
  have l2 := uart_getc_tx _ _ hg2
  have r3 := readable_tx g2.2
  have e3 : (uart_is_readable_within_us g2.2).2.tx = u.tx ∧
      (uart_is_readable_within_us g2.2).2.baud = u.baud :=
    ⟨r3.1.trans (l2.1.trans e2.1), r3.2.trans (l2.2.trans e2.2)⟩
  split at h
  · simp only [Outcome.done.injEq] at h
    rw [← h]; exact e3
  obtain ⟨g3, hg3, h⟩ := Outcome.bind_eq_done _ _ _ h
  have l3 := uart_getc_tx _ _ hg3
  have e4 : g3.2.tx = u.tx ∧ g3.2.baud = u.baud := ⟨l3.1.trans e3.1, l3.2.trans e3.2⟩
  split at h
  · have r4 := readable_tx g3.2
    split at h
    · simp only [Outcome.done.injEq] at h
      rw [← h]; exact ⟨r4.1.trans e4.1, r4.2.trans e4.2⟩
    obtain ⟨g4, hg4, h⟩ := Outcome.bind_eq_done _ _ _ h
    obtain ⟨w, hw, h⟩ := Outcome.bind_eq_done _ _ _ h
    obtain ⟨br, _, h⟩ := Outcome.bind_eq_done _ _ _ h
    simp only [Outcome.done.injEq] at h
    rw [← h] at hr
    exact absurd rfl hr
  · obtain ⟨l, hl, h⟩ := Outcome.bind_eq_done _ _ _ h
    have l6 := t1_read_loop_tx _ _ _ _ _ _ _ hl
    have e5 : l.2.2.2.1.tx = u.tx ∧ l.2.2.2.1.baud = u.baud :=
      ⟨l6.1.trans e4.1, l6.2.trans e4.2⟩
    split at h
    · simp only [Outcome.done.injEq] at h
      rw [← h]; exact e5
    obtain ⟨g5, hg5, h⟩ := Outcome.bind_eq_done _ _ _ h
    have l7 := uart_getc_tx _ _ hg5
    split at h
    · simp only [Outcome.done.injEq] at h
      rw [← h]; exact ⟨l7.1.trans e5.1, l7.2.trans e5.2⟩
    · simp only [Outcome.done.injEq] at h
      rw [← h]; exact ⟨l7.1.trans e5.1, l7.2.trans e5.2⟩

/-- The WTX request written by the alarm callback. -/
theorem wtx_write (u : Uart) (s_block : t1_tpdu) (hap : s_block.apdu.length = 256)
    (hecho : 5 ≤ (rxBytes u.rx).length) :
    t1_write u
        { s_block with
          nad := 0x00, pcb := 0xC3, len := 0x01,
          apdu := s_block.apdu.set 0 WAITING_TIME_EXTENSION_MULTIPIER } =
      Outcome.done (1,
        ⟨dropBytes 5 u.rx, u.tx ++ [0x00, 0xC3, 0x01, 0x02, 0xC0], u.baud⟩) := by
  rw [t1_write_raw u _ hecho]
  cases hl : s_block.apdu with
  | nil => rw [hl] at hap; simp at hap
  | cons a l => simp [List.range', t1_write_byte, WAITING_TIME_EXTENSION_MULTIPIER]

/-- C15 (as amended): when the line echoes the five bytes written, the alarm
callback transmits 00 C3 01 02 C0 and then reads the reader's answer; whenever
that read returns (timeout, checksum error, a block with PCB 0xE3 or any other
PCB, or a PPS request), the callback returns the interval it was armed with and
has added 1 to the counter.  Unless the answer was taken as a PPS request, the
five bytes are all it has transmitted.  The cases: no answer within the window,
and a complete frame with any PCB and any check byte. -/
theorem C15_wtx_alarm_amended (fixed_clk : Nat) (u : Uart) (seq bwt : Int)
    (s_block response : t1_tpdu) (hap : s_block.apdu.length = 256)
    (hecho : 5 ≤ (rxBytes u.rx).length) :
    (∀ posr u2 r2,
      t1_read fixed_clk ⟨dropBytes 5 u.rx, u.tx ++ [0x00, 0xC3, 0x01, 0x02, 0xC0], u.baud⟩
          response = Outcome.done (posr, u2, r2) →
        t1_timer_block_waiting_extension fixed_clk u seq bwt s_block response =
          Outcome.done (bwt, u2, seq + 1, r2) ∧
        (posr ≠ -3 → u2.tx = u.tx ++ [0x00, 0xC3, 0x01, 0x02, 0xC0])) ∧
    (∀ rest, (dropBytes 5 u.rx = [] ∨ dropBytes 5 u.rx = RxEvent.idle :: rest) →
      ∃ u2, t1_timer_block_waiting_extension fixed_clk u seq bwt s_block response =
          Outcome.done (bwt, u2, seq + 1, response) ∧
        u2.tx = u.tx ++ [0x00, 0xC3, 0x01, 0x02, 0xC0]) ∧
    (∀ nad pcb lrc inf rest, nad < 256 → pcb < 256 → inf.length < 256 → (∀ y ∈ inf, y < 256) →
      lrc < 256 → nad ≠ 0xFF → response.apdu.length = 256 →
      dropBytes 5 u.rx = (nad :: pcb :: inf.length :: (inf ++ [lrc])).map RxEvent.byte ++ rest →
      ∃ r2, t1_timer_block_waiting_extension fixed_clk u seq bwt s_block response =
          Outcome.done (bwt, ⟨rest, u.tx ++ [0x00, 0xC3, 0x01, 0x02, 0xC0], u.baud⟩, seq + 1, r2) ∧
        r2.pcb = pcb) := by
  have hw := wtx_write u s_block hap hecho
  refine ⟨?_, ?_, ?_⟩
  · intro posr u2 r2 hr
    refine ⟨?_, fun hp => ?_⟩
    · rw [t1_timer_block_waiting_extension]
      simp only [hw, Outcome.bind_done, hr]
    · exact (t1_read_tx fixed_clk _ response _ hr hp).1
  · intro rest hrx
    rw [t1_timer_block_waiting_extension]
    simp only [hw, Outcome.bind_done]
    rcases hrx with h | h
    · rw [h]
      exact ⟨⟨[], u.tx ++ [0x00, 0xC3, 0x01, 0x02, 0xC0], u.baud⟩,
        by simp [t1_read, uart_is_readable_within_us, Outcome.bind], rfl⟩
    · rw [h]
      exact ⟨⟨rest, u.tx ++ [0x00, 0xC3, 0x01, 0x02, 0xC0], u.baud⟩,
        by simp [t1_read, uart_is_readable_within_us, Outcome.bind], rfl⟩
  · intro nad pcb lrc inf rest hnad hpcb hlen hinf hlrc hpps hrap hrx
    rw [t1_timer_block_waiting_extension]
    simp only [hw, Outcome.bind_done, hrx]
    rw [t1_read_frame fixed_clk nad pcb lrc inf rest _ u.baud response hnad hpcb hlen hinf hlrc
      hpps hrap]
    exact ⟨_, rfl, rfl⟩

theorem C15_wtx_alarm_amended_witness :
    ∃ r2, t1_timer_block_waiting_extension 4764000
        ⟨[.byte 0, .byte 0xC3, .byte 1, .byte 2, .byte 0xC0,
          .byte 0, .byte 0xE3, .byte 1, .byte 2, .byte 0xE0], [], 9600⟩
        1 720000 zero_tpdu zero_tpdu =
      Outcome.done (720000, ⟨[], [] ++ [0x00, 0xC3, 0x01, 0x02, 0xC0], 9600⟩, 1 + 1, r2) ∧
      r2.pcb = 0xE3 :=
  (C15_wtx_alarm_amended 4764000
    ⟨[.byte 0, .byte 0xC3, .byte 1, .byte 2, .byte 0xC0,
      .byte 0, .byte 0xE3, .byte 1, .byte 2, .byte 0xE0], [], 9600⟩
    1 720000 zero_tpdu zero_tpdu zero_tpdu_wf.2.2.2.1 (by decide)).2.2
    0 0xE3 0xE0 [2] [] (by decide) (by decide) (by decide) (by decide) (by decide) (by decide)
    zero_tpdu_wf.2.2.2.1 rfl

set_option maxRecDepth 100000 in
/-- C15, counterexample: the reader answers the WTX request with FF 10 96 79.
`t1_read` takes the answer as a PPS request and echoes it, so the callback has
transmitted nine bytes, 00 C3 01 02 C0 FF 10 96 79, and changed the baud rate. -/
theorem C15_pps_answer_is_echoed :
    t1_timer_block_waiting_extension 3571200
        ⟨[.byte 0, .byte 0xC3, .byte 1, .byte 2, .byte 0xC0,
          .byte 0xFF, .byte 0x10, .byte 0x96, .byte 0x79, .idle,
          .byte 0xFF, .byte 0x10, .byte 0x96, .byte 0x79], [], 9600⟩
        1 720000 zero_tpdu zero_tpdu =
      Outcome.done (720000,
        ⟨[], [0x00, 0xC3, 0x01, 0x02, 0xC0, 0xFF, 0x10, 0x96, 0x79], 223200⟩, 2,
        { zero_tpdu with nad := 0xFF, pcb := 0x10, len := 0x96 }) := by
  decide

/-! ## The ATR parser: termination and the inverse convention -/

theorem atr_byte_done (payload : List Nat) (i b : Nat) (h : atr_byte payload i = Outcome.done b) :
    payload[i]? = some b ∧ i < payload.length := by
  unfold atr_byte at h
  cases hp : payload[i]? with
  | none => rw [hp] at h; simp at h
  | some x =>
    rw [hp] at h
    simp only [Outcome.done.injEq] at h
    exact ⟨by rw [h], (List.getElem?_eq_some_iff.mp hp).1⟩

theorem atr_byte_of (payload : List Nat) (i b : Nat) (h : payload[i]? = some b) :
    atr_byte payload i = Outcome.done b := by
  simp [atr_byte, h]

theorem atr_byte_ne_blocked (payload : List Nat) (i : Nat) :
    atr_byte payload i ≠ Outcome.blocked := by
  unfold atr_byte
  split <;> simp

theorem Outcome.bind_ne_blocked {α β : Type} (x : Outcome α) (f : α → Outcome β)
    (hx : x ≠ Outcome.blocked) (hf : ∀ a, x = Outcome.done a → f a ≠ Outcome.blocked) :
    x.bind f ≠ Outcome.blocked := by
  cases x with
  | done a => exact hf a rfl
  | blocked => exact absurd rfl hx
  | undefined => simp [Outcome.bind]

theorem parse_ATR_loop_exit (payload : List Nat) (fuel TD_next index : Nat)
    (atr : answer_to_reset) (h : TD_next < 16) :
    parse_ATR_loop payload fuel TD_next index atr = Outcome.done atr := by
  cases fuel <;> simp [parse_ATR_loop, Nat.not_le.mpr h]

/-- The loop over the later TD bytes never runs out of fuel. -/
theorem parse_ATR_loop_terminates (payload : List Nat) :
    ∀ (fuel TD_next index : Nat) (atr : answer_to_reset),
      (TD_next ≥ 16 → index ≤ payload.length) → payload.length < fuel + index →
      parse_ATR_loop payload fuel TD_next index atr ≠ Outcome.blocked := by
  intro fuel
  induction fuel with
  | zero =>
    intro td index atr h1 h2
    have : ¬ td ≥ 16 := fun h => by have := h1 h; omega
    simp [parse_ATR_loop, this]
  | succ fuel ih =>
    intro td index atr h1 h2
    rw [parse_ATR_loop]
    split
    · rename_i htd
      have hidx := h1 htd
      apply Outcome.bind_ne_blocked
      · split
        · exact Outcome.bind_ne_blocked _ _ (atr_byte_ne_blocked _ _) (fun _ _ => by simp)
        · simp
      intro a ha
      have ha2 : index ≤ a.2 := by
        split at ha
        · obtain ⟨x, _, hx⟩ := Outcome.bind_eq_done _ _ _ ha
          simp only [Outcome.done.injEq] at hx
          rw [← hx]; simp
        · simp only [Outcome.done.injEq] at ha
          rw [← ha]
      apply Outcome.bind_ne_blocked
      · split
        · exact Outcome.bind_ne_blocked _ _ (atr_byte_ne_blocked _ _) (fun _ _ => by simp)
        · simp
      intro b hb
      have hb2 : a.2 ≤ b.2.2 := by
        split at hb
        · obtain ⟨x, _, hx⟩ := Outcome.bind_eq_done _ _ _ hb
          simp only [Outcome.done.injEq] at hx
          rw [← hx]; simp
        · simp only [Outcome.done.injEq] at hb
          rw [← hb]
      simp only
      have h3 : b.2.2 ≤ (if (td >>> 6) % 2 = 1 then b.2.2 + 1 else b.2.2) := by
        split <;> omega
      split
      · apply Outcome.bind_ne_blocked _ _ (atr_byte_ne_blocked _ _)
        intro tdn htdn
        have hr := (atr_byte_done _ _ _ htdn).2
        apply ih
        · intro _; omega
        · omega
      · rw [parse_ATR_loop_exit _ _ _ _ _ (by decide)]
        simp
    · simp

theorem parse_ATR_T0_ne_blocked (atr : answer_to_reset) :
    parse_ATR_T0 atr ≠ Outcome.blocked := by
  unfold parse_ATR_T0
  apply Outcome.bind_ne_blocked _ _ (atr_byte_ne_blocked _ _)
  intro t0 _
  apply Outcome.bind_ne_blocked
  · split
    · exact Outcome.bind_ne_blocked _ _ (atr_byte_ne_blocked _ _) (fun _ _ => by simp)
    · simp
  intro a _
  simp only
  split
  · exact Outcome.bind_ne_blocked _ _ (atr_byte_ne_blocked _ _) (fun _ _ => by simp)
  · simp

theorem parse_ATR_TD1_done (payload : List Nat) (TD1 index : Nat) (t : Nat × Nat)
    (h : parse_ATR_TD1 payload TD1 index = Outcome.done t) :
    (t.1 ≥ 16 → t.2 ≤ payload.length) ∧ index ≤ t.2 := by
  unfold parse_ATR_TD1 at h
  simp only at h
  split at h
  · obtain ⟨x, hx, h⟩ := Outcome.bind_eq_done _ _ _ h
    have := (atr_byte_done _ _ _ hx).2
    simp only [Outcome.done.injEq] at h
    rw [← h]
    refine ⟨fun _ => by simp only; omega, ?_⟩
    simp only
    split <;> split <;> split <;> omega
  · simp only [Outcome.done.injEq] at h
    rw [← h]
    refine ⟨fun h16 => by simp at h16, ?_⟩
    simp only
    split <;> split <;> split <;> omega

theorem parse_ATR_TD1_ne_blocked (payload : List Nat) (TD1 index : Nat) :
    parse_ATR_TD1 payload TD1 index ≠ Outcome.blocked := by
  unfold parse_ATR_TD1
  simp only
  split
  · exact Outcome.bind_ne_blocked _ _ (atr_byte_ne_blocked _ _) (fun _ _ => by simp)
  · simp

theorem parse_ATR_T0_index (atr : answer_to_reset) (s : answer_to_reset × Nat × Nat)
    (h : parse_ATR_T0 atr = Outcome.done s) : 2 ≤ s.2.2 := by
  unfold parse_ATR_T0 at h
  obtain ⟨t0, _, h⟩ := Outcome.bind_eq_done _ _ _ h
  obtain ⟨a, ha, h⟩ := Outcome.bind_eq_done _ _ _ h
  have ha2 : 2 ≤ a.2 := by
    split at ha
    · obtain ⟨x, _, hx⟩ := Outcome.bind_eq_done _ _ _ ha
      simp only [Outcome.done.injEq] at hx
      rw [← hx]; simp
    · simp only [Outcome.done.injEq] at ha
      rw [← ha]
  simp only at h
  split at h
  · obtain ⟨x, _, h⟩ := Outcome.bind_eq_done _ _ _ h
    simp only [Outcome.done.injEq] at h
    rw [← h]
    simp only
    split <;> split <;> omega
  · simp only [Outcome.done.injEq] at h
    rw [← h]
    simp only
    split <;> split <;> omega

/-- The part of `parse_ATR` that follows a TS of 0x3B never runs out of fuel. -/
theorem parse_ATR_fields_ne_blocked (atr : answer_to_reset) :
    parse_ATR_fields atr ≠ Outcome.blocked := by
  unfold parse_ATR_fields
  simp only
  apply Outcome.bind_ne_blocked _ _ (parse_ATR_T0_ne_blocked _)
  intro s hs
  apply Outcome.bind_ne_blocked _ _ (parse_ATR_TD1_ne_blocked _ _ _)
  intro t ht
  have h1 := parse_ATR_TD1_done _ _ _ _ ht
  have h2 := parse_ATR_T0_index _ _ hs
  exact parse_ATR_loop_terminates _ _ _ _ _ h1.1 (by omega)

theorem invert_loop_spec (payload : List Nat) (len : Nat) (hlen : len ≤ payload.length) :
    ∀ (fuel i : Nat) (inv : List Nat), i + fuel = len →
      invert_loop payload len fuel i inv =
        Outcome.done (inv ++ ((payload.take len).drop i).map (fun b => 255 - b % 256)) := by
  intro fuel
  induction fuel with
  | zero =>
    intro i inv h
    have : (payload.take len).drop i = [] := by
      apply List.drop_eq_nil_of_le
      simp only [List.length_take]
      omega
    simp [invert_loop, this]
  | succ fuel ih =>
    intro i inv h
    have hi : i < len := by omega
    have hil : i < (payload.take len).length := by
      simp only [List.length_take]
      omega
    have hb : payload[i]? = some ((payload.take len)[i]) := by
      rw [List.getElem_take]
      exact List.getElem?_eq_getElem (by omega)
    rw [invert_loop, if_pos hi, atr_byte_of _ _ _ hb, Outcome.bind_done, ih (i + 1) _ (by omega),
      List.drop_eq_getElem_cons hil]
    simp

set_option maxRecDepth 100000 in
theorem complement_byte (b : Nat) (hb : b < 256) : 255 - b % 256 = b ^^^ 0xFF := by
  revert b
  decide

/-- For an ATR that lies inside its buffer the array `inv_atr` is the rewritten
ATR: 0x3B followed by the complements of the later bytes. -/
theorem atr_inverse_spec (atr : answer_to_reset) (hlen : 1 ≤ atr.len)
    (hbuf : atr.len ≤ atr.payload.length) (hbytes : ∀ b ∈ atr.payload, b < 256) :
    atr_inverse atr = Outcome.done (atr_complement (atr.payload.take atr.len)) := by
  rw [atr_inverse, if_neg (by omega), invert_loop_spec _ _ hbuf _ _ _ (by omega)]
  simp only [atr_complement, List.singleton_append, Outcome.done.injEq, List.cons.injEq, true_and]
  apply List.map_congr_left
  intro b hb
  exact complement_byte b (hbytes b (List.mem_of_mem_take (List.mem_of_mem_drop hb)))

theorem invert_loop_head (payload : List Nat) (len : Nat) :
    ∀ (fuel i : Nat) (inv r : List Nat), invert_loop payload len fuel i inv = Outcome.done r →
      ∃ l, r = inv ++ l := by
  intro fuel
  induction fuel with
  | zero =>
    intro i inv r h
    simp only [invert_loop, Outcome.done.injEq] at h
    exact ⟨[], by simp [h]⟩
  | succ fuel ih =>
    intro i inv r h
    rw [invert_loop] at h
    split at h
    · obtain ⟨b, _, h⟩ := Outcome.bind_eq_done _ _ _ h
      obtain ⟨l, hl⟩ := ih _ _ _ h
      exact ⟨[255 - b % 256] ++ l, by rw [hl]; simp⟩
    · simp only [Outcome.done.injEq] at h
      exact ⟨[], by simp [h]⟩

theorem atr_inverse_head (atr : answer_to_reset) (p : List Nat)
    (h : atr_inverse atr = Outcome.done p) : p[0]? = some 0x3B := by
  unfold atr_inverse at h
  split at h
  · simp at h
  · obtain ⟨l, hl⟩ := invert_loop_head _ _ _ _ _ _ h
    rw [hl]
    simp

/-- With TS = 0x3B every positive recursion depth gives the field parser. -/
theorem parse_ATR_fuel_3B (fuel : Nat) (atr : answer_to_reset)
    (hts : atr.payload[0]? = some 0x3B) :
    parse_ATR_fuel (fuel + 1) atr = parse_ATR_fields atr := by
  simp [parse_ATR_fuel, atr_byte_of _ _ _ hts]

/-- `parse_ATR` always terminates: its recursion depth and the fuel of its loop are
never used up. -/
theorem parse_ATR_terminates (atr : answer_to_reset) : parse_ATR atr ≠ Outcome.blocked := by
  rw [parse_ATR, parse_ATR_fuel]
  apply Outcome.bind_ne_blocked _ _ (atr_byte_ne_blocked _ _)
  intro ts _
  split
  · apply Outcome.bind_ne_blocked
    · unfold atr_inverse
      split
      · simp
      · intro hb
        have : ∀ (fuel i : Nat) (inv : List Nat),
            invert_loop atr.payload atr.len fuel i inv ≠ Outcome.blocked := by
          intro fuel
          induction fuel with
          | zero => intro i inv; simp [invert_loop]
          | succ fuel ih =>
            intro i inv
            rw [invert_loop]
            split
            · exact Outcome.bind_ne_blocked _ _ (atr_byte_ne_blocked _ _) (fun _ _ => ih _ _)
            · simp
        exact this _ _ _ hb
    · intro inv hinv
      rw [parse_ATR_fuel_3B 0 _ (atr_inverse_head atr inv hinv)]
      exact parse_ATR_fields_ne_blocked _
  · split
    · simp
    · exact parse_ATR_fields_ne_blocked _

/-- The loop over the later TD bytes changes neither D, F, the protocol nor the
payload. -/
theorem parse_ATR_loop_keeps (payload : List Nat) :
    ∀ (fuel TD_next index : Nat) (atr r : answer_to_reset),
      parse_ATR_loop payload fuel TD_next index atr = Outcome.done r →
      r.D = atr.D ∧ r.F = atr.F ∧ r.protocol = atr.protocol ∧ r.payload = atr.payload ∧
        r.len = atr.len ∧ r.payload_local = atr.payload_local := by
  intro fuel
  induction fuel with
  | zero =>
    intro td index atr r h
    simp only [parse_ATR_loop] at h
    split at h
    · simp at h
    · simp only [Outcome.done.injEq] at h
      rw [← h]
      exact ⟨rfl, rfl, rfl, rfl, rfl, rfl⟩
  | succ fuel ih =>
    intro td index atr r h
    rw [parse_ATR_loop] at h
    split at h
    · obtain ⟨a, _, h⟩ := Outcome.bind_eq_done _ _ _ h
      obtain ⟨b, _, h⟩ := Outcome.bind_eq_done _ _ _ h
      simp only at h
      split at h
      · obtain ⟨tdn, _, h⟩ := Outcome.bind_eq_done _ _ _ h
        have := ih _ _ _ _ h
        split at this <;> exact this
      · have := ih _ _ _ _ h
        split at this <;> exact this
    · simp only [Outcome.done.injEq] at h
      rw [← h]
      exact ⟨rfl, rfl, rfl, rfl, rfl, rfl⟩

theorem shift_bit (x k : Nat) : (x >>> k) % 2 = 1 ↔ bit x k = true := by
  simp [bit, Nat.testBit, Nat.one_and_eq_mod_two]

theorem shift_bit_false (x k : Nat) : ¬ (x >>> k) % 2 = 1 ↔ bit x k = false := by
  rw [shift_bit]
  simp

/-- What the walk over T0, TA1 and TD1 leaves in the record. -/
theorem parse_ATR_T0_spec (atr : answer_to_reset) (s : answer_to_reset × Nat × Nat)
    (h : parse_ATR_T0 atr = Outcome.done s) :
    ∃ t0 a, atr.payload[1]? = some t0 ∧
      (if bit t0 4 = true then
          ∃ ta1, atr.payload[2]? = some ta1 ∧
            a = { atr with D := (convert_d ta1 : Nat), F := (convert_f ta1 : Nat) }
        else a = atr) ∧
      (if bit t0 7 = true then
          ∃ td1, atr.payload[TD1_index t0]? = some td1 ∧
            s.1 = (if td1 % 16 = 1 then { a with protocol := 1 }
                   else if td1 % 16 = 0 then { a with protocol := 0 }
                   else { a with D := 1, F := 372 })
        else s.1 = a) := by
  unfold parse_ATR_T0 at h
  obtain ⟨t0, ht0, h⟩ := Outcome.bind_eq_done _ _ _ h
  obtain ⟨a, ha, h⟩ := Outcome.bind_eq_done _ _ _ h
  refine ⟨t0, a.1, (atr_byte_done _ _ _ ht0).1, ?_, ?_⟩
  · split at ha
    · rename_i h4
      obtain ⟨ta1, hta1, ha⟩ := Outcome.bind_eq_done _ _ _ ha
      simp only [Outcome.done.injEq] at ha
      rw [if_pos ((shift_bit _ _).mp h4)]
      exact ⟨ta1, (atr_byte_done _ _ _ hta1).1, by rw [← ha]⟩
    · rename_i h4
      simp only [Outcome.done.injEq] at ha
      rw [if_neg (by rw [(shift_bit_false _ _).mp h4]; simp), ← ha]
  · have hidx : a.2 = 2 + (bit t0 4).toNat := by
      split at ha
      · rename_i h4
        obtain ⟨ta1, hta1, ha⟩ := Outcome.bind_eq_done _ _ _ ha
        simp only [Outcome.done.injEq] at ha
        rw [← ha, (shift_bit _ _).mp h4]
        rfl
      · rename_i h4
        simp only [Outcome.done.injEq] at ha
        rw [← ha, (shift_bit_false _ _).mp h4]
        rfl
    simp only [shift_bit] at h
    split at h
    · rename_i h7
      obtain ⟨td1, htd1, h⟩ := Outcome.bind_eq_done _ _ _ h
      simp only [Outcome.done.injEq] at h
      rw [if_pos h7]
      refine ⟨td1, ?_, by rw [← h]⟩
      have := (atr_byte_done _ _ _ htd1).1
      rw [← this]
      congr 1
      rw [TD1_index, hidx]
      cases bit t0 5 <;> cases bit t0 6 <;> simp
    · rename_i h7
      simp only [Outcome.done.injEq] at h
      rw [if_neg h7, ← h]

theorem Outcome.bind_assoc {α β γ : Type} (x : Outcome α) (f : α → Outcome β)
    (g : β → Outcome γ) : (x.bind f).bind g = x.bind fun a => (f a).bind g := by
  cases x <;> rfl

/-- The walk over T0, TA1 and TD1 does not look at where `payload` points. -/
theorem parse_ATR_T0_local (atr : answer_to_reset) (l : Bool) :
    parse_ATR_T0 { atr with payload_local := l } =
      (parse_ATR_T0 atr).bind fun s => Outcome.done ({ s.1 with payload_local := l }, s.2) := by
  unfold parse_ATR_T0
  simp only [Outcome.bind_assoc]
  congr 1
  funext t0
  have key : ∀ (a : answer_to_reset) (i : Nat),
      (if (t0 >>> 7) % 2 = 1 then
          (atr_byte atr.payload i).bind fun TD1 =>
            Outcome.done
              ((if TD1 % 16 = 1 then { { a with payload_local := l } with protocol := 1 }
                else if TD1 % 16 = 0 then { { a with payload_local := l } with protocol := 0 }
                else { { a with payload_local := l } with D := 1, F := 372 }), TD1, i + 1)
        else Outcome.done ({ a with payload_local := l }, 0, i)) =
      (if (t0 >>> 7) % 2 = 1 then
          (atr_byte atr.payload i).bind fun TD1 =>
            Outcome.done
              ((if TD1 % 16 = 1 then { a with protocol := 1 }
                else if TD1 % 16 = 0 then { a with protocol := 0 }
                else { a with D := 1, F := 372 }), TD1, i + 1)
        else Outcome.done (a, 0, i)).bind
        fun s => Outcome.done ({ s.1 with payload_local := l }, s.2) := by
    intro a i
    split
    · rw [Outcome.bind_assoc]
      congr 1
      funext td1
      rw [Outcome.bind_done]
      split
      · rfl
      · split <;> rfl
    · rfl
  split
  · simp only [Outcome.bind_assoc, Outcome.bind_done]
    congr 1
    funext ta1
    exact key { atr with D := (convert_d ta1 : Nat), F := (convert_f ta1 : Nat) } _
  · simp only [Outcome.bind_done]
    exact key atr _

/-- The loop over the later TD bytes does not look at where `payload` points. -/
theorem parse_ATR_loop_local (payload : List Nat) (l : Bool) :
    ∀ (fuel TD_next index : Nat) (atr : answer_to_reset),
      parse_ATR_loop payload fuel TD_next index { atr with payload_local := l } =
        (parse_ATR_loop payload fuel TD_next index atr).bind fun r =>
          Outcome.done { r with payload_local := l } := by
  intro fuel
  induction fuel with
  | zero =>
    intro td index atr
    simp only [parse_ATR_loop]
    split <;> rfl
  | succ fuel ih =>
    intro td index atr
    rw [parse_ATR_loop, parse_ATR_loop]
    split
    · simp only [Outcome.bind_assoc]
      congr 1
      funext a
      congr 1
      funext b
      split
      · simp only [Outcome.bind_assoc]
        congr 1
        funext tdn
        by_cases h : tdn % 16 ≤ 1
        · simp only [h, if_true]
          exact ih _ _ { atr with IFSC := a.1, BWI := b.1, CWI := b.2.1 }
        · simp only [h, if_false]
          exact ih _ _ atr
      · by_cases h : td % 16 ≤ 1
        · simp only [h, if_true]
          exact ih _ _ { atr with IFSC := a.1, BWI := b.1, CWI := b.2.1 }
        · simp only [h, if_false]
          exact ih _ _ atr
    · rfl

/-- The field parser does not look at where `payload` points: it only hands the
pointer on. -/
theorem parse_ATR_fields_local (atr : answer_to_reset) (l : Bool) :
    parse_ATR_fields { atr with payload_local := l } =
      (parse_ATR_fields atr).bind fun r => Outcome.done { r with payload_local := l } := by
  unfold parse_ATR_fields
  have h0 := parse_ATR_T0_local
    { atr with D := 1, F := 372, IFSC := 32, BWI := 4, CWI := 13, protocol := 2 } l
  refine (congrArg (fun x => Outcome.bind x _) h0).trans ?_
  simp only [Outcome.bind_assoc, Outcome.bind_done]
  congr 1
  funext s
  congr 1
  funext t
  exact parse_ATR_loop_local _ _ _ _ _ _

/-! ## C16: the inverse convention -/

/-- For TS = 0x3F `parse_ATR` parses the rewritten ATR, held in the local array
`inv_atr`, and leaves `payload` pointing to that array. -/
theorem parse_ATR_inverse (atr : answer_to_reset) (hts : atr.payload[0]? = some 0x3F)
    (hlen : 1 ≤ atr.len) (hbuf : atr.len ≤ atr.payload.length)
    (hbytes : ∀ b ∈ atr.payload, b < 256) :
    parse_ATR atr =
      parse_ATR { atr with payload := atr_complement (atr.payload.take atr.len),
                           payload_local := true } := by
  have h3b : (atr_complement (atr.payload.take atr.len))[0]? = some 0x3B := by
    simp [atr_complement]
  rw [parse_ATR, parse_ATR_fuel, atr_byte_of _ _ _ hts, Outcome.bind_done, if_pos rfl,
    atr_inverse_spec atr hlen hbuf hbytes, Outcome.bind_done, parse_ATR_fuel_3B 0 _ h3b,
    parse_ATR, parse_ATR_fuel_3B 1 _ h3b]

/-- For every ATR with TS = 0x3F that lies inside its buffer, `parse_ATR` yields
the record that parsing the rewritten ATR yields, except that `payload` points
to the local array `inv_atr`. -/
theorem parse_ATR_inverse_fields (atr : answer_to_reset) (hts : atr.payload[0]? = some 0x3F)
    (hlen : 1 ≤ atr.len) (hbuf : atr.len ≤ atr.payload.length)
    (hbytes : ∀ b ∈ atr.payload, b < 256) :
    parse_ATR atr =
      (parse_ATR { atr with payload := atr_complement (atr.payload.take atr.len) }).bind
        fun r => Outcome.done { r with payload_local := true } := by
  have h3b : (atr_complement (atr.payload.take atr.len))[0]? = some 0x3B := by
    simp [atr_complement]
  rw [parse_ATR_inverse atr hts hlen hbuf hbytes, parse_ATR, parse_ATR_fuel_3B 1 _ h3b,
    parse_ATR, parse_ATR_fuel_3B 1 _ h3b]
  exact parse_ATR_fields_local { atr with payload := atr_complement (atr.payload.take atr.len) } true

/-- A parse that starts from TS = 0x3B leaves the pointer `payload` as it was. -/
theorem parse_ATR_3B_pointer (atr r : answer_to_reset) (hts : atr.payload[0]? = some 0x3B)
    (h : parse_ATR atr = Outcome.done r) :
    r.payload = atr.payload ∧ r.payload_local = atr.payload_local ∧ r.len = atr.len := by
  rw [parse_ATR, parse_ATR_fuel_3B 1 _ hts] at h
  unfold parse_ATR_fields at h
  simp only at h
  obtain ⟨s, hs, h⟩ := Outcome.bind_eq_done _ _ _ h
  obtain ⟨t, _, h⟩ := Outcome.bind_eq_done _ _ _ h
  obtain ⟨_, _, _, h4, h5, h6⟩ := parse_ATR_loop_keeps _ _ _ _ _ _ h
  obtain ⟨t0, a, _, ha, hs1⟩ := parse_ATR_T0_spec _ _ hs
  have ha2 : a.payload = atr.payload ∧ a.payload_local = atr.payload_local ∧ a.len = atr.len := by
    split at ha
    · obtain ⟨ta1, _, ha⟩ := ha
      rw [ha]
      exact ⟨rfl, rfl, rfl⟩
    · rw [ha]
      exact ⟨rfl, rfl, rfl⟩
  have hs2 : s.1.payload = a.payload ∧ s.1.payload_local = a.payload_local ∧ s.1.len = a.len := by
    split at hs1
    · obtain ⟨td1, _, hs1⟩ := hs1
      rw [hs1]
      split
      · exact ⟨rfl, rfl, rfl⟩
      · split <;> exact ⟨rfl, rfl, rfl⟩
    · rw [hs1]
      exact ⟨rfl, rfl, rfl⟩
  rw [h4, h5, h6, hs2.1, hs2.2.1, hs2.2.2]
  exact ha2

/-- C16, the code at the failing input: the ATR 3F 6F EE 7E CE 01 BA, the
complement form of 3B 90 11 81 31 FE 45, is parsed to the same F, D, IFSC, BWI,
CWI and protocol as the rewritten ATR, but the record comes back with `payload`
pointing to the local array `inv_atr` (dangling once `parse_ATR` has returned),
where parsing the rewritten ATR leaves it pointing to the caller's buffer. -/
theorem C16_inverse_payload_dangles :
    parse_ATR ⟨0, 0, 0, 0, 0, 7, 0, [0x3F, 0x6F, 0xEE, 0x7E, 0xCE, 0x01, 0xBA], false⟩ =
      Outcome.done ⟨1, 372, 254, 4, 5, 7, 1, [0x3B, 0x90, 0x11, 0x81, 0x31, 0xFE, 0x45], true⟩ ∧
    atr_complement [0x3F, 0x6F, 0xEE, 0x7E, 0xCE, 0x01, 0xBA] =
      [0x3B, 0x90, 0x11, 0x81, 0x31, 0xFE, 0x45] ∧
    parse_ATR ⟨0, 0, 0, 0, 0, 7, 0, [0x3B, 0x90, 0x11, 0x81, 0x31, 0xFE, 0x45], false⟩ =
      Outcome.done ⟨1, 372, 254, 4, 5, 7, 1, [0x3B, 0x90, 0x11, 0x81, 0x31, 0xFE, 0x45], false⟩ := by
  decide

/-! ## C17: a TS that is neither 0x3B nor 0x3F -/

/-- With a TS that is neither 0x3B nor 0x3F `parse_ATR` returns before it has
written any field. -/
theorem parse_ATR_invalid_TS (atr : answer_to_reset) (ts : Nat)
    (hts : atr.payload[0]? = some ts) (h3f : ts ≠ 0x3F) (h3b : ts ≠ 0x3B) :
    parse_ATR atr = Outcome.done atr := by
  rw [parse_ATR, parse_ATR_fuel, atr_byte_of _ _ _ hts, Outcome.bind_done, if_neg h3f, if_pos h3b]

/-- C17, the code at the failing input: for the ATR 3C 90 11 81 31 FE 45, whose
TS is neither 0x3B nor 0x3F, in a record whose protocol field holds 1,
`parse_ATR` returns the record unchanged: the protocol is still 1, not 2. -/
theorem C17_invalid_TS_keeps_protocol :
    parse_ATR ⟨0, 0, 0, 0, 0, 7, 1, [0x3C, 0x90, 0x11, 0x81, 0x31, 0xFE, 0x45], false⟩ =
      Outcome.done ⟨0, 0, 0, 0, 0, 7, 1, [0x3C, 0x90, 0x11, 0x81, 0x31, 0xFE, 0x45], false⟩ := by
  decide

/-! ## The ATR parser: when the walk stays inside the payload -/

theorem toNat_le_one (b : Bool) : b.toNat ≤ 1 := by
  cases b <;> simp

/-- More steps than `p.length + 1` never change what `atr_chain_inside` says: the
bound on the number of steps in `atr_complete` is never the reason for its
answer. -/
theorem atr_chain_inside_fuel (p : List Nat) :
    ∀ (f y index : Nat), p.length < f + index →
      atr_chain_inside p (f + 1) y index = atr_chain_inside p f y index := by
  intro f
  induction f with
  | zero =>
    intro y index h
    rw [atr_chain_inside, atr_chain_inside]
    have hi : p.length <
        index + (bit y 4).toNat + (bit y 5).toNat + (bit y 6).toNat := by omega
    split
    · rw [List.getElem?_eq_none (by omega)]
    · simp
      omega
  | succ f ih =>
    intro y index h
    rw [atr_chain_inside]
    conv => rhs; rw [atr_chain_inside]
    split
    · cases hx : p[index + (bit y 4).toNat + (bit y 5).toNat + (bit y 6).toNat]? with
      | none => rfl
      | some td => exact ih td _ (by omega)
    · rfl

/-- C21, the code at the failing input: in the ATR 3B 80 81 B1 FE 45 1F 07, TD2
(0xB1, T=1) announces TA3 = 0xFE, TB3 = 0x45 and a further byte TD3 = 0x1F.
`parse_ATR` tests the low nibble of TD3 (15) instead of that of TD2, so IFSC,
BWI and CWI keep their defaults 32, 4 and 13.  Without TD3 (ATR 3B 80 81 31 FE
45) the same TA3 and TB3 give IFSC = 254, BWI = 4, CWI = 5. -/
theorem C21_further_TD_blocks_IFSC :
    parse_ATR ⟨0, 0, 0, 0, 0, 8, 0, [0x3B, 0x80, 0x81, 0xB1, 0xFE, 0x45, 0x1F, 0x07], false⟩ =
      Outcome.done
        ⟨1, 372, 32, 4, 13, 8, 1, [0x3B, 0x80, 0x81, 0xB1, 0xFE, 0x45, 0x1F, 0x07], false⟩ ∧
    parse_ATR ⟨0, 0, 0, 0, 0, 6, 0, [0x3B, 0x80, 0x81, 0x31, 0xFE, 0x45], false⟩ =
      Outcome.done ⟨1, 372, 254, 4, 5, 6, 1, [0x3B, 0x80, 0x81, 0x31, 0xFE, 0x45], false⟩ := by
  decide

/-! ## C22: the block waiting time -/

theorem double_rounding_bounds (fl : ℚ → ℚ) (hfl : double_rounding fl) (x lo hi : ℚ)
    (h0 : 0 ≤ lo) (hlo : lo ≤ x) (hhi : x ≤ hi) :
    lo * (1 - 1 / 2 ^ 52) ≤ fl x ∧ fl x ≤ hi * (1 + 1 / 2 ^ 52) := by
  obtain ⟨h1, h2⟩ := hfl x (le_trans h0 hlo)
  constructor
  · exact le_trans (mul_le_mul_of_nonneg_right hlo (by norm_num)) h1
  · exact le_trans h2 (mul_le_mul_of_nonneg_right hhi (by norm_num))

theorem double_rounding_id : double_rounding (fun x => x) := by
  intro x hx
  constructor
  · nlinarith
  · nlinarith

theorem double_to_long_of_floor (x : ℚ) (n : Int) (h0 : 0 ≤ x) (h1 : (n : ℚ) ≤ x)
    (h2 : x < (n : ℚ) + 1) (hn : -(2 : Int) ^ 31 ≤ n ∧ n < (2 : Int) ^ 31) :
    double_to_long x = Outcome.done n := by
  have hf : ⌊x⌋ = n := Int.floor_eq_iff.mpr ⟨h1, h2⟩
  simp only [double_to_long, if_pos h0, hf]
  rw [if_pos hn]

theorem get_sc_reader_clk_3571 : get_sc_reader_clk 3571 = 3571000 := by
  decide

theorem BWT_exact : parse_ATR_BWT_us (fun x => x) 4 1 372 3571 = Outcome.done 1600193 := by
  have e : ((((2 : ℚ) ^ 4 * 960 * ((372 : Int) : ℚ)) / ((3571000 : Nat) : ℚ) +
      (1 / ((1 : Int) : ℚ)) * (((372 : Int) : ℚ) / ((3571000 : Nat) : ℚ))) * 1000000) =
      1428573000 / 892.75 := by norm_num
  simp only [parse_ATR_BWT_us, parse_ATR_work_etu, get_sc_reader_clk_3571]
  rw [if_neg (by decide), e]
  exact double_to_long_of_floor _ 1600193 (by norm_num) (by norm_num) (by norm_num)
    (by norm_num)

/-- C22, amended: for BWI = 4, F = 372, D = 1 and a clock of 3,571,200 Hz, which
the frequency counter reads as 3571 kHz and `get_sc_reader_clk` returns as
3,571,000, the block waiting time that `parse_ATR` computes from
BWT_us = (2^BWI * 960 * F / f_clk + work_etu) * 10^6 is stored as 1,600,193
(about 1600 ms), whatever rounding of the accuracy of `double` arithmetic the
floating-point operations apply. -/
theorem C22_block_waiting_time_amended (fl : ℚ → ℚ) (hfl : double_rounding fl) :
    3571200 / 1000 = 3571 ∧ get_sc_reader_clk 3571 = 3571000 ∧
    parse_ATR_BWT_us fl 4 1 372 3571 = Outcome.done 1600193 := by
  refine ⟨by decide, get_sc_reader_clk_3571, ?_⟩
  have a1 := double_rounding_bounds fl hfl ((2 : ℚ) ^ 4) 16 16 (by norm_num) (by norm_num)
    (by norm_num)
  have a2 := double_rounding_bounds fl hfl (fl ((2 : ℚ) ^ 4) * 960)
    (16 * (1 - 1 / 2 ^ 52) * 960) (16 * (1 + 1 / 2 ^ 52) * 960) (by norm_num)
    (by linarith [a1.1]) (by linarith [a1.2])
  have a2l : (15360 : ℚ) * (1 - 1 / 10 ^ 15) ≤ fl (fl ((2 : ℚ) ^ 4) * 960) :=
    le_trans (by norm_num) a2.1
  have a2h : fl (fl ((2 : ℚ) ^ 4) * 960) ≤ (15360 : ℚ) * (1 + 1 / 10 ^ 15) :=
    le_trans a2.2 (by norm_num)
  have a3 := double_rounding_bounds fl hfl (fl (fl ((2 : ℚ) ^ 4) * 960) * ((372 : Int) : ℚ))
    (15360 * (1 - 1 / 10 ^ 15) * 372) (15360 * (1 + 1 / 10 ^ 15) * 372) (by norm_num)
    (by push_cast; linarith [a2l]) (by push_cast; linarith [a2h])
  have a4 := double_rounding_bounds fl hfl
    (fl (fl (fl ((2 : ℚ) ^ 4) * 960) * ((372 : Int) : ℚ)) / ((3571000 : Nat) : ℚ))
    (15360 * (1 - 1 / 10 ^ 15) * 372 * (1 - 1 / 2 ^ 52) / 3571000)
    (15360 * (1 + 1 / 10 ^ 15) * 372 * (1 + 1 / 2 ^ 52) / 3571000) (by norm_num)
    (by push_cast; linarith [a3.1]) (by push_cast; linarith [a3.2])
  have a4l : (142848 / 89275 : ℚ) * (1 - 3 / 10 ^ 15) ≤
      fl (fl (fl (fl ((2 : ℚ) ^ 4) * 960) * ((372 : Int) : ℚ)) / ((3571000 : Nat) : ℚ)) :=
    le_trans (by norm_num) a4.1
  have a4h : fl (fl (fl (fl ((2 : ℚ) ^ 4) * 960) * ((372 : Int) : ℚ)) / ((3571000 : Nat) : ℚ)) ≤
      (142848 / 89275 : ℚ) * (1 + 3 / 10 ^ 15) :=
    le_trans a4.2 (by norm_num)
  have w1 := double_rounding_bounds fl hfl (1 / ((1 : Int) : ℚ)) 1 1 (by norm_num) (by norm_num)
    (by norm_num)
  have w2 := double_rounding_bounds fl hfl (((372 : Int) : ℚ) / ((3571000 : Nat) : ℚ))
    (93 / 892750) (93 / 892750) (by norm_num) (by norm_num) (by norm_num)
  have w1p : (0 : ℚ) ≤ fl (1 / ((1 : Int) : ℚ)) := le_trans (by norm_num) w1.1
  have w2p : (0 : ℚ) ≤ fl (((372 : Int) : ℚ) / ((3571000 : Nat) : ℚ)) :=
    le_trans (by norm_num) w2.1
  have w3 := double_rounding_bounds fl hfl
    (fl (1 / ((1 : Int) : ℚ)) * fl (((372 : Int) : ℚ) / ((3571000 : Nat) : ℚ)))
    (1 * (1 - 1 / 2 ^ 52) * (93 / 892750 * (1 - 1 / 2 ^ 52)))
    (1 * (1 + 1 / 2 ^ 52) * (93 / 892750 * (1 + 1 / 2 ^ 52))) (by norm_num)
    (mul_le_mul w1.1 w2.1 (by norm_num) w1p)
    (mul_le_mul w1.2 w2.2 w2p (by norm_num))
  have hw : parse_ATR_work_etu fl 1 372 3571 =
      fl (fl (1 / ((1 : Int) : ℚ)) * fl (((372 : Int) : ℚ) / ((3571000 : Nat) : ℚ))) := by
    simp only [parse_ATR_work_etu, get_sc_reader_clk_3571]
  have wl : (93 / 892750 : ℚ) * (1 - 3 / 10 ^ 15) ≤ parse_ATR_work_etu fl 1 372 3571 := by
    rw [hw]
    exact le_trans (by norm_num) w3.1
  have wh : parse_ATR_work_etu fl 1 372 3571 ≤ (93 / 892750 : ℚ) * (1 + 3 / 10 ^ 15) := by
    rw [hw]
    exact le_trans w3.2 (by norm_num)
  have a5 := double_rounding_bounds fl hfl
    (fl (fl (fl (fl ((2 : ℚ) ^ 4) * 960) * ((372 : Int) : ℚ)) / ((3571000 : Nat) : ℚ)) +
      parse_ATR_work_etu fl 1 372 3571)
    ((142848 / 89275 : ℚ) * (1 - 3 / 10 ^ 15) + (93 / 892750 : ℚ) * (1 - 3 / 10 ^ 15))
    ((142848 / 89275 : ℚ) * (1 + 3 / 10 ^ 15) + (93 / 892750 : ℚ) * (1 + 3 / 10 ^ 15))
    (by norm_num) (by linarith [a4l, wl]) (by linarith [a4h, wh])
  have a6 := double_rounding_bounds fl hfl
    (fl (fl (fl (fl (fl ((2 : ℚ) ^ 4) * 960) * ((372 : Int) : ℚ)) / ((3571000 : Nat) : ℚ)) +
      parse_ATR_work_etu fl 1 372 3571) * 1000000)
    (((142848 / 89275 : ℚ) * (1 - 3 / 10 ^ 15) + (93 / 892750 : ℚ) * (1 - 3 / 10 ^ 15)) *
      (1 - 1 / 2 ^ 52) * 1000000)
    (((142848 / 89275 : ℚ) * (1 + 3 / 10 ^ 15) + (93 / 892750 : ℚ) * (1 + 3 / 10 ^ 15)) *
      (1 + 1 / 2 ^ 52) * 1000000) (by norm_num)
    (by linarith [a5.1]) (by linarith [a5.2])
  unfold parse_ATR_BWT_us
  simp only [get_sc_reader_clk_3571]
  rw [if_neg (by decide)]
  refine double_to_long_of_floor _ 1600193 ?_ ?_ ?_ (by norm_num)
  · exact le_trans (by norm_num) a6.1
  · exact le_trans (by norm_num) a6.1
  · exact lt_of_le_of_lt a6.2 (by norm_num)

theorem C22_block_waiting_time_amended_witness :
    3571200 / 1000 = 3571 ∧ get_sc_reader_clk 3571 = 3571000 ∧
    parse_ATR_BWT_us (fun x => x) 4 1 372 3571 = Outcome.done 1600193 :=
  C22_block_waiting_time_amended (fun x => x) double_rounding_id

/-- C22, counterexample: for BWI = 4, F = 372, D = 1 and a clock of 3,571,200 Hz,
read as 3571 kHz, the formula gives 1,600,193 in exact arithmetic, which is
640,193 more than 960,000. -/
theorem C22_BWT_is_not_960_ms :
    ∃ v, parse_ATR_BWT_us (fun x => x) 4 1 372 3571 = Outcome.done v ∧
      v - 960000 = 640193 :=
  ⟨1600193, BWT_exact, by decide⟩

/-! ## Lemmas: the serial line and the host pipe in the T=0 loop -/

/-- What `sc_write` does when the line delivers an echo for every byte. -/
theorem sc_write_spec (u : Uart) (l : List Nat) (hl : ∀ b ∈ l, b < 256)
    (hecho : l.length ≤ (rxBytes (discard_rx u.rx)).length) :
    sc_write u l =
      Outcome.done ((l.length : Int),
        ⟨dropBytes l.length (discard_rx u.rx), u.tx ++ l, u.baud⟩) := by
  have h := sc_write_loop_spec l l.length 0 (discard_uart_buffer u) hecho (by omega)
  rw [sc_write, h]
  have e : (List.range' 0 l.length).map (fun p => l.getD p 0 % 256) = l := by
    have e1 : (fun p => l.getD p 0 % 256) = (· % 256) ∘ (fun p => l.getD p 0) := rfl
    rw [e1, ← List.map_map, map_getD_range l l.length (le_refl _), List.take_length,
      map_mod_of_lt l hl]
  simp only [discard_uart_buffer, uart_tx_wait_blocking, e, Nat.zero_add]

/-- `sc_write` on a line whose receive FIFO is empty and which then echoes. -/
theorem sc_write_echo (l echo : List Nat) (rest : List RxEvent) (tx : List Nat) (baud : Nat)
    (hl : ∀ b ∈ l, b < 256) (hecho : echo.length = l.length) :
    sc_write ⟨RxEvent.idle :: (echo.map RxEvent.byte ++ rest), tx, baud⟩ l =
      Outcome.done ((l.length : Int), ⟨rest, tx ++ l, baud⟩) := by
  rw [sc_write_spec _ l hl]
  · simp only [discard_rx]
    rw [← hecho, dropBytes_map_byte]
  · simp only [discard_rx]
    rw [rxBytes_map_byte]
    simp [hecho]

theorem sc_read_loop_bytes (off len : Nat) (rest : List RxEvent) (tx : List Nat) (baud : Nat) :
    ∀ (l : List Nat) (pos : Nat) (buf : List Nat), (∀ b ∈ l, b < 256) →
      pos + l.length = len → off + len ≤ buf.length →
      sc_read_loop off len l.length pos ⟨l.map RxEvent.byte ++ rest, tx, baud⟩ buf =
        Outcome.done (len, ⟨rest, tx, baud⟩,
          buf.take (off + pos) ++ l ++ buf.drop (off + len)) := by
  intro l
  induction l with
  | nil =>
    intro pos buf _ hpos hbuf
    simp only [List.length_nil, Nat.add_zero] at hpos
    subst hpos
    simp [sc_read_loop]
  | cons a l ih =>
    intro pos buf hl hpos hbuf
    simp only [List.length_cons] at hpos
    have ha : a < 256 := hl a (by simp)
    have hlt : pos < len := by omega
    have hidx : off + pos < buf.length := by omega
    rw [List.length_cons, sc_read_loop, if_pos hlt]
    simp only [List.map_cons, List.cons_append, uart_getc_byte, Outcome.bind_done,
      Nat.mod_eq_of_lt ha, if_pos hidx]
    rw [ih (pos + 1) _ (fun b hb => hl b (by simp [hb])) (by omega)
      (by rw [List.length_set]; exact hbuf)]
    have e1 : (buf.set (off + pos) a).take (off + (pos + 1)) = buf.take (off + pos) ++ [a] := by
      rw [List.set_eq_take_append_cons_drop, if_pos hidx]
      rw [show off + (pos + 1) = (buf.take (off + pos)).length + 1 by
        rw [List.length_take]; omega]
      rw [List.take_append]
      simp
    have e2 : (buf.set (off + pos) a).drop (off + len) = buf.drop (off + len) := by
      rw [List.drop_set_of_lt _ _ (by omega)]
    rw [e1, e2]
    simp

/-- `sc_read` of bytes that arrive on the line. -/
theorem sc_read_bytes (l : List Nat) (rest : List RxEvent) (tx : List Nat) (baud : Nat)
    (buf : List Nat) (off : Nat) (hl : ∀ b ∈ l, b < 256) (hbuf : off + l.length ≤ buf.length) :
    sc_read ⟨l.map RxEvent.byte ++ rest, tx, baud⟩ buf off l.length =
      Outcome.done (l.length, ⟨rest, tx, baud⟩,
        buf.take off ++ l ++ buf.drop (off + l.length)) := by
  rw [sc_read, sc_read_loop_bytes off l.length rest tx baud l 0 buf hl (by omega) hbuf]
  simp

theorem u32_of_bytes_u32_bytes (n : Nat) (h : n < 2 ^ 32) (rest : List Nat) :
    u32_of_bytes ((u32_bytes n).map (· % 256) ++ rest) = n := by
  simp only [u32_bytes, u32_of_bytes, List.map_cons, List.map_nil, List.cons_append,
    List.nil_append, List.getD_cons_zero, List.getD_cons_succ, Nat.mod_mod]
  omega

theorem u32_bytes_length (n : Nat) : (u32_bytes n).length = 4 := rfl

theorem u32_bytes_lt (n : Nat) : ∀ b ∈ u32_bytes n, b < 256 := by
  intro b hb
  simp only [u32_bytes, List.mem_cons, List.mem_singleton, List.not_mem_nil, or_false] at hb
  rcases hb with h | h | h | h <;> rw [h] <;> exact Nat.mod_lt _ (by decide)

/-- What `write_usb_uart` puts on the pipe. -/
theorem write_usb_uart_spec (h : Host) (opcode : Nat) (data : List Nat) (len : Nat)
    (hop : opcode < 256) (hlen : len ≤ data.length) (hdata : ∀ b ∈ data, b < 256) :
    write_usb_uart h opcode data len =
      Outcome.done { h with out := h.out ++ opcode :: (u32_bytes len ++ data.take len) } := by
  have hd : (data.take len).map (· % 256) = data.take len :=
    map_mod_of_lt _ (fun b hb => hdata b (List.mem_of_mem_take hb))
  unfold write_usb_uart
  by_cases h0 : len > 0
  · simp [h0, hlen, hd, Nat.mod_eq_of_lt hop]
  · have : len = 0 := by omega
    subst this
    simp [Nat.mod_eq_of_lt hop]

theorem read_usb_uart_blocking_spec (h : Host) (data l rest : List Nat)
    (hl : ∀ b ∈ l, b < 256) (hd : l.length ≤ data.length) (hinp : h.inp = l ++ rest) :
    read_usb_uart_blocking h data l.length =
      Outcome.done ((l.length : Int), { h with inp := rest }, l ++ data.drop l.length) := by
  rw [read_usb_uart_blocking, if_pos hd, if_pos (by rw [hinp]; simp), hinp]
  simp [map_mod_of_lt l hl]

/-- A frame with an opcode other than SENDATR, REQUEST_STATE, SET_UARTMODE and
SET_LOGLEVEL makes `read_usb_uart_apdu` return: it returns the length of the
frame and leaves the payload at the start of the buffer. -/
theorem read_usb_uart_apdu_frame (uninit : answer_to_reset) (h : Host) (data : List Nat)
    (opcode : Nat) (R rest : List Nat) (hop : opcode < 256)
    (h3 : opcode ≠ OP_SENDATR) (h5 : opcode ≠ OP_REQUEST_STATE)
    (h6 : opcode ≠ OP_SET_UARTMODE) (h7 : opcode ≠ OP_SET_LOGLEVEL)
    (hR : ∀ b ∈ R, b < 256) (hlen : R.length ≤ data.length) (h32 : R.length < 2 ^ 32)
    (hinp : h.inp = opcode :: (u32_bytes R.length ++ (R ++ rest))) :
    read_usb_uart_apdu uninit h data =
      Outcome.done (R.length, { h with inp := rest }, R ++ data.drop R.length) := by
  have hu : u32_of_bytes (u32_bytes R.length ++ []) = R.length := by
    have := u32_of_bytes_u32_bytes R.length h32 []
    rwa [map_mod_of_lt _ (u32_bytes_lt R.length)] at this
  have r1 := read_usb_uart_blocking_spec h [0] [opcode] (u32_bytes R.length ++ (R ++ rest))
    (by simpa using hop) (by simp) hinp
  have r2 := read_usb_uart_blocking_spec { h with inp := u32_bytes R.length ++ (R ++ rest) }
    [0, 0, 0, 0] (u32_bytes R.length) (R ++ rest) (u32_bytes_lt _) (by simp [u32_bytes_length]) rfl
  have r3 := read_usb_uart_blocking_spec { h with inp := R ++ rest } data R rest hR hlen rfl
  simp only [List.length_singleton, u32_bytes_length] at r1 r2
  rw [read_usb_uart_apdu, read_usb_uart_apdu_fuel, r1, Outcome.bind_done]
  simp only []
  rw [r2, Outcome.bind_done]
  simp only [List.drop_succ_cons, List.drop_zero, List.drop_nil, hu]
  rw [r3, Outcome.bind_done]
  simp only [List.cons_append, List.nil_append, List.getD_cons_zero, if_neg h3, if_neg h5,
    if_neg h6, if_neg h7]

theorem prot_t0_await_frame (uninit : answer_to_reset) (fuel : Nat) (h : Host) (data : List Nat)
    (opcode : Nat) (R rest : List Nat) (hop : opcode < 256)
    (h3 : opcode ≠ OP_SENDATR) (h5 : opcode ≠ OP_REQUEST_STATE)
    (h6 : opcode ≠ OP_SET_UARTMODE) (h7 : opcode ≠ OP_SET_LOGLEVEL)
    (hR : ∀ b ∈ R, b < 256) (hlen : R.length ≤ data.length) (h32 : R.length < 2 ^ 32 - 1)
    (hinp : h.inp = opcode :: (u32_bytes R.length ++ (R ++ rest))) :
    prot_t0_await uninit (fuel + 1) h data =
      Outcome.done (R.length, { h with inp := rest }, R ++ data.drop R.length) := by
  rw [prot_t0_await, read_usb_uart_apdu_frame uninit h data opcode R rest hop h3 h5 h6 h7 hR hlen
    (by omega) hinp, Outcome.bind_done]
  simp only []
  rw [if_neg (by omega)]

/-- The round trip to the host: the command goes out as an APDU frame, the
cache is cleared, and the frame the host sends back is handed to
`prot_t0_respond`. -/
theorem prot_t0_forward_frame (uninit : answer_to_reset) (le : Int) (apdu_len proc_byte : Nat)
    (s : prot_t0_state) (opcode : Nat) (R hin : List Nat) (hop : opcode < 256)
    (h3 : opcode ≠ OP_SENDATR) (h5 : opcode ≠ OP_REQUEST_STATE)
    (h6 : opcode ≠ OP_SET_UARTMODE) (h7 : opcode ≠ OP_SET_LOGLEVEL)
    (hbuf : ∀ b ∈ s.buf, b < 256) (hlen : apdu_len ≤ s.buf.length)
    (hR : ∀ b ∈ R, b < 256) (hRlen : R.length ≤ s.buf.length) (h32 : R.length < 2 ^ 32 - 1)
    (hhost : s.h.inp = opcode :: (u32_bytes R.length ++ (R ++ hin))) :
    prot_t0_forward uninit le apdu_len proc_byte s =
      prot_t0_respond le proc_byte R.length
        { s with
          h := { s.h with
                 inp := hin,
                 out := s.h.out ++ OP_APDU :: (u32_bytes apdu_len ++ s.buf.take apdu_len) },
          buf := R ++ s.buf.drop R.length, len_response_cache := 0 } := by
  rw [prot_t0_forward, write_usb_uart_apdu,
    write_usb_uart_spec s.h OP_APDU s.buf apdu_len (by decide) hlen hbuf, Outcome.bind_done]
  exact congrArg (fun x => Outcome.bind x _)
    (prot_t0_await_frame uninit _
      { s.h with out := s.h.out ++ OP_APDU :: (u32_bytes apdu_len ++ s.buf.take apdu_len) }
      s.buf opcode R hin hop h3 h5 h6 h7 hR hRlen h32 hhost)

theorem set_set_take_two (l : List Nat) (a b : Nat) (h : 2 ≤ l.length) :
    ((l.set 0 a).set 1 b).take 2 = [a, b] := by
  match l, h with
  | x :: y :: l, _ => rfl

theorem set_set_drop_two (l : List Nat) (a b : Nat) :
    ((l.set 0 a).set 1 b).drop 2 = l.drop 2 := by
  match l with
  | [] => rfl
  | [x] => rfl
  | x :: y :: l => rfl

/-- A response of two bytes is written as it is. -/
theorem prot_t0_respond_sw (le : Int) (proc_byte : Nat) (s : prot_t0_state) (sw1 sw2 e1 e2 : Nat)
    (l : List Nat) (rest : List RxEvent) (hsw1 : sw1 < 256) (hsw2 : sw2 < 256)
    (hbuf : s.buf = sw1 :: sw2 :: l)
    (hrx : s.u.rx = RxEvent.idle :: RxEvent.byte e1 :: RxEvent.byte e2 :: rest) :
    prot_t0_respond le proc_byte 2 s =
      Outcome.done { s with u := ⟨rest, s.u.tx ++ [sw1, sw2], s.u.baud⟩ } := by
  have hw := sc_write_echo [sw1, sw2] [e1, e2] rest s.u.tx s.u.baud
    (by simp [hsw1, hsw2]) rfl
  simp only [List.map_cons, List.map_nil, List.cons_append, List.nil_append] at hw
  rw [prot_t0_respond, if_pos (show (2 : Nat) = SW_LEN from rfl), hbuf]
  simp only [List.take_succ_cons, List.take_zero]
  rw [show s.u = ⟨RxEvent.idle :: RxEvent.byte e1 :: RxEvent.byte e2 :: rest, s.u.tx, s.u.baud⟩
    by rw [← hrx], hw, Outcome.bind_done]

/-- A response of the expected length is written after the procedure byte. -/
theorem prot_t0_respond_exact (le : Int) (proc_byte : Nat) (s : prot_t0_state)
    (R l echo : List Nat) (e : Nat) (rest : List RxEvent) (hproc : proc_byte < 256)
    (hR : ∀ b ∈ R, b < 256) (hne : R.length ≠ 2) (hle : (R.length : Int) = le % 2 ^ 32)
    (hbuf : s.buf = R ++ l) (hecho : echo.length = R.length)
    (hrx : s.u.rx =
      RxEvent.idle :: RxEvent.byte e :: RxEvent.idle :: (echo.map RxEvent.byte ++ rest)) :
    prot_t0_respond le proc_byte R.length s =
      Outcome.done { s with u := ⟨rest, s.u.tx ++ proc_byte :: R, s.u.baud⟩ } := by
  have hw1 := sc_write_echo [proc_byte] [e]
    (RxEvent.idle :: (echo.map RxEvent.byte ++ rest)) s.u.tx s.u.baud (by simpa using hproc) rfl
  have hw2 := sc_write_echo R echo rest (s.u.tx ++ [proc_byte]) s.u.baud hR hecho
  simp only [List.map_cons, List.map_nil, List.cons_append, List.nil_append] at hw1
  rw [prot_t0_respond, if_neg (show ¬ R.length = SW_LEN from hne), if_pos hle, hbuf]
  rw [show s.u = ⟨RxEvent.idle :: RxEvent.byte e :: RxEvent.idle ::
      (echo.map RxEvent.byte ++ rest), s.u.tx, s.u.baud⟩ by rw [← hrx], hw1, Outcome.bind_done]
  simp only [List.take_left', hw2, Outcome.bind_done, List.append_assoc, List.singleton_append]

/-- A response of any other length is kept in the cache, and two status bytes
are written. -/
theorem prot_t0_respond_other (le : Int) (proc_byte : Nat) (s : prot_t0_state)
    (R l : List Nat) (e1 e2 : Nat) (rest : List RxEvent)
    (hne : R.length ≠ 2) (hle : (R.length : Int) ≠ le % 2 ^ 32)
    (hbuf : s.buf = R ++ l) (h2 : 2 ≤ s.buf.length)
    (hcache : R.length ≤ s.response_cache.length)
    (hrx : s.u.rx = RxEvent.idle :: RxEvent.byte e1 :: RxEvent.byte e2 :: rest) :
    prot_t0_respond le proc_byte R.length s =
      Outcome.done
        { s with
          u := ⟨rest, s.u.tx ++ [if (R.length : Int) > le % 2 ^ 32 then 0x61 else 0x6C,
                  (R.length + 2 ^ 32 - 2) % 2 ^ 32 % 256], s.u.baud⟩,
          buf := (s.buf.set 0 (if (R.length : Int) > le % 2 ^ 32 then 0x61 else 0x6C)).set 1
                  ((R.length + 2 ^ 32 - 2) % 2 ^ 32 % 256),
          response_cache := R ++ s.response_cache.drop R.length,
          len_response_cache := R.length % 256 } := by
  have hsw1 : (if (R.length : Int) > le % 2 ^ 32 then 0x61 else 0x6C) < 256 := by
    split <;> decide
  have hsw2 : (R.length + 2 ^ 32 - 2) % 2 ^ 32 % 256 < 256 := Nat.mod_lt _ (by decide)
  have hw := sc_write_echo
    [if (R.length : Int) > le % 2 ^ 32 then 0x61 else 0x6C, (R.length + 2 ^ 32 - 2) % 2 ^ 32 % 256]
    [e1, e2] rest s.u.tx s.u.baud
    (by
      intro b hb
      simp only [List.mem_cons, List.mem_singleton, List.not_mem_nil, or_false] at hb
      rcases hb with h | h
      · rw [h]; exact hsw1
      · rw [h]; exact hsw2) rfl
  simp only [List.map_cons, List.map_nil, List.cons_append, List.nil_append] at hw
  have hRb : R.length ≤ s.buf.length := by rw [hbuf]; simp
  rw [prot_t0_respond, if_neg (show ¬ R.length = SW_LEN from hne), if_neg hle,
    if_pos ⟨hRb, hcache⟩]
  simp only [SW_LEN, set_set_take_two _ _ _ h2]
  rw [show s.u = ⟨RxEvent.idle :: RxEvent.byte e1 :: RxEvent.byte e2 :: rest, s.u.tx, s.u.baud⟩
    by rw [← hrx], hw, Outcome.bind_done]
  simp [hbuf]

theorem header_bytes (cla ins p1 p2 p3 : Nat) (hcla : cla < 256) (hins : ins < 256)
    (hp1 : p1 < 256) (hp2 : p2 < 256) (hp3 : p3 < 256) :
    ∀ b ∈ [cla, ins, p1, p2, p3], b < 256 := by
  intro b hb
  simp only [List.mem_cons, List.mem_singleton, List.not_mem_nil, or_false] at hb
  rcases hb with h | h | h | h | h <;> rw [h] <;> assumption

/-- The start of a pass through the loop: the five header bytes are read into
the buffer and the command case is looked up. -/
theorem prot_t0_iteration_header (osim : List Nat → Nat) (uninit : answer_to_reset)
    (s : prot_t0_state) (cla ins p1 p2 p3 : Nat) (rest : List RxEvent)
    (hcla : cla < 256) (hins : ins < 256) (hp1 : p1 < 256) (hp2 : p2 < 256) (hp3 : p3 < 256)
    (hlen : 5 ≤ s.buf.length)
    (hrx : s.u.rx = [cla, ins, p1, p2, p3].map RxEvent.byte ++ rest) :
    prot_t0_iteration osim uninit s =
      (prot_t0_command (osim ([cla, ins, p1, p2, p3] ++ s.buf.drop 5) % 256) p3 ins 5
          ⟨rest, s.u.tx, s.u.baud⟩ ([cla, ins, p1, p2, p3] ++ s.buf.drop 5)).bind fun c =>
        (atr_byte c.2.2.2 1).bind fun ins1 =>
          if s.len_response_cache > 0 ∧ ins1 = 0xC0 then
            (sc_write c.2.2.1 [ins]).bind fun w1 =>
            (sc_write w1.2 (s.response_cache.take s.len_response_cache)).bind fun w2 =>
            Outcome.done { s with u := w2.2, buf := c.2.2.2 }
          else
            prot_t0_forward uninit c.1 c.2.1 ins { s with u := c.2.2.1, buf := c.2.2.2 } := by
  have hr := sc_read_bytes [cla, ins, p1, p2, p3] rest s.u.tx s.u.baud s.buf 0
    (header_bytes cla ins p1 p2 p3 hcla hins hp1 hp2 hp3) (by simpa using hlen)
  simp only [List.length_cons, List.length_nil, List.take_zero, List.nil_append,
    Nat.zero_add] at hr
  rw [prot_t0_iteration, HEADER_LEN,
    show s.u = ⟨[cla, ins, p1, p2, p3].map RxEvent.byte ++ rest, s.u.tx, s.u.baud⟩
      by rw [← hrx], hr, Outcome.bind_done]
  simp only [atr_byte, List.cons_append, List.nil_append, List.getElem?_cons_succ,
    List.getElem?_cons_zero, Outcome.bind_done]

theorem prot_t0_command_case2 (p3 proc_byte apdu_len : Nat) (u : Uart) (buf : List Nat) :
    prot_t0_command 2 p3 proc_byte apdu_len u buf =
      Outcome.done (if p3 = 0 then 258 else 2 + (p3 : Int), apdu_len, u, buf) := by
  rw [prot_t0_command, if_neg (by decide), if_pos rfl]
  by_cases h : p3 = 0
  · subst h
    simp [SW_LEN]
  · simp [h, SW_LEN]

/-! ## C23 to C25: the answer to the reader in the T=0 loop -/

/-- C23: in one pass through the T=0 loop, for a case-2 command with P3 = p that
is not served from the cache, when the host answers with a response of p + 2
bytes (258 for p = 0) the device writes the procedure byte (INS) followed by the
whole response to the reader and leaves the cache empty; the command went to the
host as one APDU frame. -/
theorem C23_case2_expected_length (osim : List Nat → Nat) (uninit : answer_to_reset)
    (s : prot_t0_state) (cla ins p1 p2 p3 e : Nat) (R echo hin : List Nat)
    (rest : List RxEvent)
    (hcla : cla < 256) (hins : ins < 256) (hp1 : p1 < 256) (hp2 : p2 < 256) (hp3 : p3 < 256)
    (hbuf : s.buf.length = APDU_BUFFER_LEN) (hbytes : ∀ b ∈ s.buf, b < 256)
    (hcase : osim ([cla, ins, p1, p2, p3] ++ s.buf.drop 5) % 256 = 2)
    (hmiss : ¬ (s.len_response_cache > 0 ∧ ins = 0xC0))
    (hR : ∀ b ∈ R, b < 256) (hlen : R.length = if p3 = 0 then 258 else p3 + 2)
    (hecho : echo.length = R.length)
    (hrx : s.u.rx = [cla, ins, p1, p2, p3].map RxEvent.byte ++
      RxEvent.idle :: RxEvent.byte e :: RxEvent.idle :: (echo.map RxEvent.byte ++ rest))
    (hhost : s.h.inp = OP_APDU :: (u32_bytes R.length ++ (R ++ hin))) :
    prot_t0_iteration osim uninit s =
      Outcome.done
        { u := ⟨rest, s.u.tx ++ ins :: R, s.u.baud⟩,
          h := { s.h with
                 inp := hin,
                 out := s.h.out ++ OP_APDU :: (u32_bytes 5 ++ [cla, ins, p1, p2, p3]) },
          buf := R ++ ([cla, ins, p1, p2, p3] ++ s.buf.drop 5).drop R.length,
          response_cache := s.response_cache,
          len_response_cache := 0 } := by
  have hb5 : 5 ≤ s.buf.length := by rw [hbuf]; decide
  have hRl : R.length ≤ 258 := by rw [hlen]; split <;> omega
  have hnew : ∀ b ∈ [cla, ins, p1, p2, p3] ++ s.buf.drop 5, b < 256 := by
    intro b hb
    rcases List.mem_append.mp hb with h | h
    · exact header_bytes cla ins p1 p2 p3 hcla hins hp1 hp2 hp3 b h
    · exact hbytes b (List.mem_of_mem_drop h)
  have hnl : ([cla, ins, p1, p2, p3] ++ s.buf.drop 5).length = APDU_BUFFER_LEN := by
    rw [List.length_append, List.length_drop, hbuf]; rfl
  rw [prot_t0_iteration_header osim uninit s cla ins p1 p2 p3 _ hcla hins hp1 hp2 hp3 hb5 hrx,
    hcase, prot_t0_command_case2, Outcome.bind_done]
  have hi : atr_byte ([cla, ins, p1, p2, p3] ++ s.buf.drop 5) 1 = Outcome.done ins := rfl
  simp only []
  rw [hi, Outcome.bind_done, if_neg hmiss]
  refine (prot_t0_forward_frame uninit _ 5 ins
    { s with
      u := ⟨RxEvent.idle :: RxEvent.byte e :: RxEvent.idle :: (echo.map RxEvent.byte ++ rest),
            s.u.tx, s.u.baud⟩,
      buf := [cla, ins, p1, p2, p3] ++ s.buf.drop 5 }
    OP_APDU R hin (by decide) (by decide) (by decide)
    (by decide) (by decide) hnew (by rw [hnl]; decide) hR
    (by rw [hnl, APDU_BUFFER_LEN]; omega) (by omega) hhost).trans ?_
  exact prot_t0_respond_exact _ ins _ R (([cla, ins, p1, p2, p3] ++ s.buf.drop 5).drop R.length)
    echo e rest hins hR (by rw [hlen]; split <;> omega)
    (by
      rw [hlen]
      by_cases h0 : p3 = 0
      · simp [h0]
      · simp only [h0, if_false]
        push_cast
        omega)
    rfl hecho rfl

theorem C23_case2_expected_length_witness :
    prot_t0_iteration (fun _ => 2) ⟨0, 0, 0, 0, 0, 0, 0, List.replicate 34 0, false⟩
        ⟨⟨[0x00, 0xB0, 0x00, 0x00, 0x08].map RxEvent.byte ++
            RxEvent.idle :: RxEvent.byte 0xB0 :: RxEvent.idle ::
              ([1, 2, 3, 4, 5, 6, 7, 8, 0x90, 0x00].map RxEvent.byte ++ []), [], 9600⟩,
          ⟨OP_APDU :: (u32_bytes 10 ++ ([1, 2, 3, 4, 5, 6, 7, 8, 0x90, 0x00] ++ [])), [], [], [],
            [], 1, 1, 4764000, 2⟩,
          List.replicate 1024 0, List.replicate 1024 0, 0⟩ =
      Outcome.done
        { u := ⟨[], [] ++ 0xB0 :: [1, 2, 3, 4, 5, 6, 7, 8, 0x90, 0x00], 9600⟩,
          h := ⟨[], [] ++ OP_APDU :: (u32_bytes 5 ++ [0x00, 0xB0, 0x00, 0x00, 0x08]), [], [], [], 1,
            1, 4764000, 2⟩,
          buf := [1, 2, 3, 4, 5, 6, 7, 8, 0x90, 0x00] ++
            ([0x00, 0xB0, 0x00, 0x00, 0x08] ++ (List.replicate 1024 0).drop 5).drop 10,
          response_cache := List.replicate 1024 0,
          len_response_cache := 0 } :=
  C23_case2_expected_length (fun _ => 2) ⟨0, 0, 0, 0, 0, 0, 0, List.replicate 34 0, false⟩
    ⟨⟨[0x00, 0xB0, 0x00, 0x00, 0x08].map RxEvent.byte ++
        RxEvent.idle :: RxEvent.byte 0xB0 :: RxEvent.idle ::
          ([1, 2, 3, 4, 5, 6, 7, 8, 0x90, 0x00].map RxEvent.byte ++ []), [], 9600⟩,
      ⟨OP_APDU :: (u32_bytes 10 ++ ([1, 2, 3, 4, 5, 6, 7, 8, 0x90, 0x00] ++ [])), [], [], [],
        [], 1, 1, 4764000, 2⟩,
      List.replicate 1024 0, List.replicate 1024 0, 0⟩
    0x00 0xB0 0x00 0x00 0x08 0xB0 [1, 2, 3, 4, 5, 6, 7, 8, 0x90, 0x00]
    [1, 2, 3, 4, 5, 6, 7, 8, 0x90, 0x00] [] []
    (by decide) (by decide) (by decide) (by decide) (by decide)
    (List.length_replicate _ _) (replicate_bytes 1024 0 (by decide)) rfl (by decide)
    (by decide) rfl rfl rfl rfl

/-- C24: whatever the command case (any expected length, command length and
procedure byte), when the host answers the forwarded command with a response of
exactly two bytes the device writes those two bytes to the reader, nothing in
front of them, and the cache is empty afterwards. -/
theorem C24_two_byte_response (uninit : answer_to_reset) (le : Int) (apdu_len proc_byte : Nat)
    (s : prot_t0_state) (sw1 sw2 e1 e2 : Nat) (hin : List Nat) (rest : List RxEvent)
    (hsw1 : sw1 < 256) (hsw2 : sw2 < 256) (hbytes : ∀ b ∈ s.buf, b < 256)
    (hlen : apdu_len ≤ s.buf.length) (h2 : 2 ≤ s.buf.length)
    (hrx : s.u.rx = RxEvent.idle :: RxEvent.byte e1 :: RxEvent.byte e2 :: rest)
    (hhost : s.h.inp = OP_APDU :: (u32_bytes 2 ++ ([sw1, sw2] ++ hin))) :
    prot_t0_forward uninit le apdu_len proc_byte s =
      Outcome.done
        { u := ⟨rest, s.u.tx ++ [sw1, sw2], s.u.baud⟩,
          h := { s.h with
                 inp := hin,
                 out := s.h.out ++ OP_APDU :: (u32_bytes apdu_len ++ s.buf.take apdu_len) },
          buf := [sw1, sw2] ++ s.buf.drop 2,
          response_cache := s.response_cache,
          len_response_cache := 0 } := by
  refine (prot_t0_forward_frame uninit le apdu_len proc_byte s OP_APDU [sw1, sw2] hin (by decide)
    (by decide) (by decide) (by decide) (by decide) hbytes hlen
    (by
      intro b hb
      simp only [List.mem_cons, List.mem_singleton, List.not_mem_nil, or_false] at hb
      rcases hb with h | h <;> rw [h] <;> assumption)
    h2 (by simp) hhost).trans ?_
  exact prot_t0_respond_sw le proc_byte _ sw1 sw2 e1 e2 (s.buf.drop 2) rest hsw1 hsw2 rfl hrx

theorem C24_two_byte_response_witness :
    prot_t0_forward ⟨0, 0, 0, 0, 0, 0, 0, List.replicate 34 0, false⟩ 2 7 0xA4
        ⟨⟨[RxEvent.idle, RxEvent.byte 0x61, RxEvent.byte 0x1C], [0xA4], 9600⟩,
          ⟨OP_APDU :: (u32_bytes 2 ++ ([0x61, 0x1C] ++ [])), [], [], [], [], 1, 1, 4764000, 2⟩,
          List.replicate 1024 0, List.replicate 1024 0, 0⟩ =
      Outcome.done
        { u := ⟨[], [0xA4] ++ [0x61, 0x1C], 9600⟩,
          h := ⟨[], [] ++ OP_APDU :: (u32_bytes 7 ++ (List.replicate 1024 0).take 7),
                [], [], [], 1, 1, 4764000, 2⟩,
          buf := [0x61, 0x1C] ++ (List.replicate 1024 0).drop 2,
          response_cache := List.replicate 1024 0,
          len_response_cache := 0 } :=
  C24_two_byte_response ⟨0, 0, 0, 0, 0, 0, 0, List.replicate 34 0, false⟩ 2 7 0xA4
    ⟨⟨[RxEvent.idle, RxEvent.byte 0x61, RxEvent.byte 0x1C], [0xA4], 9600⟩,
      ⟨OP_APDU :: (u32_bytes 2 ++ ([0x61, 0x1C] ++ [])), [], [], [], [], 1, 1, 4764000, 2⟩,
      List.replicate 1024 0, List.replicate 1024 0, 0⟩
    0x61 0x1C 0x61 0x1C [] [] (by decide) (by decide) (replicate_bytes 1024 0 (by decide))
    (by rw [List.length_replicate]; decide) (by rw [List.length_replicate]; decide) rfl rfl

/-- C25, amended: when the host answers the forwarded command with a response
whose length n is neither 2 nor the expected length, the device writes exactly
two bytes to the reader: SW1, 0x61 when the response is longer than expected
and 0x6C when it is shorter, and SW2, n - 2 modulo 256; the bytes of the
response are copied to the start of the cache, and for n below 256 the cache
length is n. -/
theorem C25_other_length_amended (uninit : answer_to_reset) (le : Int)
    (apdu_len proc_byte : Nat) (s : prot_t0_state) (R hin : List Nat) (e1 e2 : Nat)
    (rest : List RxEvent) (hle : 0 ≤ le ∧ le < 2 ^ 32)
    (hbuf : s.buf.length = APDU_BUFFER_LEN) (hbytes : ∀ b ∈ s.buf, b < 256)
    (hcache : s.response_cache.length = APDU_BUFFER_LEN) (hlen : apdu_len ≤ s.buf.length)
    (hR : ∀ b ∈ R, b < 256) (hRlen : R.length ≤ APDU_BUFFER_LEN)
    (hne2 : R.length ≠ 2) (hnele : (R.length : Int) ≠ le)
    (hrx : s.u.rx = RxEvent.idle :: RxEvent.byte e1 :: RxEvent.byte e2 :: rest)
    (hhost : s.h.inp = OP_APDU :: (u32_bytes R.length ++ (R ++ hin))) :
    ∃ s1, prot_t0_forward uninit le apdu_len proc_byte s = Outcome.done s1 ∧
      s1.u.tx = s.u.tx ++ [if (R.length : Int) > le then 0x61 else 0x6C, (R.length + 254) % 256] ∧
      s1.response_cache.take R.length = R ∧
      (R.length < 256 → s1.len_response_cache = R.length) := by
  have hmod : le % 2 ^ 32 = le := Int.emod_eq_of_lt hle.1 hle.2
  have hRA : R.length ≤ 1024 := hRlen
  have hsw2 : (R.length + 2 ^ 32 - 2) % 2 ^ 32 % 256 = (R.length + 254) % 256 := by omega
  refine ⟨_, (prot_t0_forward_frame uninit le apdu_len proc_byte s OP_APDU R hin (by decide)
    (by decide) (by decide) (by decide) (by decide) hbytes hlen hR (by rw [hbuf]; exact hRlen)
    (by omega) hhost).trans
    (prot_t0_respond_other le proc_byte _ R (s.buf.drop R.length) e1 e2 rest hne2
      (by rw [hmod]; exact hnele) rfl
      (by simp only [List.length_append, List.length_drop, hbuf, APDU_BUFFER_LEN]; omega)
      (by rw [hcache]; exact hRlen) hrx), ?_, ?_, ?_⟩
  · simp only [hmod, hsw2]
  · simp
  · intro h
    exact Nat.mod_eq_of_lt h

set_option maxRecDepth 1000000 in
theorem C25_other_length_amended_witness :
    ∃ s1, prot_t0_forward ⟨0, 0, 0, 0, 0, 0, 0, List.replicate 34 0, false⟩ 2 7 0xA4
        ⟨⟨[RxEvent.idle, RxEvent.byte 0x61, RxEvent.byte 0x1C], [0xA4], 9600⟩,
          ⟨OP_APDU :: (u32_bytes (List.replicate 30 0xAA).length ++ (List.replicate 30 0xAA ++ [])),
            [], [], [], [], 1, 1, 4764000, 2⟩,
          List.replicate 1024 0, List.replicate 1024 0, 0⟩ = Outcome.done s1 ∧
      s1.u.tx = [0xA4] ++ [if ((List.replicate 30 0xAA).length : Int) > 2 then 0x61 else 0x6C,
        ((List.replicate 30 0xAA).length + 254) % 256] ∧
      s1.response_cache.take (List.replicate 30 0xAA).length = List.replicate 30 0xAA ∧
      ((List.replicate 30 0xAA).length < 256 →
        s1.len_response_cache = (List.replicate 30 0xAA).length) :=
  C25_other_length_amended ⟨0, 0, 0, 0, 0, 0, 0, List.replicate 34 0, false⟩ 2 7 0xA4
    ⟨⟨[RxEvent.idle, RxEvent.byte 0x61, RxEvent.byte 0x1C], [0xA4], 9600⟩,
      ⟨OP_APDU :: (u32_bytes (List.replicate 30 0xAA).length ++ (List.replicate 30 0xAA ++ [])),
        [], [], [], [], 1, 1, 4764000, 2⟩,
      List.replicate 1024 0, List.replicate 1024 0, 0⟩
    (List.replicate 30 0xAA) [] 0x61 0x1C [] (by decide) (List.length_replicate _ _)
    (replicate_bytes 1024 0 (by decide)) (List.length_replicate _ _) (by simp)
    (replicate_bytes 30 0xAA (by decide)) (by simp [APDU_BUFFER_LEN]) (by simp) (by simp) rfl rfl

set_option maxRecDepth 1000000 in
/-- C25, counterexample: a response of 300 bytes to a command that expects 2.
The device writes 61 2A, so SW2 is 42 and not 298, and the cache length is 44:
of the 300 bytes only 44 count as cached. -/
theorem C25_long_response_wraps :
    (prot_t0_forward ⟨0, 0, 0, 0, 0, 0, 0, List.replicate 34 0, false⟩ 2 5 0xB0
        ⟨⟨[RxEvent.idle, RxEvent.byte 0x61, RxEvent.byte 0x2A], [], 9600⟩,
          ⟨OP_APDU :: (u32_bytes 300 ++ List.replicate 300 0xAA), [], [], [], [], 1, 1, 4764000,
            2⟩,
          List.replicate 1024 0, List.replicate 1024 0, 0⟩).bind
      (fun s1 => Outcome.done (s1.u.tx, s1.len_response_cache)) =
      Outcome.done ([0x61, 0x2A], 44) ∧ (300 : Int) - 2 ≠ 0x2A := by
  decide

/-! ## C26, C28: GET RESPONSE served from the cache -/

/-- The command phase for a command with data: the procedure byte goes out and
the data bytes are read behind the header. -/
theorem prot_t0_command_data (apdu_case p3 proc_byte e : Nat) (data : List Nat)
    (rest : List RxEvent) (tx : List Nat) (baud : Nat) (buf : List Nat)
    (hcase : apdu_case = 3 ∨ apdu_case = 4) (hp3 : 0 < p3) (hp3b : p3 < 256)
    (hproc : proc_byte < 256) (hdata : ∀ b ∈ data, b < 256) (hlen : data.length = p3)
    (hbuf : 5 + p3 ≤ buf.length) :
    prot_t0_command apdu_case p3 proc_byte 5
        ⟨RxEvent.idle :: RxEvent.byte e :: (data.map RxEvent.byte ++ rest), tx, baud⟩ buf =
      Outcome.done (2, 5 + p3, ⟨rest, tx ++ [proc_byte], baud⟩,
        buf.take 5 ++ data ++ buf.drop (5 + p3)) := by
  have hw := sc_write_echo [proc_byte] [e] (data.map RxEvent.byte ++ rest) tx baud
    (by simpa using hproc) rfl
  simp only [List.map_cons, List.map_nil, List.cons_append, List.nil_append] at hw
  have hr := sc_read_bytes data rest (tx ++ [proc_byte]) baud buf 5 hdata (by omega)
  rw [prot_t0_command, if_neg (by omega), if_neg (by omega), if_pos hcase, if_pos hp3, hw,
    Outcome.bind_done]
  simp only [HEADER_LEN]
  rw [← hlen, hr, Outcome.bind_done, hlen]
  simp only [SW_LEN]
  rw [Nat.mod_eq_of_lt (by omega)]
  rfl

set_option maxRecDepth 1000000 in
/-- C26, the code at the failing input: the host answers SELECT 00 A4 00 00 02
3F 00 with 258 bytes (256 bytes AA and 90 00), which the device caches, writing
61 00 to the reader.  The cache length, a `uint8_t`, is then 2, and for the
following GET RESPONSE 00 C0 00 00 00 the device writes C0 and only the first
two bytes of the response. -/
theorem C26_cached_length_wraps :
    (prot_t0_loop (fun b => if b.getD 1 0 = 0xA4 then 4 else 2)
        ⟨0, 0, 0, 0, 0, 0, 0, List.replicate 34 0, false⟩ 2
        ⟨⟨[0x00, 0xA4, 0x00, 0x00, 0x02].map RxEvent.byte ++
            [RxEvent.idle, RxEvent.byte 0xA4, RxEvent.byte 0x3F, RxEvent.byte 0x00,
              RxEvent.idle, RxEvent.byte 0x61, RxEvent.byte 0x00] ++
            [0x00, 0xC0, 0x00, 0x00, 0x00].map RxEvent.byte ++
            [RxEvent.idle, RxEvent.byte 0xC0, RxEvent.idle, RxEvent.byte 0xAA,
              RxEvent.byte 0xAA], [], 9600⟩,
          ⟨OP_APDU :: (u32_bytes 258 ++ (List.replicate 256 0xAA ++ [0x90, 0x00])), [], [], [],
            [], 1, 1, 4764000, 2⟩,
          List.replicate 1024 0, List.replicate 1024 0, 0⟩).bind
      (fun s => Outcome.done (s.u.tx, s.h.out, s.len_response_cache)) =
      Outcome.done ([0xA4, 0x61, 0x00, 0xC0, 0xAA, 0xAA],
        [0x00, 0x07, 0x00, 0x00, 0x00, 0x00, 0xA4, 0x00, 0x00, 0x02, 0x3F, 0x00], 2) := by
  decide

set_option maxRecDepth 1000000 in
/-- C28, counterexample: the reader sends 00 A4 00 00 02 3F 00 and the host
answers with the two bytes 61 1C.  The device writes 61 1C and caches nothing,
so the following 00 C0 00 00 1C is not served from a cache: it is forwarded to
the host as a second APDU frame, and the host's answer (here 6F 00) is written
to the reader. -/
theorem C28_two_byte_answer_is_not_cached :
    (prot_t0_loop (fun b => if b.getD 1 0 = 0xA4 then 4 else 2)
        ⟨0, 0, 0, 0, 0, 0, 0, List.replicate 34 0, false⟩ 2
        ⟨⟨[0x00, 0xA4, 0x00, 0x00, 0x02].map RxEvent.byte ++
            [RxEvent.idle, RxEvent.byte 0xA4, RxEvent.byte 0x3F, RxEvent.byte 0x00,
              RxEvent.idle, RxEvent.byte 0x61, RxEvent.byte 0x1C] ++
            [0x00, 0xC0, 0x00, 0x00, 0x1C].map RxEvent.byte ++
            [RxEvent.idle, RxEvent.byte 0x6F, RxEvent.byte 0x00], [], 9600⟩,
          ⟨OP_APDU :: (u32_bytes 2 ++ [0x61, 0x1C]) ++ OP_APDU :: (u32_bytes 2 ++ [0x6F, 0x00]),
            [], [], [], [], 1, 1, 4764000, 2⟩,
          List.replicate 1024 0, List.replicate 1024 0, 0⟩).bind
      (fun s => Outcome.done (s.u.tx, s.h.out, s.len_response_cache)) =
      Outcome.done ([0xA4, 0x61, 0x1C, 0x6F, 0x00],
        [0x00, 0x07, 0x00, 0x00, 0x00, 0x00, 0xA4, 0x00, 0x00, 0x02, 0x3F, 0x00,
         0x00, 0x05, 0x00, 0x00, 0x00, 0x00, 0xC0, 0x00, 0x00, 0x1C], 0) := by
  decide

/-- A GET RESPONSE (INS 0xC0, without data phase) that finds a cached response:
the device writes the procedure byte and the cached bytes, and the host side is
left as it was. -/
theorem prot_t0_iteration_hit (osim : List Nat → Nat) (uninit : answer_to_reset)
    (s : prot_t0_state) (cla p1 p2 p3 e : Nat) (echo : List Nat) (rest : List RxEvent)
    (hcla : cla < 256) (hp1 : p1 < 256) (hp2 : p2 < 256) (hp3 : p3 < 256)
    (hlen : 5 ≤ s.buf.length)
    (hcase : osim ([cla, 0xC0, p1, p2, p3] ++ s.buf.drop 5) % 256 = 2)
    (hhit : s.len_response_cache > 0)
    (hcache : ∀ b ∈ s.response_cache.take s.len_response_cache, b < 256)
    (hecho : echo.length = (s.response_cache.take s.len_response_cache).length)
    (hrx : s.u.rx = [cla, 0xC0, p1, p2, p3].map RxEvent.byte ++
      RxEvent.idle :: RxEvent.byte e :: RxEvent.idle :: (echo.map RxEvent.byte ++ rest)) :
    prot_t0_iteration osim uninit s =
      Outcome.done
        { s with
          u := ⟨rest, s.u.tx ++ 0xC0 :: s.response_cache.take s.len_response_cache, s.u.baud⟩,
          buf := [cla, 0xC0, p1, p2, p3] ++ s.buf.drop 5 } := by
  have hw1 := sc_write_echo [0xC0] [e]
    (RxEvent.idle :: (echo.map RxEvent.byte ++ rest)) s.u.tx s.u.baud (by decide) rfl
  have hw2 := sc_write_echo (s.response_cache.take s.len_response_cache) echo rest
    (s.u.tx ++ [0xC0]) s.u.baud hcache hecho
  simp only [List.map_cons, List.map_nil, List.cons_append, List.nil_append] at hw1
  rw [prot_t0_iteration_header osim uninit s cla 0xC0 p1 p2 p3 _ hcla (by decide) hp1 hp2 hp3
    hlen hrx, hcase, prot_t0_command_case2, Outcome.bind_done]
  have hi : atr_byte ([cla, 0xC0, p1, p2, p3] ++ s.buf.drop 5) 1 = Outcome.done 0xC0 := rfl
  simp only []
  rw [hi, Outcome.bind_done, if_pos ⟨hhit, rfl⟩, hw1, Outcome.bind_done]
  simp only []
  rw [hw2, Outcome.bind_done]
  simp only [List.append_assoc, List.singleton_append]

/-- C28, amended: after the reader sends 00 A4 00 00 02 3F 00 (a command with
data) and the host answers with a response R of 30 bytes (28 data bytes and the
two status bytes), the device writes 61 1C to the reader and keeps R in the
cache; the following command 00 C0 00 00 1C is served from the cache, C0
followed by the 30 bytes of R, and the only frame sent to the host is the APDU
frame of the first command. -/
theorem C28_get_response_from_cache_amended (osim : List Nat → Nat) (uninit : answer_to_reset)
    (s : prot_t0_state) (R echo hin : List Nat) (e0 e1 e2 e3 : Nat) (rest : List RxEvent)
    (hbuf : s.buf.length = APDU_BUFFER_LEN) (hbytes : ∀ b ∈ s.buf, b < 256)
    (hcache : s.response_cache.length = APDU_BUFFER_LEN)
    (hselect : ∀ b, b.take 5 = [0x00, 0xA4, 0x00, 0x00, 0x02] → osim b % 256 = 4)
    (hget : ∀ b, b.take 5 = [0x00, 0xC0, 0x00, 0x00, 0x1C] → osim b % 256 = 2)
    (hR : ∀ b ∈ R, b < 256) (hRlen : R.length = 30) (hecho : echo.length = 30)
    (hrx : s.u.rx = [0x00, 0xA4, 0x00, 0x00, 0x02].map RxEvent.byte ++
      RxEvent.idle :: RxEvent.byte e0 :: ([0x3F, 0x00].map RxEvent.byte ++
      RxEvent.idle :: RxEvent.byte e1 :: RxEvent.byte e2 ::
      ([0x00, 0xC0, 0x00, 0x00, 0x1C].map RxEvent.byte ++
      RxEvent.idle :: RxEvent.byte e3 :: RxEvent.idle :: (echo.map RxEvent.byte ++ rest))))
    (hhost : s.h.inp = OP_APDU :: (u32_bytes R.length ++ (R ++ hin))) :
    ∃ s2, prot_t0_loop osim uninit 2 s = Outcome.done s2 ∧
      s2.u.tx = s.u.tx ++ [0xA4] ++ [0x61, 0x1C] ++ 0xC0 :: R ∧
      s2.h.out = s.h.out ++ OP_APDU :: (u32_bytes 7 ++ [0x00, 0xA4, 0x00, 0x00, 0x02, 0x3F, 0x00]) ∧
      s2.h.inp = hin := by
  have hb5 : 5 ≤ s.buf.length := by rw [hbuf]; decide
  have hA : s.buf.length = 1024 := hbuf
  have hC : s.response_cache.length = 1024 := hcache
  -- first pass: the command with data
  have hcmd := prot_t0_command_data
    (osim ([0x00, 0xA4, 0x00, 0x00, 0x02] ++ s.buf.drop 5) % 256) 0x02 0xA4 e0 [0x3F, 0x00]
    (RxEvent.idle :: RxEvent.byte e1 :: RxEvent.byte e2 ::
      ([0x00, 0xC0, 0x00, 0x00, 0x1C].map RxEvent.byte ++
      RxEvent.idle :: RxEvent.byte e3 :: RxEvent.idle :: (echo.map RxEvent.byte ++ rest)))
    s.u.tx s.u.baud ([0x00, 0xA4, 0x00, 0x00, 0x02] ++ s.buf.drop 5)
    (Or.inr (hselect _ (by simp))) (by decide) (by decide) (by decide) (by decide) rfl
    (by simp only [List.length_append, List.length_drop, List.length_cons, List.length_nil]
        omega)
  have hbuf1 : [0x00, 0xA4, 0x00, 0x00, 0x02, 0x3F, 0x00] ++ s.buf.drop 7 =
      ([0x00, 0xA4, 0x00, 0x00, 0x02] ++ s.buf.drop 5).take 5 ++ [0x3F, 0x00] ++
        ([0x00, 0xA4, 0x00, 0x00, 0x02] ++ s.buf.drop 5).drop (5 + 2) := by
    simp
  rw [← hbuf1] at hcmd
  have hb1 : ∀ b ∈ [0x00, 0xA4, 0x00, 0x00, 0x02, 0x3F, 0x00] ++ s.buf.drop 7, b < 256 := by
    intro b hb
    rcases List.mem_append.mp hb with h | h
    · simp only [List.mem_cons, List.mem_singleton, List.not_mem_nil, or_false] at h
      omega
    · exact hbytes b (List.mem_of_mem_drop h)
  have hl1 : ([0x00, 0xA4, 0x00, 0x00, 0x02, 0x3F, 0x00] ++ s.buf.drop 7).length = 1024 := by
    simp only [List.length_append, List.length_drop, List.length_cons, List.length_nil]
    omega
  have h1 : prot_t0_iteration osim uninit s =
      Outcome.done
        { u := ⟨[0x00, 0xC0, 0x00, 0x00, 0x1C].map RxEvent.byte ++
                  RxEvent.idle :: RxEvent.byte e3 :: RxEvent.idle ::
                    (echo.map RxEvent.byte ++ rest),
                s.u.tx ++ [0xA4] ++ [0x61, 0x1C], s.u.baud⟩,
          h := { s.h with
                 inp := hin,
                 out := s.h.out ++ OP_APDU ::
                   (u32_bytes 7 ++ [0x00, 0xA4, 0x00, 0x00, 0x02, 0x3F, 0x00]) },
          buf := ((R ++ ([0x00, 0xA4, 0x00, 0x00, 0x02, 0x3F, 0x00] ++ s.buf.drop 7).drop
                    R.length).set 0 0x61).set 1 0x1C,
          response_cache := R ++ s.response_cache.drop R.length,
          len_response_cache := 30 } := by
    rw [prot_t0_iteration_header osim uninit s 0x00 0xA4 0x00 0x00 0x02 _ (by decide)
      (by decide) (by decide) (by decide) (by decide) hb5 hrx, hcmd, Outcome.bind_done]
    have hi : atr_byte ([0x00, 0xA4, 0x00, 0x00, 0x02, 0x3F, 0x00] ++ s.buf.drop 7) 1 =
        Outcome.done 0xA4 := rfl
    simp only []
    rw [hi, Outcome.bind_done, if_neg (fun h => absurd h.2 (by decide))]
    refine (prot_t0_forward_frame uninit 2 (5 + 2) 0xA4
      { s with
        u := ⟨RxEvent.idle :: RxEvent.byte e1 :: RxEvent.byte e2 ::
                ([0x00, 0xC0, 0x00, 0x00, 0x1C].map RxEvent.byte ++
                  RxEvent.idle :: RxEvent.byte e3 :: RxEvent.idle ::
                    (echo.map RxEvent.byte ++ rest)), s.u.tx ++ [0xA4], s.u.baud⟩,
        buf := [0x00, 0xA4, 0x00, 0x00, 0x02, 0x3F, 0x00] ++ s.buf.drop 7 }
      OP_APDU R hin (by decide) (by decide) (by decide) (by decide) (by decide) hb1
      (by rw [hl1]; decide) hR (by rw [hl1, hRlen]; decide) (by rw [hRlen]; decide)
      hhost).trans ?_
    refine (prot_t0_respond_other 2 0xA4 _ R
      (([0x00, 0xA4, 0x00, 0x00, 0x02, 0x3F, 0x00] ++ s.buf.drop 7).drop R.length) e1 e2 _
      (by rw [hRlen]; decide) (by rw [hRlen]; decide) rfl
      (by simp only [List.length_append, List.length_drop, hl1]; omega)
      (by simp only [hC, hRlen]; decide) rfl).trans ?_
    simp [hRlen]
  -- second pass: GET RESPONSE
  have htake : (R ++ s.response_cache.drop R.length).take 30 = R := by
    rw [← hRlen]; simp
  have h2 := prot_t0_iteration_hit osim uninit
    { u := ⟨[0x00, 0xC0, 0x00, 0x00, 0x1C].map RxEvent.byte ++
              RxEvent.idle :: RxEvent.byte e3 :: RxEvent.idle ::
                (echo.map RxEvent.byte ++ rest),
            s.u.tx ++ [0xA4] ++ [0x61, 0x1C], s.u.baud⟩,
      h := { s.h with
             inp := hin,
             out := s.h.out ++ OP_APDU ::
               (u32_bytes 7 ++ [0x00, 0xA4, 0x00, 0x00, 0x02, 0x3F, 0x00]) },
      buf := ((R ++ ([0x00, 0xA4, 0x00, 0x00, 0x02, 0x3F, 0x00] ++ s.buf.drop 7).drop
                R.length).set 0 0x61).set 1 0x1C,
      response_cache := R ++ s.response_cache.drop R.length,
      len_response_cache := 30 }
    0x00 0x00 0x00 0x1C e3 echo rest (by decide) (by decide) (by decide) (by decide)
    (by simp only [List.length_set, List.length_append, List.length_drop, hl1]; omega)
    (hget _ (by simp)) (show 30 > 0 by decide)
    (by
      show ∀ b ∈ (R ++ s.response_cache.drop R.length).take 30, b < 256
      rw [htake]
      exact hR)
    (by
      show echo.length = ((R ++ s.response_cache.drop R.length).take 30).length
      rw [htake, hecho, hRlen]) rfl
  have l1 : prot_t0_loop osim uninit 2 s =
      (prot_t0_iteration osim uninit s).bind (prot_t0_loop osim uninit 1) := rfl
  have l2 := l1.trans (congrArg (fun x => Outcome.bind x (prot_t0_loop osim uninit 1)) h1)
  have l3 := l2.trans (congrArg (fun x => Outcome.bind x (prot_t0_loop osim uninit 0)) h2)
  refine ⟨_, l3, ?_, ?_, ?_⟩
  · show s.u.tx ++ [0xA4] ++ [0x61, 0x1C] ++
        0xC0 :: (R ++ s.response_cache.drop R.length).take 30 = _
    rw [htake]
  · rfl
  · rfl

theorem C28_get_response_from_cache_amended_witness :
    ∃ s2, prot_t0_loop (fun b => if b.take 5 = [0x00, 0xA4, 0x00, 0x00, 0x02] then 4 else 2)
        ⟨0, 0, 0, 0, 0, 0, 0, List.replicate 34 0, false⟩ 2
        ⟨⟨[0x00, 0xA4, 0x00, 0x00, 0x02].map RxEvent.byte ++
            RxEvent.idle :: RxEvent.byte 0xA4 :: ([0x3F, 0x00].map RxEvent.byte ++
            RxEvent.idle :: RxEvent.byte 0x61 :: RxEvent.byte 0x1C ::
            ([0x00, 0xC0, 0x00, 0x00, 0x1C].map RxEvent.byte ++
            RxEvent.idle :: RxEvent.byte 0xC0 :: RxEvent.idle ::
              ((List.replicate 30 0xAA).map RxEvent.byte ++ []))), [], 9600⟩,
          ⟨OP_APDU :: (u32_bytes (List.replicate 30 0xAA).length ++ (List.replicate 30 0xAA ++ [])),
            [], [], [], [], 1, 1, 4764000, 2⟩,
          List.replicate 1024 0, List.replicate 1024 0, 0⟩ = Outcome.done s2 ∧
      s2.u.tx = [] ++ [0xA4] ++ [0x61, 0x1C] ++ 0xC0 :: List.replicate 30 0xAA ∧
      s2.h.out = [] ++ OP_APDU :: (u32_bytes 7 ++ [0x00, 0xA4, 0x00, 0x00, 0x02, 0x3F, 0x00]) ∧
      s2.h.inp = [] :=
  C28_get_response_from_cache_amended
    (fun b => if b.take 5 = [0x00, 0xA4, 0x00, 0x00, 0x02] then 4 else 2)
    ⟨0, 0, 0, 0, 0, 0, 0, List.replicate 34 0, false⟩
    ⟨⟨[0x00, 0xA4, 0x00, 0x00, 0x02].map RxEvent.byte ++
        RxEvent.idle :: RxEvent.byte 0xA4 :: ([0x3F, 0x00].map RxEvent.byte ++
        RxEvent.idle :: RxEvent.byte 0x61 :: RxEvent.byte 0x1C ::
        ([0x00, 0xC0, 0x00, 0x00, 0x1C].map RxEvent.byte ++
        RxEvent.idle :: RxEvent.byte 0xC0 :: RxEvent.idle ::
          ((List.replicate 30 0xAA).map RxEvent.byte ++ []))), [], 9600⟩,
      ⟨OP_APDU :: (u32_bytes (List.replicate 30 0xAA).length ++ (List.replicate 30 0xAA ++ [])),
        [], [], [], [], 1, 1, 4764000, 2⟩,
      List.replicate 1024 0, List.replicate 1024 0, 0⟩
    (List.replicate 30 0xAA) (List.replicate 30 0xAA) [] 0xA4 0x61 0x1C 0xC0 []
    (List.length_replicate _ _) (replicate_bytes 1024 0 (by decide)) (List.length_replicate _ _)
    (fun b hb => by simp [hb]) (fun b hb => by simp [hb])
    (replicate_bytes 30 0xAA (by decide)) (List.length_replicate _ _)
    (List.length_replicate _ _) rfl rfl

/-! ## C29, C30: frames on the host pipe -/

/-- C29: `write_usb_uart (opcode, data, len)` appends exactly 5 + len bytes to
the host pipe: the opcode, the four bytes of `len` with the least significant
byte first, and the first `len` bytes of `data`; for `len` = 0 these are the
five header bytes alone. -/
theorem C29_write_usb_uart_frame (h : Host) (opcode : Nat) (data : List Nat) (len : Nat)
    (hop : opcode < 256) (hlen : len ≤ data.length) (h32 : len < 2 ^ 32)
    (hdata : ∀ b ∈ data, b < 256) :
    ∃ h1, write_usb_uart h opcode data len = Outcome.done h1 ∧
      h1.out = h.out ++ opcode :: (u32_bytes len ++ data.take len) ∧
      h1.out.length = h.out.length + (5 + len) ∧
      u32_bytes len = [len % 256, len / 256 % 256, len / 65536 % 256, len / 16777216] ∧
      (len = 0 → h1.out = h.out ++ [opcode, 0, 0, 0, 0]) ∧ h1.inp = h.inp := by
  refine ⟨_, write_usb_uart_spec h opcode data len hop hlen hdata, rfl, ?_, ?_, ?_, rfl⟩
  · simp only [List.length_append, List.length_cons, u32_bytes_length, List.length_take]
    omega
  · simp only [u32_bytes, List.cons.injEq, and_true, true_and]
    omega
  · intro h0
    subst h0
    rfl

theorem C29_write_usb_uart_frame_witness :
    ∃ h1, write_usb_uart ⟨[], [], [], [], [], 1, 1, 4764000, 2⟩ OP_APDU
        [0x00, 0xB0, 0x00, 0x00, 0x08] 5 = Outcome.done h1 ∧
      h1.out = [] ++ OP_APDU :: (u32_bytes 5 ++ [0x00, 0xB0, 0x00, 0x00, 0x08].take 5) ∧
      h1.out.length = ([] : List Nat).length + (5 + 5) ∧
      u32_bytes 5 = [5 % 256, 5 / 256 % 256, 5 / 65536 % 256, 5 / 16777216] ∧
      (5 = 0 → h1.out = [] ++ [OP_APDU, 0, 0, 0, 0]) ∧ h1.inp = [] :=
  C29_write_usb_uart_frame ⟨[], [], [], [], [], 1, 1, 4764000, 2⟩ OP_APDU
    [0x00, 0xB0, 0x00, 0x00, 0x08] 5 (by decide) (by decide) (by decide) (by decide)

set_option maxRecDepth 100000 in
/-- C30, the code at the failing input: the host sends a frame with opcode 0x01
(RESET) and no payload, then the APDU frame 00 02 00 00 00 90 00.
`read_usb_uart_apdu` returns on the first frame, with length 0 and the buffer as
it was, and leaves the APDU frame in the pipe. -/
theorem C30_returns_on_other_opcode :
    read_usb_uart_apdu ⟨0, 0, 0, 0, 0, 0, 0, List.replicate 34 0, false⟩
        ⟨[OP_RESET, 0, 0, 0, 0, OP_APDU, 2, 0, 0, 0, 0x90, 0x00], [], [], [], [], 1, 1, 4764000,
          2⟩
        (List.replicate 1024 0) =
      Outcome.done (0,
        ⟨[OP_APDU, 2, 0, 0, 0, 0x90, 0x00], [], [], [], [], 1, 1, 4764000, 2⟩,
        List.replicate 1024 0) := by
  decide

/-! ## C27: the lifetime of the cached response -/

theorem Outcome.bind_congr {α β : Type} (x : Outcome α) (f g : α → Outcome β)
    (h : ∀ a, x = Outcome.done a → f a = g a) : x.bind f = x.bind g := by
  cases x with
  | done a => exact h a rfl
  | blocked => rfl
  | undefined => rfl

theorem getc_rx_some (r r1 : List RxEvent) (b : Nat) (h : getc_rx r = some (b, r1)) :
    rxBytes r = b :: rxBytes r1 := by
  induction r with
  | nil => simp [getc_rx] at h
  | cons e r ih =>
    cases e with
    | byte x =>
      simp only [getc_rx, Option.some.injEq, Prod.mk.injEq] at h
      rw [rxBytes, h.1, h.2]
    | idle =>
      simp only [getc_rx] at h
      rw [rxBytes]
      exact ih h

theorem uart_getc_done (u : Uart) (r : Nat × Uart) (h : uart_getc u = Outcome.done r) :
    rxBytes u.rx = r.1 :: rxBytes r.2.rx := by
  unfold uart_getc at h
  split at h
  · simp at h
  · rename_i b r1 hg
    simp only [Outcome.done.injEq] at h
    rw [← h]
    exact getc_rx_some _ _ _ hg

/-- What a completed `sc_read` leaves in the buffer: the entries in front of the
place it writes to are untouched, and the entries it writes are the bytes that
arrived, in order. -/
theorem sc_read_loop_done (off len : Nat) :
    ∀ (fuel pos : Nat) (u : Uart) (buf : List Nat) (r : Nat × Uart × List Nat),
      sc_read_loop off len fuel pos u buf = Outcome.done r →
      (∀ i, i < off + pos → r.2.2[i]? = buf[i]?) ∧
      (∀ k, k < fuel → pos + k < len → r.2.2[off + pos + k]? = (rxBytes u.rx)[k]?) := by
  intro fuel
  induction fuel with
  | zero =>
    intro pos u buf r h
    simp only [sc_read_loop, Outcome.done.injEq] at h
    rw [← h]
    exact ⟨fun _ _ => rfl, fun k hk _ => absurd hk (Nat.not_lt_zero k)⟩
  | succ fuel ih =>
    intro pos u buf r h
    rw [sc_read_loop] at h
    split at h
    · obtain ⟨g, hg, h⟩ := Outcome.bind_eq_done _ _ _ h
      split at h
      · rename_i hlt hidx
        have hb := uart_getc_done u g hg
        obtain ⟨i1, i2⟩ := ih _ _ _ _ h
        constructor
        · intro i hi
          rw [i1 i (by omega), List.getElem?_set_ne (by omega)]
        · intro k hk hkl
          cases k with
          | zero =>
            rw [Nat.add_zero, i1 (off + pos) (by omega), List.getElem?_set_self hidx, hb]
            simp
          | succ k =>
            have := i2 k (by omega) (by omega)
            rw [hb, List.getElem?_cons_succ, ← this]
            congr 1
            omega
      · simp at h
    · rename_i hge
      simp only [Outcome.done.injEq] at h
      rw [← h]
      exact ⟨fun _ _ => rfl, fun k _ hkl => absurd hkl (by omega)⟩

theorem sc_read_done (u : Uart) (buf : List Nat) (off len : Nat) (r : Nat × Uart × List Nat)
    (h : sc_read u buf off len = Outcome.done r) :
    (∀ i, i < off → r.2.2[i]? = buf[i]?) ∧
    (∀ k, k < len → r.2.2[off + k]? = (rxBytes u.rx)[k]?) := by
  obtain ⟨h1, h2⟩ := sc_read_loop_done off len len 0 u buf r h
  exact ⟨fun i hi => h1 i (by omega), fun k hk => by
    have := h2 k hk (by omega)
    rwa [Nat.add_zero] at this⟩

/-- The command phase leaves the header in the buffer. -/
theorem prot_t0_command_header (apdu_case p3 proc_byte apdu_len : Nat) (u : Uart)
    (buf : List Nat) (c : Int × Nat × Uart × List Nat)
    (h : prot_t0_command apdu_case p3 proc_byte apdu_len u buf = Outcome.done c) :
    ∀ i, i < 5 → c.2.2.2[i]? = buf[i]? := by
  intro i hi
  unfold prot_t0_command at h
  split at h
  · simp only [Outcome.done.injEq] at h
    rw [← h]
  · split at h
    · simp only [Outcome.done.injEq] at h
      rw [← h]
    · split at h
      · split at h
        · obtain ⟨w, _, h⟩ := Outcome.bind_eq_done _ _ _ h
          obtain ⟨r, hr, h⟩ := Outcome.bind_eq_done _ _ _ h
          simp only [Outcome.done.injEq] at h
          rw [← h]
          exact (sc_read_done _ _ _ _ _ hr).1 i hi
        · simp only [Outcome.done.injEq] at h
          rw [← h]
      · simp only [Outcome.done.injEq] at h
        rw [← h]

/-- The answer to the reader does not depend on what the cache held. -/
theorem prot_t0_respond_visible (le : Int) (proc_byte n : Nat) (s : prot_t0_state)
    (c : List Nat) (hc : c.length = s.response_cache.length) (h0 : s.len_response_cache = 0) :
    (prot_t0_respond le proc_byte n { s with response_cache := c }).bind
        (fun r => Outcome.done r.visible) =
      (prot_t0_respond le proc_byte n s).bind (fun r => Outcome.done r.visible) := by
  unfold prot_t0_respond
  by_cases h1 : n = SW_LEN
  · rw [if_pos h1, if_pos h1, Outcome.bind_assoc, Outcome.bind_assoc]
    apply Outcome.bind_congr
    intro w _
    simp only [Outcome.bind_done, prot_t0_state.visible, h0, List.take_zero, hc]
  · rw [if_neg h1, if_neg h1]
    by_cases h2 : (n : Int) = le % 2 ^ 32
    · rw [if_pos h2, if_pos h2]
      simp only [Outcome.bind_assoc]
      apply Outcome.bind_congr
      intro w1 _
      apply Outcome.bind_congr
      intro w2 _
      simp only [Outcome.bind_done, prot_t0_state.visible, h0, List.take_zero, hc]
    · rw [if_neg h2, if_neg h2]
      simp only [hc]
      by_cases h3 : n ≤ s.buf.length ∧ n ≤ s.response_cache.length
      · rw [if_pos h3, if_pos h3]
        simp only [Outcome.bind_assoc]
        apply Outcome.bind_congr
        intro w _
        have hl : n % 256 ≤ (s.buf.take n).length := by
          rw [List.length_take, Nat.min_eq_left h3.1]
          exact Nat.mod_le _ _
        simp only [Outcome.bind_done, prot_t0_state.visible, List.take_append_of_le_length hl,
          List.length_append, List.length_drop, hc]
      · rw [if_neg h3, if_neg h3]

/-- The round trip to the host does not depend on what the cache held or on
its length field. -/
theorem prot_t0_forward_visible (uninit : answer_to_reset) (le : Int)
    (apdu_len proc_byte : Nat) (s : prot_t0_state) (c : List Nat) (m : Nat)
    (hc : c.length = s.response_cache.length) :
    (prot_t0_forward uninit le apdu_len proc_byte
        { s with response_cache := c, len_response_cache := m }).bind
        (fun r => Outcome.done r.visible) =
      (prot_t0_forward uninit le apdu_len proc_byte s).bind
        (fun r => Outcome.done r.visible) := by
  unfold prot_t0_forward
  simp only [Outcome.bind_assoc]
  apply Outcome.bind_congr
  intro h1 _
  apply Outcome.bind_congr
  intro a _
  exact prot_t0_respond_visible le proc_byte a.1
    { s with h := a.2.1, buf := a.2.2, len_response_cache := 0 } c hc rfl

/-- The INS byte that a pass tests against 0xC0 is the second byte the reader
sent. -/
theorem prot_t0_iteration_ins (s : prot_t0_state) (r : Nat × Uart × List Nat)
    (apdu_case p3 proc_byte : Nat) (c : Int × Nat × Uart × List Nat) (ins : Nat)
    (hr : sc_read s.u s.buf 0 HEADER_LEN = Outcome.done r)
    (hc : prot_t0_command apdu_case p3 proc_byte r.1 r.2.1 r.2.2 = Outcome.done c)
    (hi : atr_byte c.2.2.2 1 = Outcome.done ins) :
    (rxBytes s.u.rx)[1]? = some ins := by
  have h1 := (atr_byte_done _ _ _ hi).1
  have h2 := prot_t0_command_header _ _ _ _ _ _ _ hc 1 (by decide)
  have h3 := (sc_read_done _ _ _ _ _ hr).2 1 (by decide)
  rw [Nat.zero_add] at h3
  rw [← h3, ← h2, h1]

/-- A pass for a command other than GET RESPONSE does not depend on what the
cache held or on its length field. -/
theorem prot_t0_iteration_visible_miss (osim : List Nat → Nat) (uninit : answer_to_reset)
    (s : prot_t0_state) (c : List Nat) (m : Nat) (hc : c.length = s.response_cache.length)
    (hins : (rxBytes s.u.rx)[1]? ≠ some 0xC0) :
    (prot_t0_iteration osim uninit { s with response_cache := c, len_response_cache := m }).bind
        (fun r => Outcome.done r.visible) =
      (prot_t0_iteration osim uninit s).bind (fun r => Outcome.done r.visible) := by
  unfold prot_t0_iteration
  simp only [Outcome.bind_assoc]
  apply Outcome.bind_congr
  intro r hr
  apply Outcome.bind_congr
  intro p3 _
  apply Outcome.bind_congr
  intro proc_byte _
  apply Outcome.bind_congr
  intro cm hcm
  apply Outcome.bind_congr
  intro ins hi
  have hne : ins ≠ 0xC0 := by
    intro h
    rw [prot_t0_iteration_ins s r _ p3 proc_byte cm ins hr hcm hi, h] at hins
    exact hins rfl
  rw [if_neg (fun h => hne h.2), if_neg (fun h => hne h.2)]
  exact prot_t0_forward_visible uninit cm.1 cm.2.1 proc_byte
    { s with u := cm.2.2.1, buf := cm.2.2.2 } c m hc

/-- A pass depends on the cache only through the cached response. -/
theorem prot_t0_iteration_visible_cache (osim : List Nat → Nat) (uninit : answer_to_reset)
    (s : prot_t0_state) (c : List Nat) (hc : c.length = s.response_cache.length)
    (ht : c.take s.len_response_cache = s.response_cache.take s.len_response_cache) :
    (prot_t0_iteration osim uninit { s with response_cache := c }).bind
        (fun r => Outcome.done r.visible) =
      (prot_t0_iteration osim uninit s).bind (fun r => Outcome.done r.visible) := by
  unfold prot_t0_iteration
  simp only [Outcome.bind_assoc]
  apply Outcome.bind_congr
  intro r _
  apply Outcome.bind_congr
  intro p3 _
  apply Outcome.bind_congr
  intro proc_byte _
  apply Outcome.bind_congr
  intro cm _
  apply Outcome.bind_congr
  intro ins _
  by_cases hhit : s.len_response_cache > 0 ∧ ins = 0xC0
  · rw [if_pos hhit, if_pos hhit]
    simp only [Outcome.bind_assoc, ht]
    apply Outcome.bind_congr
    intro w1 _
    apply Outcome.bind_congr
    intro w2 _
    simp only [Outcome.bind_done, prot_t0_state.visible, ht, hc]
  · rw [if_neg hhit, if_neg hhit]
    exact prot_t0_forward_visible uninit cm.1 cm.2.1 proc_byte
      { s with u := cm.2.2.1, buf := cm.2.2.2 } c s.len_response_cache hc

theorem prot_t0_iteration_visible (osim : List Nat → Nat) (uninit : answer_to_reset)
    (s1 s2 : prot_t0_state) (h : s1.visible = s2.visible) :
    (prot_t0_iteration osim uninit s1).bind (fun r => Outcome.done r.visible) =
      (prot_t0_iteration osim uninit s2).bind (fun r => Outcome.done r.visible) := by
  obtain ⟨u1, h1, b1, c1, l1⟩ := s1
  obtain ⟨u2, h2, b2, c2, l2⟩ := s2
  simp only [prot_t0_state.visible, Prod.mk.injEq] at h
  obtain ⟨rfl, rfl, rfl, rfl, ht, hc⟩ := h
  exact prot_t0_iteration_visible_cache osim uninit ⟨u1, h1, b1, c2, l1⟩ c1 hc ht

theorem Outcome.bind_visible {α β γ : Type} (x y : Outcome α) (v : α → β) (f : α → Outcome γ)
    (h : x.bind (fun a => Outcome.done (v a)) = y.bind (fun a => Outcome.done (v a)))
    (hf : ∀ a b, v a = v b → f a = f b) : x.bind f = y.bind f := by
  cases x with
  | done a =>
    cases y with
    | done b =>
      simp only [Outcome.bind_done, Outcome.done.injEq] at h
      exact hf a b h
    | blocked => simp [Outcome.bind] at h
    | undefined => simp [Outcome.bind] at h
  | blocked =>
    cases y with
    | done b => simp [Outcome.bind] at h
    | blocked => rfl
    | undefined => simp [Outcome.bind] at h
  | undefined =>
    cases y with
    | done b => simp [Outcome.bind] at h
    | blocked => simp [Outcome.bind] at h
    | undefined => rfl

/-- Any number of passes depends on the cache only through the cached
response. -/
theorem prot_t0_loop_visible (osim : List Nat → Nat) (uninit : answer_to_reset) :
    ∀ (n : Nat) (s1 s2 : prot_t0_state), s1.visible = s2.visible →
      (prot_t0_loop osim uninit n s1).bind (fun r => Outcome.done r.visible) =
        (prot_t0_loop osim uninit n s2).bind (fun r => Outcome.done r.visible) := by
  intro n
  induction n with
  | zero =>
    intro s1 s2 h
    simp only [prot_t0_loop, Outcome.bind_done, h]
  | succ n ih =>
    intro s1 s2 h
    simp only [prot_t0_loop, Outcome.bind_assoc]
    exact Outcome.bind_visible _ _ prot_t0_state.visible _
      (prot_t0_iteration_visible osim uninit s1 s2 h) (fun a b hab => ih a b hab)

/-- C27: the T=0 loop has one cache.  A GET RESPONSE (INS 0xC0) that finds a
cached response leaves the cache, its length and the host side as they were, so
the response stays available for the next GET RESPONSE.  A command with any
other INS discards what was cached: that pass and every later pass run the same
whatever the cache held before it, so no GET RESPONSE is answered from a
response cached before the most recent other command. -/
theorem C27_cache_lifetime (osim : List Nat → Nat) (uninit : answer_to_reset)
    (s : prot_t0_state) :
    (∀ s1, s.len_response_cache > 0 → (rxBytes s.u.rx)[1]? = some 0xC0 →
        prot_t0_iteration osim uninit s = Outcome.done s1 →
        s1.response_cache = s.response_cache ∧
          s1.len_response_cache = s.len_response_cache ∧ s1.h = s.h) ∧
    (∀ (c : List Nat) (m n : Nat), c.length = s.response_cache.length →
        (rxBytes s.u.rx)[1]? ≠ some 0xC0 →
        (prot_t0_loop osim uninit (n + 1)
            { s with response_cache := c, len_response_cache := m }).bind
            (fun r => Outcome.done r.visible) =
          (prot_t0_loop osim uninit (n + 1) s).bind (fun r => Outcome.done r.visible)) := by
  constructor
  · intro s1 hhit hins h
    unfold prot_t0_iteration at h
    obtain ⟨r, hr, h⟩ := Outcome.bind_eq_done _ _ _ h
    obtain ⟨p3, _, h⟩ := Outcome.bind_eq_done _ _ _ h
    obtain ⟨proc_byte, _, h⟩ := Outcome.bind_eq_done _ _ _ h
    obtain ⟨cm, hcm, h⟩ := Outcome.bind_eq_done _ _ _ h
    obtain ⟨ins, hi, h⟩ := Outcome.bind_eq_done _ _ _ h
    have hC0 : ins = 0xC0 := by
      have := prot_t0_iteration_ins s r _ p3 proc_byte cm ins hr hcm hi
      rw [hins] at this
      exact (Option.some.inj this).symm
    rw [if_pos ⟨hhit, hC0⟩] at h
    obtain ⟨w1, _, h⟩ := Outcome.bind_eq_done _ _ _ h
    obtain ⟨w2, _, h⟩ := Outcome.bind_eq_done _ _ _ h
    simp only [Outcome.done.injEq] at h
    rw [← h]
    exact ⟨rfl, rfl, rfl⟩
  · intro c m n hc hins
    simp only [prot_t0_loop, Outcome.bind_assoc]
    exact Outcome.bind_visible _ _ prot_t0_state.visible _
      (prot_t0_iteration_visible_miss osim uninit s c m hc hins)
      (fun a b hab => prot_t0_loop_visible osim uninit n a b hab)

set_option maxRecDepth 1000000 in
theorem C27_cache_lifetime_witness :
    (prot_t0_loop (fun _ => 2) ⟨0, 0, 0, 0, 0, 0, 0, List.replicate 34 0, false⟩ (0 + 1)
        { (⟨⟨[0x00, 0xB0, 0x00, 0x00, 0x01].map RxEvent.byte ++
              [RxEvent.idle, RxEvent.byte 0xB0, RxEvent.idle, RxEvent.byte 0x07,
                RxEvent.byte 0x90, RxEvent.byte 0x00], [], 9600⟩,
            ⟨[OP_APDU, 3, 0, 0, 0, 0x07, 0x90, 0x00], [], [], [], [], 1, 1, 4764000, 2⟩,
            List.replicate 1024 0, List.replicate 1024 0, 0⟩ : prot_t0_state) with
          response_cache := List.replicate 1024 0xFF, len_response_cache := 5 }).bind
        (fun r => Outcome.done r.visible) =
      (prot_t0_loop (fun _ => 2) ⟨0, 0, 0, 0, 0, 0, 0, List.replicate 34 0, false⟩ (0 + 1)
        ⟨⟨[0x00, 0xB0, 0x00, 0x00, 0x01].map RxEvent.byte ++
            [RxEvent.idle, RxEvent.byte 0xB0, RxEvent.idle, RxEvent.byte 0x07,
              RxEvent.byte 0x90, RxEvent.byte 0x00], [], 9600⟩,
          ⟨[OP_APDU, 3, 0, 0, 0, 0x07, 0x90, 0x00], [], [], [], [], 1, 1, 4764000, 2⟩,
          List.replicate 1024 0, List.replicate 1024 0, 0⟩).bind
        (fun r => Outcome.done r.visible) ∧
    (prot_t0_loop (fun _ => 2) ⟨0, 0, 0, 0, 0, 0, 0, List.replicate 34 0, false⟩ (0 + 1)
        ⟨⟨[0x00, 0xB0, 0x00, 0x00, 0x01].map RxEvent.byte ++
            [RxEvent.idle, RxEvent.byte 0xB0, RxEvent.idle, RxEvent.byte 0x07,
              RxEvent.byte 0x90, RxEvent.byte 0x00], [], 9600⟩,
          ⟨[OP_APDU, 3, 0, 0, 0, 0x07, 0x90, 0x00], [], [], [], [], 1, 1, 4764000, 2⟩,
          List.replicate 1024 0, List.replicate 1024 0, 0⟩).isDone = true :=
  ⟨(C27_cache_lifetime (fun _ => 2) ⟨0, 0, 0, 0, 0, 0, 0, List.replicate 34 0, false⟩
    ⟨⟨[0x00, 0xB0, 0x00, 0x00, 0x01].map RxEvent.byte ++
        [RxEvent.idle, RxEvent.byte 0xB0, RxEvent.idle, RxEvent.byte 0x07,
          RxEvent.byte 0x90, RxEvent.byte 0x00], [], 9600⟩,
      ⟨[OP_APDU, 3, 0, 0, 0, 0x07, 0x90, 0x00], [], [], [], [], 1, 1, 4764000, 2⟩,
      List.replicate 1024 0, List.replicate 1024 0, 0⟩).2
    (List.replicate 1024 0xFF) 5 0 (by simp) (by decide), by decide⟩

/-! ## C31: SET_LOGLEVEL frames -/

/-- The three reads at the head of `read_usb_uart_apdu` on a complete frame. -/
theorem read_usb_uart_apdu_fuel_reads (uninit : answer_to_reset) (fuel : Nat) (h : Host)
    (data : List Nat) (opcode : Nat) (R rest : List Nat) (hop : opcode < 256)
    (h32 : R.length < 2 ^ 32)
    (hinp : h.inp = opcode :: (u32_bytes R.length ++ (R ++ rest))) :
    read_usb_uart_apdu_fuel uninit (fuel + 1) h data =
      (read_usb_uart_blocking { h with inp := R ++ rest } data R.length).bind fun r3 =>
        if opcode = OP_SENDATR then
          if R.length % 256 ≤ MAX_ATR_SIZE ∧ R.length % 256 ≤ r3.2.2.length then
            (parse_ATR { uninit with
                len := R.length % 256,
                payload := r3.2.2.take (R.length % 256) ++ uninit.payload.drop (R.length % 256),
                payload_local := false }).bind fun atr1 =>
              read_usb_uart_apdu_fuel uninit fuel
                { r3.2.1 with update_atr_queue := (queue_try_add r3.2.1.update_atr_queue atr1).2 }
                r3.2.2
          else Outcome.undefined
        else if opcode = OP_REQUEST_STATE then
          (write_usb_uart r3.2.1 OP_REQUEST_STATE [r3.2.1.current_state % 256] 1).bind fun h4 =>
            read_usb_uart_apdu_fuel uninit fuel h4 r3.2.2
        else if opcode = OP_SET_UARTMODE then
          (atr_byte r3.2.2 0).bind fun m =>
          (atr_byte r3.2.2 1).bind fun d1 =>
          (atr_byte r3.2.2 2).bind fun d2 =>
          (atr_byte r3.2.2 3).bind fun d3 =>
          (atr_byte r3.2.2 4).bind fun d4 =>
            read_usb_uart_apdu_fuel uninit fuel
              (if (queue_try_add r3.2.1.update_uartmode_queue
                    (m, toInt32 ((d1 <<< 24) ||| (d2 <<< 16) ||| (d3 <<< 8) ||| d4))).1 then
                if m = 1 then
                  { r3.2.1 with
                    update_uartmode_queue := (queue_try_add r3.2.1.update_uartmode_queue
                      (m, toInt32 ((d1 <<< 24) ||| (d2 <<< 16) ||| (d3 <<< 8) ||| d4))).2,
                    mode := 1,
                    fixed_clk :=
                      if toInt32 ((d1 <<< 24) ||| (d2 <<< 16) ||| (d3 <<< 8) ||| d4) > 0 then
                        toInt32 ((d1 <<< 24) ||| (d2 <<< 16) ||| (d3 <<< 8) ||| d4)
                      else r3.2.1.fixed_clk }
                else
                  { r3.2.1 with
                    update_uartmode_queue := (queue_try_add r3.2.1.update_uartmode_queue
                      (m, toInt32 ((d1 <<< 24) ||| (d2 <<< 16) ||| (d3 <<< 8) ||| d4))).2,
                    mode := (m : Int) }
              else r3.2.1) r3.2.2
        else if opcode = OP_SET_LOGLEVEL then
          (atr_byte r3.2.2 0).bind fun ll =>
            read_usb_uart_apdu_fuel uninit fuel
              { r3.2.1 with
                update_loglevel_queue := (queue_try_add r3.2.1.update_loglevel_queue ll).2,
                current_loglevel := (ll : Int) } r3.2.2
        else Outcome.done (R.length, r3.2.1, r3.2.2) := by
  have hu : u32_of_bytes (u32_bytes R.length ++ []) = R.length := by
    have := u32_of_bytes_u32_bytes R.length h32 []
    rwa [map_mod_of_lt _ (u32_bytes_lt R.length)] at this
  have r1 := read_usb_uart_blocking_spec h [0] [opcode] (u32_bytes R.length ++ (R ++ rest))
    (by simpa using hop) (by simp) hinp
  have r2 := read_usb_uart_blocking_spec { h with inp := u32_bytes R.length ++ (R ++ rest) }
    [0, 0, 0, 0] (u32_bytes R.length) (R ++ rest) (u32_bytes_lt _) (by simp [u32_bytes_length]) rfl
  simp only [List.length_singleton, u32_bytes_length] at r1 r2
  rw [read_usb_uart_apdu_fuel, r1, Outcome.bind_done]
  simp only []
  rw [r2, Outcome.bind_done]
  simp only [List.drop_succ_cons, List.drop_zero, List.drop_nil, hu, List.cons_append,
    List.nil_append, List.getD_cons_zero]

/-- One SET_LOGLEVEL frame: the level is stored, an update is queued when the
queue has room, and the next frame is read. -/
theorem read_usb_uart_apdu_fuel_loglevel (uninit : answer_to_reset) (fuel : Nat) (h : Host)
    (data : List Nat) (v : Nat) (rest : List Nat) (hv : v < 256) (hlen : 1 ≤ data.length)
    (hinp : h.inp = OP_SET_LOGLEVEL :: (u32_bytes 1 ++ ([v] ++ rest))) :
    read_usb_uart_apdu_fuel uninit (fuel + 1) h data =
      read_usb_uart_apdu_fuel uninit fuel
        { h with inp := rest,
                 update_loglevel_queue := (queue_try_add h.update_loglevel_queue v).2,
                 current_loglevel := (v : Int) } (v :: data.drop 1) := by
  have r3 := read_usb_uart_blocking_spec { h with inp := [v] ++ rest } data [v] rest
    (by simpa using hv) (by simpa using hlen) rfl
  rw [read_usb_uart_apdu_fuel_reads uninit fuel h data OP_SET_LOGLEVEL [v] rest (by decide)
    (by simp) hinp, r3, Outcome.bind_done]
  simp only [List.length_singleton, List.cons_append, List.nil_append]
  rw [if_neg (by decide), if_neg (by decide), if_neg (by decide), if_pos trivial,
    atr_byte_of (v :: data.drop 1) 0 v (by simp), Outcome.bind_done]

/-- A frame with an opcode other than SENDATR, REQUEST_STATE, SET_UARTMODE and
SET_LOGLEVEL ends the reading at any depth of the recursion. -/
theorem read_usb_uart_apdu_fuel_frame (uninit : answer_to_reset) (fuel : Nat) (h : Host)
    (data : List Nat) (opcode : Nat) (R rest : List Nat) (hop : opcode < 256)
    (h3 : opcode ≠ OP_SENDATR) (h5 : opcode ≠ OP_REQUEST_STATE)
    (h6 : opcode ≠ OP_SET_UARTMODE) (h7 : opcode ≠ OP_SET_LOGLEVEL)
    (hR : ∀ b ∈ R, b < 256) (hlen : R.length ≤ data.length) (h32 : R.length < 2 ^ 32)
    (hinp : h.inp = opcode :: (u32_bytes R.length ++ (R ++ rest))) :
    read_usb_uart_apdu_fuel uninit (fuel + 1) h data =
      Outcome.done (R.length, { h with inp := rest }, R ++ data.drop R.length) := by
  have r3 := read_usb_uart_blocking_spec { h with inp := R ++ rest } data R rest hR hlen rfl
  rw [read_usb_uart_apdu_fuel_reads uninit fuel h data opcode R rest hop h32 hinp, r3,
    Outcome.bind_done]
  simp only [if_neg h3, if_neg h5, if_neg h6, if_neg h7]

/-- C31, the code at the failing input: two SET_LOGLEVEL frames with the value 3
(07 01 00 00 00 03, twice) followed by an APDU frame, read with an empty
log-level queue, leave two updates in the queue, where one frame leaves one; the
level is 3 in both cases. -/
theorem C31_two_frames_two_updates :
    (read_usb_uart_apdu ⟨0, 0, 0, 0, 0, 0, 0, List.replicate 34 0, false⟩
        ⟨[7, 1, 0, 0, 0, 3, 7, 1, 0, 0, 0, 3, 0, 2, 0, 0, 0, 0x90, 0x00], [], [], [], [], 1, 0, 0, 0⟩
        (List.replicate 8 0)).bind
      (fun r => Outcome.done (r.2.1.update_loglevel_queue, r.2.1.current_loglevel)) =
      Outcome.done ([3, 3], 3) ∧
    (read_usb_uart_apdu ⟨0, 0, 0, 0, 0, 0, 0, List.replicate 34 0, false⟩
        ⟨[7, 1, 0, 0, 0, 3, 0, 2, 0, 0, 0, 0x90, 0x00], [], [], [], [], 1, 0, 0, 0⟩
        (List.replicate 8 0)).bind
      (fun r => Outcome.done (r.2.1.update_loglevel_queue, r.2.1.current_loglevel)) =
      Outcome.done ([3], 3) := by
  decide

/-- C31 as amended: two consecutive SET_LOGLEVEL frames carrying the same value
`v`, followed by a frame that ends the reading, leave the current log level
equal to `v`, the same as after one such frame; each of the two frames adds an
update to the log-level queue while the queue holds fewer than two entries, so
an empty queue holds two updates afterwards, where one frame leaves one. -/
theorem C31_two_loglevel_frames_amended (uninit : answer_to_reset) (h : Host) (data : List Nat)
    (v opcode : Nat) (R rest : List Nat) (hv : v < 256) (hop : opcode < 256)
    (h3 : opcode ≠ OP_SENDATR) (h5 : opcode ≠ OP_REQUEST_STATE)
    (h6 : opcode ≠ OP_SET_UARTMODE) (h7 : opcode ≠ OP_SET_LOGLEVEL)
    (hR : ∀ b ∈ R, b < 256) (hdata : 1 ≤ data.length) (hlen : R.length ≤ data.length)
    (h32 : R.length < 2 ^ 32) :
    ∃ r2 r1,
      read_usb_uart_apdu uninit
        { h with inp := OP_SET_LOGLEVEL :: (u32_bytes 1 ++ ([v] ++
                          (OP_SET_LOGLEVEL :: (u32_bytes 1 ++ ([v] ++
                            (opcode :: (u32_bytes R.length ++ (R ++ rest)))))))) } data
        = Outcome.done r2 ∧
      read_usb_uart_apdu uninit
        { h with inp := OP_SET_LOGLEVEL :: (u32_bytes 1 ++ ([v] ++
                          (opcode :: (u32_bytes R.length ++ (R ++ rest))))) } data
        = Outcome.done r1 ∧
      r2.2.1.current_loglevel = (v : Int) ∧ r1.2.1.current_loglevel = (v : Int) ∧
      r1.2.1.update_loglevel_queue = (queue_try_add h.update_loglevel_queue v).2 ∧
      r2.2.1.update_loglevel_queue =
        (queue_try_add (queue_try_add h.update_loglevel_queue v).2 v).2 ∧
      (h.update_loglevel_queue = [] →
        r1.2.1.update_loglevel_queue = [v] ∧ r2.2.1.update_loglevel_queue = [v, v]) := by
  have hd : R.length ≤ (v :: data.drop 1).length := by
    simp only [List.length_cons, List.length_drop]
    omega
  have hd2 : R.length ≤ (v :: (v :: data.drop 1).drop 1).length := by
    have : (v :: (v :: data.drop 1).drop 1).length = data.length := by
      simp only [List.drop_succ_cons, List.drop_zero, List.length_cons, List.length_drop]
      omega
    omega
  have a1 := read_usb_uart_apdu_fuel_loglevel uninit (R.length + rest.length + 15 + 1 + 1)
    { h with inp := OP_SET_LOGLEVEL :: (u32_bytes 1 ++ ([v] ++
                      (OP_SET_LOGLEVEL :: (u32_bytes 1 ++ ([v] ++
                        (opcode :: (u32_bytes R.length ++ (R ++ rest)))))))) } data v
    (OP_SET_LOGLEVEL :: (u32_bytes 1 ++ ([v] ++ (opcode :: (u32_bytes R.length ++ (R ++ rest))))))
    hv hdata rfl
  have a2 := read_usb_uart_apdu_fuel_loglevel uninit (R.length + rest.length + 15 + 1)
    { h with inp := OP_SET_LOGLEVEL :: (u32_bytes 1 ++ ([v] ++
                      (opcode :: (u32_bytes R.length ++ (R ++ rest))))),
             update_loglevel_queue := (queue_try_add h.update_loglevel_queue v).2,
             current_loglevel := (v : Int) } (v :: data.drop 1) v
    (opcode :: (u32_bytes R.length ++ (R ++ rest))) hv (by simp) rfl
  have a3 := read_usb_uart_apdu_fuel_frame uninit (R.length + rest.length + 15)
    { h with inp := opcode :: (u32_bytes R.length ++ (R ++ rest)),
             update_loglevel_queue :=
               (queue_try_add (queue_try_add h.update_loglevel_queue v).2 v).2,
             current_loglevel := (v : Int) } (v :: (v :: data.drop 1).drop 1) opcode R rest
    hop h3 h5 h6 h7 hR hd2 h32 rfl
  have b1 := read_usb_uart_apdu_fuel_loglevel uninit (R.length + rest.length + 10 + 1)
    { h with inp := OP_SET_LOGLEVEL :: (u32_bytes 1 ++ ([v] ++
                      (opcode :: (u32_bytes R.length ++ (R ++ rest))))) } data v
    (opcode :: (u32_bytes R.length ++ (R ++ rest))) hv hdata rfl
  have b2 := read_usb_uart_apdu_fuel_frame uninit (R.length + rest.length + 10)
    { h with inp := opcode :: (u32_bytes R.length ++ (R ++ rest)),
             update_loglevel_queue := (queue_try_add h.update_loglevel_queue v).2,
             current_loglevel := (v : Int) } (v :: data.drop 1) opcode R rest
    hop h3 h5 h6 h7 hR hd h32 rfl
  have l2 : (OP_SET_LOGLEVEL :: (u32_bytes 1 ++ ([v] ++
      (OP_SET_LOGLEVEL :: (u32_bytes 1 ++ ([v] ++
        (opcode :: (u32_bytes R.length ++ (R ++ rest))))))))).length + 1 =
      R.length + rest.length + 15 + 1 + 1 + 1 := by
    simp only [List.length_cons, List.length_append, u32_bytes_length, List.length_nil,
      List.length_singleton]
    omega
  have l1 : (OP_SET_LOGLEVEL :: (u32_bytes 1 ++ ([v] ++
        (opcode :: (u32_bytes R.length ++ (R ++ rest)))))).length + 1 =
      R.length + rest.length + 10 + 1 + 1 := by
    simp only [List.length_cons, List.length_append, u32_bytes_length, List.length_nil,
      List.length_singleton]
    omega
  refine ⟨(R.length,
      { h with inp := rest,
               update_loglevel_queue :=
                 (queue_try_add (queue_try_add h.update_loglevel_queue v).2 v).2,
               current_loglevel := (v : Int) },
      R ++ (v :: (v :: data.drop 1).drop 1).drop R.length),
    (R.length,
      { h with inp := rest,
               update_loglevel_queue := (queue_try_add h.update_loglevel_queue v).2,
               current_loglevel := (v : Int) },
      R ++ (v :: data.drop 1).drop R.length), ?_, ?_, ?_⟩
  · unfold read_usb_uart_apdu
    simp only []
    rw [l2]
    exact a1.trans (a2.trans a3)
  · unfold read_usb_uart_apdu
    simp only []
    rw [l1]
    exact b1.trans b2
  · refine ⟨rfl, rfl, rfl, rfl, ?_⟩
    intro hq
    simp [queue_try_add, hq]

theorem C31_two_loglevel_frames_amended_witness :
    ∃ r2 r1,
      read_usb_uart_apdu ⟨0, 0, 0, 0, 0, 0, 0, List.replicate 34 0, false⟩
        { (⟨[], [], [], [], [], 1, 0, 0, 0⟩ : Host) with
          inp := OP_SET_LOGLEVEL :: (u32_bytes 1 ++ ([3] ++
                   (OP_SET_LOGLEVEL :: (u32_bytes 1 ++ ([3] ++
                     (OP_APDU :: (u32_bytes [0x90, 0x00].length ++ ([0x90, 0x00] ++ [])))))))) }
        [0, 0, 0, 0] = Outcome.done r2 ∧
      read_usb_uart_apdu ⟨0, 0, 0, 0, 0, 0, 0, List.replicate 34 0, false⟩
        { (⟨[], [], [], [], [], 1, 0, 0, 0⟩ : Host) with
          inp := OP_SET_LOGLEVEL :: (u32_bytes 1 ++ ([3] ++
                   (OP_APDU :: (u32_bytes [0x90, 0x00].length ++ ([0x90, 0x00] ++ []))))) }
        [0, 0, 0, 0] = Outcome.done r1 ∧
      r2.2.1.current_loglevel = ((3 : Nat) : Int) ∧ r1.2.1.current_loglevel = ((3 : Nat) : Int) ∧
      r1.2.1.update_loglevel_queue =
        (queue_try_add (⟨[], [], [], [], [], 1, 0, 0, 0⟩ : Host).update_loglevel_queue 3).2 ∧
      r2.2.1.update_loglevel_queue =
        (queue_try_add
          (queue_try_add (⟨[], [], [], [], [], 1, 0, 0, 0⟩ : Host).update_loglevel_queue 3).2 3).2 ∧
      ((⟨[], [], [], [], [], 1, 0, 0, 0⟩ : Host).update_loglevel_queue = [] →
        r1.2.1.update_loglevel_queue = [3] ∧ r2.2.1.update_loglevel_queue = [3, 3]) :=
  C31_two_loglevel_frames_amended ⟨0, 0, 0, 0, 0, 0, 0, List.replicate 34 0, false⟩
    ⟨[], [], [], [], [], 1, 0, 0, 0⟩ [0, 0, 0, 0] 3 OP_APDU [0x90, 0x00] [] (by decide) (by decide)
    (by decide) (by decide) (by decide) (by decide) (by decide) (by decide) (by decide) (by decide)

/-! ## C32 and C33: the supervisor -/

/-- The three reads at the head of `read_usb_atr` on a complete frame whose
payload fits the buffer. -/
theorem read_usb_atr_fuel_reads (fuel : Nat) (h : Host) (atr : answer_to_reset)
    (opcode : Nat) (P rest : List Nat) (hop : opcode < 256) (hP : ∀ b ∈ P, b < 256)
    (hlen : P.length ≤ atr.payload.length) (h32 : P.length < 2 ^ 32)
    (hinp : h.inp = opcode :: (u32_bytes P.length ++ (P ++ rest))) :
    read_usb_atr_fuel (fuel + 1) h atr =
      if opcode = OP_SENDATR then
        (parse_ATR { atr with payload := P ++ atr.payload.drop P.length,
                              len := P.length % 256 }).bind
          fun atr2 => Outcome.done (0, { h with inp := rest }, atr2)
      else if opcode = OP_REQUEST_STATE then
        (write_usb_uart { h with inp := rest } OP_REQUEST_STATE [h.current_state % 256] 1).bind
          fun h4 => Outcome.done (2 ^ 32 - 1, h4,
            { atr with payload := P ++ atr.payload.drop P.length, len := P.length % 256 })
      else if opcode = OP_SET_UARTMODE then
        (atr_byte (P ++ atr.payload.drop P.length) 0).bind fun m =>
          read_usb_atr_fuel fuel { h with inp := rest, mode := (m : Int) }
            { atr with payload := P ++ atr.payload.drop P.length, len := P.length % 256 }
      else if opcode = OP_SET_LOGLEVEL then
        (atr_byte (P ++ atr.payload.drop P.length) 0).bind fun ll =>
          read_usb_atr_fuel fuel { h with inp := rest, current_loglevel := (ll : Int) }
            { atr with payload := P ++ atr.payload.drop P.length, len := P.length % 256 }
      else Outcome.done (2 ^ 32 - 1, { h with inp := rest },
        { atr with payload := P ++ atr.payload.drop P.length, len := P.length % 256 }) := by
  have hu : u32_of_bytes (u32_bytes P.length ++ []) = P.length := by
    have := u32_of_bytes_u32_bytes P.length h32 []
    rwa [map_mod_of_lt _ (u32_bytes_lt P.length)] at this
  have r1 := read_usb_uart_blocking_spec h [0] [opcode] (u32_bytes P.length ++ (P ++ rest))
    (by simpa using hop) (by simp) hinp
  have r2 := read_usb_uart_blocking_spec { h with inp := u32_bytes P.length ++ (P ++ rest) }
    [0, 0, 0, 0] (u32_bytes P.length) (P ++ rest) (u32_bytes_lt _) (by simp [u32_bytes_length]) rfl
  have r3 := read_usb_uart_blocking_spec { h with inp := P ++ rest } atr.payload P rest hP hlen rfl
  simp only [List.length_singleton, u32_bytes_length] at r1 r2
  rw [read_usb_atr_fuel, r1, Outcome.bind_done]
  simp only []
  rw [r2, Outcome.bind_done]
  simp only [List.drop_succ_cons, List.drop_zero, List.drop_nil, hu, List.cons_append,
    List.nil_append, List.getD_cons_zero]
  rw [r3, Outcome.bind_done]

set_option maxRecDepth 100000 in
/-- C32, the code at the failing input: in state NEED_ATR the host answers the
first SENDATR request with the frame 03 02 00 00 00 00 00, whose payload 00 00
is no ATR (TS = 0x00).  `read_usb_atr` returns 0 all the same, so the request
loop ends after this one request and the state becomes RDY_TO_RELAY. -/
theorem C32_invalid_ATR_leaves_NEED_ATR :
    (main_need_atr [0, 0, 0] 8 ⟨[3, 2, 0, 0, 0, 0x00, 0x00], [], [], [], [], NEED_ATR, 0, 4764000, 0⟩
        atr_example).bind
      (fun r => Outcome.done (r.1.current_state, r.1.out, r.1.inp)) =
      Outcome.done (RDY_TO_RELAY, [3, 0, 0, 0, 0], []) := by
  decide

/-- C32 as amended: the supervisor leaves NEED_ATR for RDY_TO_RELAY after the
host has sent a SENDATR frame, whatever `parse_ATR` makes of the payload: a
SENDATR frame whose payload is not a valid ATR ends the request loop as well,
the state becomes RDY_TO_RELAY and no further request is sent.  A REQUEST_STATE
frame or a frame with an unknown opcode keeps the state and the loop goes into
its next pass, which starts with another SENDATR request. -/
theorem C32_leaves_NEED_ATR_amended (stack : List Nat) (fuel : Nat) (h : Host)
    (ATR a : answer_to_reset) (opcode : Nat) (P rest : List Nat) (hop : opcode < 256)
    (hP : ∀ b ∈ P, b < 256) (hlen : P.length ≤ ATR.payload.length) (h32 : P.length < 2 ^ 32)
    (hinp : h.inp = opcode :: (u32_bytes P.length ++ (P ++ rest))) :
    (opcode = OP_SENDATR →
      parse_ATR { ATR with payload := P ++ ATR.payload.drop P.length, len := P.length % 256 } =
        Outcome.done a →
      main_need_atr stack (fuel + 1) h ATR =
        Outcome.done ({ h with inp := rest,
                               out := h.out ++ [OP_SENDATR] ++ (0 :: stack.take 3).map (· % 256),
                               current_state := RDY_TO_RELAY }, a)) ∧
    (opcode ≠ OP_SENDATR → opcode ≠ OP_SET_UARTMODE → opcode ≠ OP_SET_LOGLEVEL →
      ∃ h1, main_need_atr stack (fuel + 1) h ATR =
          main_need_atr stack fuel h1
            { ATR with payload := P ++ ATR.payload.drop P.length, len := P.length % 256 } ∧
        h1.current_state = h.current_state ∧ h1.inp = rest) := by
  have hr := read_usb_atr_fuel_reads
    ({ h with out := h.out ++ [OP_SENDATR] ++ (0 :: stack.take 3).map (· % 256) } : Host).inp.length
    { h with out := h.out ++ [OP_SENDATR] ++ (0 :: stack.take 3).map (· % 256) } ATR opcode P rest
    hop hP hlen h32 hinp
  constructor
  · intro h3 hparse
    rw [if_pos h3, hparse, Outcome.bind_done] at hr
    unfold main_need_atr
    simp only []
    unfold read_usb_atr
    rw [hr, Outcome.bind_done]
    simp only []
    rw [if_neg (by decide)]
  · intro h3 h6 h7
    rw [if_neg h3, if_neg h6, if_neg h7] at hr
    by_cases h5 : opcode = OP_REQUEST_STATE
    · rw [if_pos h5, write_usb_uart_spec _ _ _ _ (by decide) (by simp)
        (by intro b hb; simp only [List.mem_singleton] at hb; omega), Outcome.bind_done] at hr
      refine ⟨{ h with
          inp := rest,
          out := h.out ++ [OP_SENDATR] ++ (0 :: stack.take 3).map (· % 256) ++
            OP_REQUEST_STATE :: (u32_bytes 1 ++ [h.current_state % 256].take 1) }, ?_, rfl, rfl⟩
      rw [main_need_atr]
      simp only []
      unfold read_usb_atr
      rw [hr, Outcome.bind_done]
      simp only []
      rw [if_pos (by decide)]
    · rw [if_neg h5] at hr
      refine ⟨{ h with
          inp := rest,
          out := h.out ++ [OP_SENDATR] ++ (0 :: stack.take 3).map (· % 256) }, ?_, rfl, rfl⟩
      rw [main_need_atr]
      simp only []
      unfold read_usb_atr
      rw [hr, Outcome.bind_done]
      simp only []
      rw [if_pos (by decide)]

set_option maxRecDepth 100000 in
theorem C32_leaves_NEED_ATR_amended_witness :
    main_need_atr [0, 0, 0] (7 + 1)
        ⟨[3, 2, 0, 0, 0, 0x00, 0x00], [], [], [], [], NEED_ATR, 0, 4764000, 0⟩ atr_example =
      Outcome.done
        ({ (⟨[3, 2, 0, 0, 0, 0x00, 0x00], [], [], [], [], NEED_ATR, 0, 4764000, 0⟩ : Host) with
            inp := [],
            out := [] ++ [OP_SENDATR] ++ (0 :: [0, 0, 0].take 3).map (· % 256),
            current_state := RDY_TO_RELAY },
          { atr_example with payload := [0x00, 0x00] ++ List.replicate 32 0, len := 2 }) ∧
    ∃ h1, main_need_atr [0, 0, 0] (12 + 1)
          ⟨[5, 0, 0, 0, 0, 3, 2, 0, 0, 0, 0x3B, 0x00], [], [], [], [], NEED_ATR, 0, 4764000, 0⟩
          atr_example =
        main_need_atr [0, 0, 0] 12 h1
          { atr_example with payload := [] ++ atr_example.payload.drop ([] : List Nat).length,
                             len := ([] : List Nat).length % 256 } ∧
      h1.current_state =
        (⟨[5, 0, 0, 0, 0, 3, 2, 0, 0, 0, 0x3B, 0x00], [], [], [], [], NEED_ATR, 0, 4764000, 0⟩ :
          Host).current_state ∧
      h1.inp = [3, 2, 0, 0, 0, 0x3B, 0x00] :=
  ⟨(C32_leaves_NEED_ATR_amended [0, 0, 0] 7
      ⟨[3, 2, 0, 0, 0, 0x00, 0x00], [], [], [], [], NEED_ATR, 0, 4764000, 0⟩ atr_example
      { atr_example with payload := [0x00, 0x00] ++ List.replicate 32 0, len := 2 }
      OP_SENDATR [0x00, 0x00] [] (by decide) (by decide) (by decide) (by decide) (by decide)).1
      rfl (by decide),
   (C32_leaves_NEED_ATR_amended [0, 0, 0] 12
      ⟨[5, 0, 0, 0, 0, 3, 2, 0, 0, 0, 0x3B, 0x00], [], [], [], [], NEED_ATR, 0, 4764000, 0⟩
      atr_example atr_example OP_REQUEST_STATE [] [3, 2, 0, 0, 0, 0x3B, 0x00] (by decide)
      (by decide) (by decide) (by decide) (by decide)).2 (by decide) (by decide) (by decide)⟩

theorem main_updates_core1 (s r : main_state) (h : main_updates s = Outcome.done r) :
    r.core1 = s.core1 := by
  unfold main_updates at h
  obtain ⟨s1, hs1, h⟩ := Outcome.bind_eq_done _ _ _ h
  have e1 : s1.core1 = s.core1 := by
    split at hs1
    · split at hs1
      · simp at hs1
      · simp only [Outcome.done.injEq] at hs1
        rw [← hs1]
    · simp only [Outcome.done.injEq] at hs1
      rw [← hs1]
  simp only [Outcome.done.injEq] at h
  rw [← h, ← e1]
  split <;> split <;> (try split) <;> rfl

/-- C33: on a reset edge the supervisor launches `prot_t1` on the second core
exactly when `ATR.protocol` is 1, `prot_t0` exactly when it is 0, and nothing
(the core stays reset) exactly when the protocol is neither; the rest of the
pass through the loop of `main` does not change what runs there, and a pass
without a reset edge launches nothing. -/
theorem C33_launch_by_protocol (s : main_state) :
    ((main_reset_edge s).core1 = some core1_entry.prot_t1 ↔ s.ATR.protocol = 1) ∧
    ((main_reset_edge s).core1 = some core1_entry.prot_t0 ↔ s.ATR.protocol = 0) ∧
    ((main_reset_edge s).core1 = none ↔ (s.ATR.protocol ≠ 1 ∧ s.ATR.protocol ≠ 0)) ∧
    (main_iteration true s).bind (fun r => Outcome.done r.core1) =
      (main_iteration true s).bind (fun _ => Outcome.done (main_reset_edge s).core1) ∧
    (main_iteration false s).bind (fun r => Outcome.done r.core1) =
      (main_iteration false s).bind (fun _ => Outcome.done s.core1) := by
  refine ⟨?_, ?_, ?_, ?_, ?_⟩
  · unfold main_reset_edge
    by_cases h1 : s.ATR.protocol = 1
    · simp [h1]
    · by_cases h0 : s.ATR.protocol = 0
      · simp [h0]
      · simp [h1, h0]
  · unfold main_reset_edge
    by_cases h1 : s.ATR.protocol = 1
    · simp [h1]
    · by_cases h0 : s.ATR.protocol = 0
      · simp [h0]
      · simp [h1, h0]
  · unfold main_reset_edge
    by_cases h1 : s.ATR.protocol = 1
    · simp [h1]
    · by_cases h0 : s.ATR.protocol = 0
      · simp [h0]
      · simp [h1, h0]
  · apply Outcome.bind_congr
    intro a ha
    rw [main_updates_core1 _ a ha]
    rfl
  · apply Outcome.bind_congr
    intro a ha
    rw [main_updates_core1 _ a ha]
    rfl

/-! ## C34 to C38: the T=1 loop -/

/-- What `t1_write` puts on the line for a block without information field. -/
theorem t1_write_empty (u : Uart) (tp : t1_tpdu) (hlen : tp.len = 0) (hnad : tp.nad < 256)
    (hpcb : tp.pcb < 256) (hecho : 4 ≤ (rxBytes u.rx).length) :
    t1_write u tp = Outcome.done (1,
      ⟨dropBytes 4 u.rx, u.tx ++ [tp.nad, tp.pcb, 0, tp.nad ^^^ tp.pcb], u.baud⟩) := by
  have hx : tp.nad ^^^ tp.pcb < 256 := Nat.xor_lt_two_pow (n := 8) hnad hpcb
  rw [t1_write_raw u tp (by omega), hlen]
  simp [List.range'_succ, t1_write_byte, hlen, Nat.mod_eq_of_lt hnad, Nat.mod_eq_of_lt hpcb,
    Nat.mod_eq_of_lt hx]

/-- The pass of the T=1 loop after a checksum error, given the echoes of the four
bytes written. -/
theorem prot_t1_iteration_checksum (uninit : answer_to_reset) (r_tpdu : t1_tpdu)
    (s : prot_t1_state) (u1 : Uart) (t : t1_tpdu)
    (hread : t1_read s.h.clk s.u s.command_tpdu = Outcome.done (-1, u1, t))
    (hecho : 4 ≤ (rxBytes u1.rx).length) :
    prot_t1_iteration uninit r_tpdu s =
      Outcome.done { s with
        u := ⟨dropBytes 4 u1.rx, u1.tx ++ [0x00, if s.seq % 2 = 0 then 0x81 else 0x91, 0x00,
                if s.seq % 2 = 0 then 0x81 else 0x91], u1.baud⟩,
        command_tpdu := t, seq := s.seq + 1 } := by
  have hw := t1_write_empty u1
    { r_tpdu with nad := 0x00, len := 0x00, pcb := if s.seq % 2 = 0 then 0x81 else 0x91,
                  check := if s.seq % 2 = 0 then 0x81 else 0x91 } rfl (by simp)
    (by show (if s.seq % 2 = 0 then 0x81 else 0x91) < 256; split <;> decide) hecho
  unfold prot_t1_iteration
  rw [hread, Outcome.bind_done]
  simp only []
  rw [if_neg (by decide), if_neg (by decide), if_pos trivial, hw, Outcome.bind_done]
  simp only [Nat.zero_xor]

/-- C34: when `t1_read` reports a checksum error (-1) and the line echoes the
four bytes written, the pass of the T=1 loop transmits exactly the R-block
00 PCB 00 PCB with PCB 0x81 for an even sequence counter and 0x91 for an odd
one (NAD 0, LEN 0, LRC equal to the PCB); the host pipe is left as it was, so
nothing is forwarded. -/
theorem C34_checksum_error_R_block (uninit : answer_to_reset) (r_tpdu : t1_tpdu)
    (s : prot_t1_state) (u1 : Uart) (t : t1_tpdu)
    (hread : t1_read s.h.clk s.u s.command_tpdu = Outcome.done (-1, u1, t))
    (hecho : 4 ≤ (rxBytes u1.rx).length) :
    ∃ s1, prot_t1_iteration uninit r_tpdu s = Outcome.done s1 ∧
      s1.u.tx = u1.tx ++ [0x00, if s.seq % 2 = 0 then 0x81 else 0x91, 0x00,
                          if s.seq % 2 = 0 then 0x81 else 0x91] ∧
      s1.h = s.h :=
  ⟨_, prot_t1_iteration_checksum uninit r_tpdu s u1 t hread hecho, rfl, rfl⟩

set_option maxRecDepth 1000000 in
theorem C34_checksum_error_R_block_witness :
    ∃ s1, prot_t1_iteration atr_example zero_tpdu
        (t1_example [0x00, 0x00, 0x01, 0xAA, 0x00, 0x00, 0x91, 0x00, 0x91] [] 1 32) =
        Outcome.done s1 ∧
      s1.u.tx = [] ++ [0x00, if (1 : Int) % 2 = 0 then 0x81 else 0x91, 0x00,
                       if (1 : Int) % 2 = 0 then 0x81 else 0x91] ∧
      s1.h = (t1_example [0x00, 0x00, 0x01, 0xAA, 0x00, 0x00, 0x91, 0x00, 0x91] [] 1 32).h :=
  C34_checksum_error_R_block atr_example zero_tpdu
    (t1_example [0x00, 0x00, 0x01, 0xAA, 0x00, 0x00, 0x91, 0x00, 0x91] [] 1 32)
    ⟨[0x00, 0x91, 0x00, 0x91].map RxEvent.byte, [], 9600⟩
    { zero_tpdu with len := 1, apdu := zero_tpdu.apdu.set 0 0xAA } (by decide) (by decide)

set_option maxRecDepth 1000000 in
/-- C36, the code at the failing input: 33 bytes 0xAA are sent in blocks of 32
and the reader answers the first block with the R-block 00 81 00 81 (error).
The first block goes out with PCB 0x20 and LRC 0x00; `t1_write_complete_buffer`
then changes the sequence bit of `send_tpdu` before it handles the answer, so
the block sent again has PCB 0x60 and LRC 0x40. -/
theorem C36_resent_block_differs :
    (t1_write_complete_buffer 4764000 ⟨script_33_32_error, [], 9600⟩ 32 zero_tpdu
        (List.replicate 33 0xAA)).bind (fun r => Outcome.done r.2.tx) =
      Outcome.done (t1_frame 0x00 0x20 (List.replicate 32 0xAA) ++
        t1_frame 0x00 0x60 (List.replicate 32 0xAA) ++ t1_frame 0x00 0x40 [0xAA]) ∧
    t1_frame 0x00 0x20 (List.replicate 32 0xAA) =
      [0x00, 0x20, 0x20] ++ List.replicate 32 0xAA ++ [0x00] ∧
    t1_frame 0x00 0x60 (List.replicate 32 0xAA) =
      [0x00, 0x60, 0x20] ++ List.replicate 32 0xAA ++ [0x40] := by
  decide

set_option maxRecDepth 1000000 in
/-- C37, the code at the failing input: the reader sends the IFSD request
00 C1 01 00 C0 (information field size 0).  `t1_handle_s_block` answers
00 E1 01 00 E0 and stores 0 as the accepted size; the response to the next
command 00 00 01 AA AB is then sent with block size 0, and the block count of
`t1_write_complete_buffer` divides by zero.  A request 00 C1 01 FF 3F stores
255. -/
theorem C37_accepted_size_zero :
    (prot_t1_loop atr_example zero_tpdu 1
        (t1_example [0x00, 0xC1, 0x01, 0x00, 0xC0, 0x00, 0xE1, 0x01, 0x00, 0xE0,
                     0x00, 0x00, 0x01, 0xAA, 0xAB] [0, 2, 0, 0, 0, 0x90, 0x00] 1 32)).bind
      (fun s => Outcome.done (s.u.tx, s.accepted_size)) =
      Outcome.done ([0x00, 0xE1, 0x01, 0x00, 0xE0], 0) ∧
    prot_t1_loop atr_example zero_tpdu 2
        (t1_example [0x00, 0xC1, 0x01, 0x00, 0xC0, 0x00, 0xE1, 0x01, 0x00, 0xE0,
                     0x00, 0x00, 0x01, 0xAA, 0xAB] [0, 2, 0, 0, 0, 0x90, 0x00] 1 32) =
      Outcome.undefined ∧
    (∀ (fixed_clk : Nat) (u : Uart) (tpdu : t1_tpdu) (buffer : List Nat),
      t1_write_complete_buffer fixed_clk u 0 tpdu buffer = Outcome.undefined) ∧
    (prot_t1_loop atr_example zero_tpdu 1
        (t1_example [0x00, 0xC1, 0x01, 0xFF, 0x3F, 0x00, 0xE1, 0x01, 0xFF, 0x1F] [] 1 32)).bind
      (fun s => Outcome.done s.accepted_size) = Outcome.done 255 :=
  ⟨by decide, by decide, fun _ _ _ _ => rfl, by decide⟩

/-- What a pass of the T=1 loop does to the sequence counter when it writes an
R-block after a checksum error or the response to an IFSD request (PCB 0xC1) or
to an abort request (PCB 0xC2): given the echoes, it adds 1, which changes the
parity from which the sequence bit of the next I-block is taken. -/
theorem prot_t1_iteration_counter (uninit : answer_to_reset) (r_tpdu : t1_tpdu)
    (s : prot_t1_state) (pos : Int) (u1 : Uart) (t : t1_tpdu)
    (hread : t1_read s.h.clk s.u s.command_tpdu = Outcome.done (pos, u1, t))
    (h3 : pos ≠ -3) (h2 : pos ≠ -2)
    (hcase : (pos = -1 ∧ 4 ≤ (rxBytes u1.rx).length) ∨
      (pos ≠ -1 ∧ t.pcb = 0xC1 ∧ t.len + 4 ≤ (rxBytes u1.rx).length) ∨
      (pos ≠ -1 ∧ t.pcb = 0xC2 ∧ 4 ≤ (rxBytes u1.rx).length)) :
    ∃ s1, prot_t1_iteration uninit r_tpdu s = Outcome.done s1 ∧ s1.seq = s.seq + 1 ∧
      (s1.seq % 2 = 0 ↔ ¬ s.seq % 2 = 0) ∧
      (t1_adjust_sequence_bit s1.seq zero_tpdu).2.pcb ≠
        (t1_adjust_sequence_bit s.seq zero_tpdu).2.pcb := by
  have par : ∀ x : Int, x = s.seq + 1 → (x % 2 = 0 ↔ ¬ s.seq % 2 = 0) ∧
      (t1_adjust_sequence_bit x zero_tpdu).2.pcb ≠
        (t1_adjust_sequence_bit s.seq zero_tpdu).2.pcb := by
    intro x hx
    subst hx
    unfold t1_adjust_sequence_bit
    by_cases hp : s.seq % 2 = 0
    · have : ¬ (s.seq + 1) % 2 = 0 := by omega
      simp only [hp, this, if_true, if_false]
      exact ⟨by simp, by decide⟩
    · have : (s.seq + 1) % 2 = 0 := by omega
      simp only [hp, this, if_true, if_false]
      exact ⟨by simp, by decide⟩
  rcases hcase with ⟨h1, hecho⟩ | ⟨h1, hpcb, hecho⟩ | ⟨h1, hpcb, hecho⟩
  · subst h1
    exact ⟨_, prot_t1_iteration_checksum uninit r_tpdu s u1 t hread hecho, rfl, par _ rfl⟩
  · have hk : check_block_kind t = T1_S_BLOCK := by
      unfold check_block_kind
      rw [hpcb, if_neg (by decide), if_neg (by decide)]
    obtain ⟨U, hw⟩ : ∃ U, t1_write u1 { t with pcb := 0xE1 } = Outcome.done (1, U) :=
      ⟨_, t1_write_raw u1 { t with pcb := 0xE1 } hecho⟩
    have hh : t1_handle_s_block u1 t s.seq s.accepted_size =
        Outcome.done (2, U, { t with pcb := 0xE1 }, s.seq + 1, t.apdu.getD 0 0 % 256) := by
      unfold t1_handle_s_block
      rw [hpcb, if_neg (by decide), if_pos rfl]
      simp only []
      rw [hw, Outcome.bind_done]
    refine ⟨{ s with u := U, command_tpdu := { t with pcb := 0xE1 }, seq := s.seq + 1,
                     accepted_size := t.apdu.getD 0 0 % 256 }, ?_, rfl, par _ rfl⟩
    unfold prot_t1_iteration
    rw [hread, Outcome.bind_done]
    simp only []
    rw [if_neg h3, if_neg h2, if_neg h1, if_pos hk, hh, Outcome.bind_done]
  · have hk : check_block_kind t = T1_S_BLOCK := by
      unfold check_block_kind
      rw [hpcb, if_neg (by decide), if_neg (by decide)]
    obtain ⟨U, hw⟩ : ∃ U, t1_write u1 { t with nad := 0x00, pcb := 0xE2, len := 0x00 } =
        Outcome.done (1, U) :=
      ⟨_, t1_write_raw u1 { t with nad := 0x00, pcb := 0xE2, len := 0x00 } hecho⟩
    have hh : t1_handle_s_block u1 t s.seq s.accepted_size =
        Outcome.done (3, U, { t with nad := 0x00, pcb := 0xE2, len := 0x00 }, s.seq + 1,
          s.accepted_size) := by
      unfold t1_handle_s_block
      rw [hpcb, if_neg (by decide), if_neg (by decide), if_neg (by decide), if_pos rfl]
      simp only []
      rw [hw, Outcome.bind_done]
    refine ⟨{ s with u := U, command_tpdu := { t with nad := 0x00, pcb := 0xE2, len := 0x00 },
                     seq := s.seq + 1 }, ?_, rfl, par _ rfl⟩
    unfold prot_t1_iteration
    rw [hread, Outcome.bind_done]
    simp only []
    rw [if_neg h3, if_neg h2, if_neg h1, if_pos hk, hh, Outcome.bind_done]

set_option maxRecDepth 1000000 in
/-- C38, the code at the failing input: a session that starts with the sequence
counter at 1.  The reader sends the commands 00 00 01 AA AB and 00 40 01 BB FA
and the host answers 90 00 to each.  Without a disturbance the two responses
are 00 40 02 90 00 D2 and 00 00 02 90 00 92: the sequence bit alternates.  When
the second command first arrives with a wrong checksum (00 40 01 BB 00), the
loop transmits the R-block 00 81 00 81 and adds what `t1_write` returns to the
counter, and the response to the repeated command is 00 40 02 90 00 D2 again:
two I-blocks in a row carry the same sequence bit.  The same happens when the
reader sends the IFSD request 00 C1 01 20 E0 between the two commands. -/
theorem C38_R_block_changes_sequence_bit :
    (prot_t1_loop atr_example zero_tpdu 2
        (t1_example [0x00, 0x00, 0x01, 0xAA, 0xAB, 0x00, 0x40, 0x02, 0x90, 0x00, 0xD2,
                     0x00, 0x40, 0x01, 0xBB, 0xFA, 0x00, 0x00, 0x02, 0x90, 0x00, 0x92]
          [0, 2, 0, 0, 0, 0x90, 0x00, 0, 2, 0, 0, 0, 0x90, 0x00] 1 32)).bind
      (fun s => Outcome.done s.u.tx) =
      Outcome.done [0x00, 0x40, 0x02, 0x90, 0x00, 0xD2, 0x00, 0x00, 0x02, 0x90, 0x00, 0x92] ∧
    (prot_t1_loop atr_example zero_tpdu 3
        (t1_example [0x00, 0x00, 0x01, 0xAA, 0xAB, 0x00, 0x40, 0x02, 0x90, 0x00, 0xD2,
                     0x00, 0x40, 0x01, 0xBB, 0x00, 0x00, 0x81, 0x00, 0x81,
                     0x00, 0x40, 0x01, 0xBB, 0xFA, 0x00, 0x40, 0x02, 0x90, 0x00, 0xD2]
          [0, 2, 0, 0, 0, 0x90, 0x00, 0, 2, 0, 0, 0, 0x90, 0x00] 1 32)).bind
      (fun s => Outcome.done s.u.tx) =
      Outcome.done [0x00, 0x40, 0x02, 0x90, 0x00, 0xD2, 0x00, 0x81, 0x00, 0x81,
                    0x00, 0x40, 0x02, 0x90, 0x00, 0xD2] ∧
    (prot_t1_loop atr_example zero_tpdu 3
        (t1_example [0x00, 0x00, 0x01, 0xAA, 0xAB, 0x00, 0x40, 0x02, 0x90, 0x00, 0xD2,
                     0x00, 0xC1, 0x01, 0x20, 0xE0, 0x00, 0xE1, 0x01, 0x20, 0xC0,
                     0x00, 0x40, 0x01, 0xBB, 0xFA, 0x00, 0x40, 0x02, 0x90, 0x00, 0xD2]
          [0, 2, 0, 0, 0, 0x90, 0x00, 0, 2, 0, 0, 0, 0x90, 0x00] 1 32)).bind
      (fun s => Outcome.done s.u.tx) =
      Outcome.done [0x00, 0x40, 0x02, 0x90, 0x00, 0xD2, 0x00, 0xE1, 0x01, 0x20, 0xC0,
                    0x00, 0x40, 0x02, 0x90, 0x00, 0xD2] := by
  decide

/-! ## C39 and C40: bounds of the ATR walk and the protocol -/

set_option maxRecDepth 100000 in
/-- C39, the code at the failing inputs: `parse_ATR` checks no index against the
ATR length.  In the two-byte ATR 3F 7F the decoded T0 (0x80) announces a TD1 that
is not there: the walk reads entry 2 of the two-entry local array `inv_atr`.  In
the two-byte ATR 3B 80, held in the 34-byte buffer, it reads buffer byte 2, which
is not part of the ATR, and takes the protocol from it (1 when that byte is 0x01,
0 when it is 0x00).  The walk itself always comes to an end. -/
theorem C39_reads_beyond_length :
    parse_ATR ⟨0, 0, 0, 0, 0, 2, 0, 0x3F :: 0x7F :: List.replicate 32 0, false⟩ =
      Outcome.undefined ∧
    (parse_ATR ⟨0, 0, 0, 0, 0, 2, 0, 0x3B :: 0x80 :: 0x01 :: List.replicate 31 0, false⟩).bind
      (fun r => Outcome.done r.protocol) = Outcome.done 1 ∧
    (parse_ATR ⟨0, 0, 0, 0, 0, 2, 0, 0x3B :: 0x80 :: 0x00 :: List.replicate 31 0, false⟩).bind
      (fun r => Outcome.done r.protocol) = Outcome.done 0 ∧
    ∀ atr : answer_to_reset, parse_ATR atr ≠ Outcome.blocked :=
  ⟨by decide, by decide, by decide, parse_ATR_terminates⟩

end PicoTunnel
